import Mathlib

/-!
# endoflife-go: the Date value type and the request pipeline

A shallow embedding of `types.go`, `errors.go` and `client.go`, together with
the parts of the Go standard library they call (`time.Parse`, `Time.Format`,
`Time.IsZero`, `encoding/json` on strings, `strconv.Atoi`, `http.StatusText`).

Conventions.
* Go strings and the text held in byte slices are lists of Unicode characters
  (`GoString`); the text is taken to be well-formed UTF-8.
* `int` is 64 bits wide.  Values that cannot overflow in the code paths below
  are kept as `Nat` or `Int`.
* A `time.Time` in UTC is its count of seconds since January 1 of year 1,
  which is the quantity `Time.IsZero` inspects, plus its nanoseconds.  The
  calendar arithmetic is that of `time.Date` and `time.absDate` as written up
  to Go 1.22; later releases compute the same functions.
* Errors that come out of the standard library (transport, body reader, JSON
  decoder, `time`, `strconv`) are values of `StdError`: they are never this
  package's sentinels or an `*APIError`.
-/

namespace Endoflife

/-- A Go string, as the list of its characters. -/
abbrev GoString := List Char

/-! ## Package `time` -/

namespace GoTime

/-- The `secondsPerDay` constant. -/
def secondsPerDay : Nat := 86400

/-- The `daysPer400Years` constant, `365*400 + 97`. -/
def daysPer400Years : Nat := 146097

/-- The `daysPer100Years` constant, `365*100 + 24`. -/
def daysPer100Years : Nat := 36524

/-- The `daysPer4Years` constant, `365*4 + 1`. -/
def daysPer4Years : Nat := 1461

/-- The `absoluteZeroYear` constant: the year in which absolute time starts. -/
def absoluteZeroYear : Int := -292277022399

/-- The `absoluteToInternal` constant: seconds from the absolute epoch to
January 1 of year 1. -/
def absoluteToInternal : Int := -9223371966579724800

/-- `time.isLeap`.  Only divisibility is tested, so the rounding of `%` on
negative years is immaterial. -/
def isLeap (year : Int) : Bool :=
  year % 4 == 0 && (year % 100 != 0 || year % 400 == 0)

/-- The `daysBefore` table: `daysBefore[m]` counts the days in a non-leap year
before month `m+1`. -/
def daysBefore : List Nat :=
  [0, 31, 59, 90, 120, 151, 181, 212, 243, 273, 304, 334, 365]

/-- `time.daysIn`, for a month in `1..12`. -/
def daysIn (m : Nat) (year : Int) : Nat :=
  if m == 2 && isLeap year then 29
  else daysBefore.getD m 0 - daysBefore.getD (m - 1) 0

/-- `time.daysSinceEpoch`: days from the absolute epoch to the start of
`year`. -/
def daysSinceEpoch (year : Int) : Nat :=
  let y := (year - absoluteZeroYear).toNat
  let n400 := y / 400
  let y1 := y - 400 * n400
  let d1 := daysPer400Years * n400
  let n100 := y1 / 100
  let y2 := y1 - 100 * n100
  let d2 := d1 + daysPer100Years * n100
  let n4 := y2 / 4
  let y3 := y2 - 4 * n4
  let d3 := d2 + daysPer4Years * n4
  d3 + 365 * y3

/-- A `time.Time` in UTC: `sec` is the number of seconds since January 1 of
year 1, 00:00:00 UTC, and `nsec` the nanoseconds within that second. -/
structure Time where
  sec : Int
  nsec : Nat
deriving DecidableEq, Repr

/-- The zero value `time.Time{}`. -/
def Time.zero : Time := ⟨0, 0⟩

/-- `Time.IsZero`: the instant is January 1, year 1, 00:00:00 UTC. -/
def Time.IsZero (t : Time) : Bool := t.sec == 0 && t.nsec == 0

/-- `time.Date(year, month, day, 0, 0, 0, 0, time.UTC)` for a month in
`1..12`, where the normalisation steps of `time.Date` change nothing. -/
def Date (year : Int) (month day : Nat) : Time :=
  let d0 := daysSinceEpoch year + daysBefore.getD (month - 1) 0
  let d1 := if isLeap year && month ≥ 3 then d0 + 1 else d0
  let d := (d1 : Int) + ((day : Int) - 1)
  ⟨d * secondsPerDay + absoluteToInternal, 0⟩

/-- `Time.abs`: seconds since the absolute epoch. -/
def Time.abs (t : Time) : Nat := (t.sec - absoluteToInternal).toNat

/-- The first half of `time.absDate`, all of it when `full = false`: the year
of an absolute time and the zero-based day within that year. -/
def absYearDay (abs : Nat) : Int × Nat :=
  let d := abs / secondsPerDay
  let n400 := d / daysPer400Years
  let y1 := 400 * n400
  let d1 := d - daysPer400Years * n400
  let n100 := d1 / daysPer100Years
  let n100 := n100 - n100 / 4
  let y2 := y1 + 100 * n100
  let d2 := d1 - daysPer100Years * n100
  let n4 := d2 / daysPer4Years
  let y3 := y2 + 4 * n4
  let d3 := d2 - daysPer4Years * n4
  let n := d3 / 365
  let n := n - n / 4
  let y := y3 + n
  let yday := d3 - 365 * n
  ((y : Int) + absoluteZeroYear, yday)

/-- The second half of `time.absDate`, run when `full = true`: the month and
the day of the month of day `yday` of `year`. -/
def monthDay (year : Int) (yday : Nat) : Nat × Nat :=
  if isLeap year && yday == 31 + 29 - 1 then (2, 29)
  else
    let day := if isLeap year && yday > 31 + 29 - 1 then yday - 1 else yday
    let month := day / 31
    let stop := daysBefore.getD (month + 1) 0
    if day ≥ stop then (month + 2, day - stop + 1)
    else (month + 1, day - daysBefore.getD month 0 + 1)

/-- `time.absDate` with `full = true`: the year, month and day of an absolute
time. -/
def absDate (abs : Nat) : Int × Nat × Nat :=
  let yd := absYearDay abs
  (yd.1, monthDay yd.1 yd.2)

/-- The decimal digit `n`, as a character. -/
def digitChar (n : Nat) : Char := Char.ofNat (48 + n % 10)

/-- The decimal digits of `u`, most significant first; `fuel` bounds the
number of digits. -/
def decimalDigits : Nat → Nat → GoString
  | 0, _ => []
  | fuel + 1, u => if u < 10 then [digitChar u] else decimalDigits fuel (u / 10) ++ [digitChar u]

/-- `time.appendInt`: `x` in decimal, zero-padded to `width` digits, with the
two fast paths for 2- and 4-digit fields. -/
def appendInt (x : Int) (width : Nat) : GoString :=
  let u := x.natAbs
  let sign : GoString := if x < 0 then ['-'] else []
  if width = 2 ∧ u < 100 then
    sign ++ [digitChar (u / 10), digitChar u]
  else if width = 4 ∧ u < 10000 then
    sign ++ [digitChar (u / 1000), digitChar (u / 100), digitChar (u / 10), digitChar u]
  else
    let ds := decimalDigits (u + 1) u
    sign ++ List.replicate (width - ds.length) '0' ++ ds

/-- `t.Format("2006-01-02")`. -/
def Time.Format (t : Time) : GoString :=
  let (year, month, day) := absDate t.abs
  appendInt year 4 ++ ['-'] ++ appendInt month 2 ++ ['-'] ++ appendInt day 2

/-- A `*time.ParseError`. -/
structure ParseError where
  Layout : GoString
  Value : GoString
  LayoutElem : GoString
  ValueElem : GoString
  Message : GoString
deriving DecidableEq, Repr

/-- The double quote character. -/
def dq : Char := Char.ofNat 34

/-- The backslash character. -/
def bs : Char := Char.ofNat 92

/-- The `lowerhex` table: the hexadecimal digit of the low four bits of `n`. -/
def lowerhex (n : Nat) : Char :=
  if n % 16 < 10 then Char.ofNat (48 + n % 16) else Char.ofNat (87 + n % 16)

/-- The bytes of the UTF-8 encoding of the code point `c`. -/
def utf8Bytes (c : Nat) : List Nat :=
  if c < 128 then [c]
  else if c < 2048 then [192 + c / 64, 128 + c % 64]
  else if c < 65536 then [224 + c / 4096, 128 + c / 64 % 64, 128 + c % 64]
  else [240 + c / 262144, 128 + c / 4096 % 64, 128 + c / 64 % 64, 128 + c % 64]

/-- One step of the loop of `time.quote`: a character outside printable ASCII
is written as the `\x` escapes of its bytes, a double quote or backslash gets
a backslash in front, every other character stands for itself. -/
def quoteChar (c : Char) : GoString :=
  if c.toNat ≥ 128 ∨ c.toNat < 32 then
    (utf8Bytes c.toNat).flatMap (fun b => [bs, 'x', lowerhex (b / 16), lowerhex b])
  else if c = dq ∨ c = bs then [bs, c]
  else [c]

/-- `time.quote`. -/
def quote (s : GoString) : GoString := [dq] ++ s.flatMap quoteChar ++ [dq]

/-- `(*ParseError).Error`. -/
def ParseError.Error (e : ParseError) : GoString :=
  if e.Message = [] then
    "parsing time ".toList ++ quote e.Value ++ " as ".toList ++ quote e.Layout
      ++ ": cannot parse ".toList ++ quote e.ValueElem ++ " as ".toList ++ quote e.LayoutElem
  else
    "parsing time ".toList ++ quote e.Value ++ e.Message

/-- `time.isDigit`: byte `i` of `s` exists and is a decimal digit. -/
def isDigit (s : GoString) (i : Nat) : Bool :=
  match s.get? i with
  | some c => 48 ≤ c.toNat && c.toNat ≤ 57
  | none => false

/-- `time.leadingInt`, with the value read so far as first argument: the
leading digits of `s` and the rest, or `none` on overflow. -/
def leadingInt : Nat → GoString → Option (Nat × GoString)
  | x, [] => some (x, [])
  | x, c :: rest =>
    if c.toNat < 48 ∨ c.toNat > 57 then some (x, c :: rest)
    else if x > 2 ^ 63 / 10 then none
    else
      let x1 := x * 10 + c.toNat - 48
      if x1 > 2 ^ 63 then none else leadingInt x1 rest

/-- `time.atoi`: an optional sign and then digits only. -/
def atoi (s : GoString) : Option Int :=
  let signed : Bool × GoString :=
    match s with
    | c :: rest => if c = '-' ∨ c = '+' then (c = '-', rest) else (false, s)
    | [] => (false, s)
  match leadingInt 0 signed.2 with
  | some (q, []) => some (if signed.1 then -(q : Int) else (q : Int))
  | _ => none

/-- `time.getnum`: a one- or two-digit number at the front of `s`; with
`fixed` it must have two digits. -/
def getnum (s : GoString) (fixed : Bool) : Option (Nat × GoString) :=
  if !isDigit s 0 then none
  else if !isDigit s 1 then
    if fixed then none
    else
      match s with
      | a :: rest => some (a.toNat - 48, rest)
      | [] => none
  else
    match s with
    | a :: b :: rest => some ((a.toNat - 48) * 10 + (b.toNat - 48), rest)
    | _ => none

/-- `time.cutspace`. -/
def cutspace : GoString → GoString
  | [] => []
  | c :: rest => if c = ' ' then cutspace rest else c :: rest

/-- The loop of `time.skip`, `fuel` bounding its iterations: the value with
the layout text `pfx` removed from its front, or the value left at the point
of mismatch. -/
def skipLoop : Nat → GoString → GoString → Except GoString GoString
  | 0, value, _ => .ok value
  | _ + 1, value, [] => .ok value
  | fuel + 1, value, p :: pfx =>
    if p = ' ' then
      match value with
      | v :: _ =>
        if v ≠ ' ' then .error value
        else skipLoop fuel (cutspace value) (cutspace pfx)
      | [] => skipLoop fuel (cutspace value) (cutspace pfx)
    else
      match value with
      | v :: vs => if v ≠ p then .error value else skipLoop fuel vs pfx
      | [] => .error value

/-- `time.skip`. -/
def skip (value pfx : GoString) : Except GoString GoString :=
  skipLoop (pfx.length + 1) value pfx

/-- The layout `"2006-01-02"`. -/
def layout : GoString := ['2', '0', '0', '6', '-', '0', '1', '-', '0', '2']

/-- `time.Parse("2006-01-02", value)`.  The layout splits into the chunks
`2006` (stdLongYear), `-` `01` (stdZeroMonth), `-` `02` (stdZeroDay) and an
empty tail; the loop of `time.parse` is unrolled over them. -/
def Parse (avalue : GoString) : Except ParseError Time :=
  match skip avalue [] with
  | .error v => .error ⟨layout, avalue, [], v, []⟩
  | .ok value =>
    if value.length < 4 || !isDigit value 0 then
      .error ⟨layout, avalue, ['2', '0', '0', '6'], value, []⟩
    else
      match atoi (value.take 4) with
      | none => .error ⟨layout, avalue, ['2', '0', '0', '6'], value, []⟩
      | some year =>
        match skip (value.drop 4) ['-'] with
        | .error v => .error ⟨layout, avalue, ['-'], v, []⟩
        | .ok value1 =>
          match getnum value1 true with
          | none => .error ⟨layout, avalue, ['0', '1'], value1, []⟩
          | some (month, value2) =>
            if month ≤ 0 ∨ 12 < month then
              .error ⟨layout, avalue, ['0', '1'], value2, ": month out of range".toList⟩
            else
              match skip value2 ['-'] with
              | .error v => .error ⟨layout, avalue, ['-'], v, []⟩
              | .ok value3 =>
                match getnum value3 true with
                | none => .error ⟨layout, avalue, ['0', '2'], value3, []⟩
                | some (day, value4) =>
                  if value4.length ≠ 0 then
                    .error ⟨layout, avalue, [], value4,
                      ": extra text: ".toList ++ quote value4⟩
                  else if day < 1 ∨ day > daysIn month year then
                    .error ⟨layout, avalue, [], value4, ": day out of range".toList⟩
                  else .ok (Date year month day)

end GoTime

/-! ## Error values -/

/-- An error value created by the standard library (`time`, `encoding/json`,
`strconv`, `net/http`, `net/url`, `io`, `context`).  Such a value is never one
of this package's sentinels or an `*APIError`, and wraps none. -/
inductive StdError where
  /-- A `*time.ParseError`. -/
  | timeParse (e : GoTime.ParseError)
  /-- A `*json.SyntaxError` or `*json.UnmarshalTypeError`. -/
  | json
  /-- A `*strconv.NumError` with `ErrSyntax`. -/
  | numSyntax
  /-- A `*strconv.NumError` with `ErrRange`. -/
  | numRange
  /-- Any other library error, with its message. -/
  | other (msg : GoString)
deriving DecidableEq, Repr

/-- The three sentinel variables of `errors.go`. -/
inductive Sentinel where
  | ErrNotFound
  | ErrRateLimited
  | ErrNotModified
deriving DecidableEq, Repr

/-- The `APIError` struct. -/
structure APIError where
  StatusCode : Int
  Message : GoString
  RetryAfter : Int
deriving DecidableEq, Repr

/-- A non-nil Go `error` as this package sees it. -/
inductive GoError where
  /-- One of the sentinels. -/
  | sentinel (s : Sentinel)
  /-- An `*APIError`. -/
  | api (e : APIError)
  /-- A standard-library error. -/
  | std (e : StdError)
  /-- The value of `fmt.Errorf(msg)` or `errors.New(msg)`: no `Unwrap`. -/
  | errorf (msg : GoString)
  /-- The value of `fmt.Errorf(msg + ": %w", inner)`. -/
  | wrap (msg : GoString) (inner : GoError)
deriving DecidableEq, Repr

/-- The message of a sentinel. -/
def Sentinel.Error : Sentinel → GoString
  | .ErrNotFound => "resource not found".toList
  | .ErrRateLimited => "rate limit exceeded".toList
  | .ErrNotModified => "resource not modified".toList

/-- The chain walk of `errors.Is` against a sentinel: identity with the
sentinel at some link reached through `Unwrap`. -/
def GoError.Is : GoError → Sentinel → Bool
  | .sentinel s, target => s == target
  | .wrap _ inner, target => inner.Is target
  | _, _ => false

/-- `errors.Is(err, target)` for a sentinel target; `none` is the nil error. -/
def errorsIs (err : Option GoError) (target : Sentinel) : Bool :=
  match err with
  | none => false
  | some e => e.Is target

/-- The chain walk of `errors.As` with a `**APIError` target: the first
`*APIError` reached through `Unwrap`. -/
def GoError.As : GoError → Option APIError
  | .api e => some e
  | .wrap _ inner => inner.As
  | _ => none

/-- `errors.As(err, &apiErr)`: `some apiErr` when it reports true. -/
def errorsAs (err : Option GoError) : Option APIError :=
  match err with
  | none => none
  | some e => e.As

/-- `IsNotFound` of `errors.go`. -/
def IsNotFound (err : Option GoError) : Bool :=
  if errorsIs err .ErrNotFound then true
  else
    match errorsAs err with
    | some apiErr => apiErr.StatusCode == 404
    | none => false

/-- `IsRateLimited` of `errors.go`. -/
def IsRateLimited (err : Option GoError) : Bool :=
  if errorsIs err .ErrRateLimited then true
  else
    match errorsAs err with
    | some apiErr => apiErr.StatusCode == 429
    | none => false

/-- `IsNotModified` of `errors.go`. -/
def IsNotModified (err : Option GoError) : Bool :=
  errorsIs err .ErrNotModified

/-! ## Package `encoding/json`, on strings -/

namespace GoJSON

open GoTime (dq bs)

/-- The scanner's `isSpace`. -/
def isSpace (c : Char) : Bool :=
  c.toNat = 32 || c.toNat = 9 || c.toNat = 13 || c.toNat = 10

/-- Drop leading JSON white space. -/
def skipSpace : GoString → GoString
  | [] => []
  | c :: rest => if isSpace c then skipSpace rest else c :: rest

/-- The value of a hexadecimal digit, as in the loop of `getu4`. -/
def hexVal (c : Char) : Option Nat :=
  let n := c.toNat
  if 48 ≤ n ∧ n ≤ 57 then some (n - 48)
  else if 97 ≤ n ∧ n ≤ 102 then some (n - 97 + 10)
  else if 65 ≤ n ∧ n ≤ 70 then some (n - 65 + 10)
  else none

/-- `getu4` on the four characters that follow `\u`. -/
def getu4 (a b c d : Char) : Option Nat :=
  match hexVal a, hexVal b, hexVal c, hexVal d with
  | some x, some y, some z, some w => some (((x * 16 + y) * 16 + z) * 16 + w)
  | _, _, _, _ => none

/-- `utf16.IsSurrogate`. -/
def isSurrogate (r : Nat) : Bool := 55296 ≤ r && r < 57344

/-- `utf16.DecodeRune`: the code point of a surrogate pair, or U+FFFD. -/
def decodeSurrogates (r1 r2 : Nat) : Nat :=
  if 55296 ≤ r1 ∧ r1 < 56320 ∧ 56320 ≤ r2 ∧ r2 < 57344 then
    (r1 - 55296) * 1024 + (r2 - 56320) + 65536
  else 65533

/-- The character a one-letter escape stands for. -/
def simpleEscape (e : Char) : Option Char :=
  if e = dq then some dq
  else if e = bs then some bs
  else if e = '/' then some '/'
  else if e = 'b' then some (Char.ofNat 8)
  else if e = 'f' then some (Char.ofNat 12)
  else if e = 'n' then some (Char.ofNat 10)
  else if e = 'r' then some (Char.ofNat 13)
  else if e = 't' then some (Char.ofNat 9)
  else none

/-- One element of a string literal that starts with the character `c`, not
a double quote, and goes on in `rest`: the character it stands for and the
input behind it.  It accepts what the scanner accepts (no raw control
character, only the escapes of JSON) and decodes as `unquote` does (a
surrogate pair becomes its code point, a lone surrogate U+FFFD). -/
def unquoteOne (c : Char) (rest : GoString) : Option (Char × GoString) :=
  if c = bs then
    match rest with
    | [] => none
    | e :: rest2 =>
      if e = 'u' then
        match rest2 with
        | h1 :: h2 :: h3 :: h4 :: rest3 =>
          match getu4 h1 h2 h3 h4 with
          | none => none
          | some rr =>
            if isSurrogate rr then
              match rest3 with
              | b1 :: u1 :: g1 :: g2 :: g3 :: g4 :: rest4 =>
                match (if b1 = bs ∧ u1 = 'u' then getu4 g1 g2 g3 g4 else none) with
                | some rr1 =>
                  if decodeSurrogates rr rr1 ≠ 65533 then
                    some (Char.ofNat (decodeSurrogates rr rr1), rest4)
                  else some (Char.ofNat 65533, rest3)
                | none => some (Char.ofNat 65533, rest3)
              | _ => some (Char.ofNat 65533, rest3)
            else some (Char.ofNat rr, rest3)
        | _ => none
      else
        match simpleEscape e with
        | none => none
        | some x => some (x, rest2)
  else if c.toNat < 32 then none
  else some (c, rest)

/-- The body of a string literal, from just after its opening quote: the
decoded content and the input left after the closing quote.  `fuel` bounds
the number of elements. -/
def unquoteBody : Nat → GoString → Option (GoString × GoString)
  | 0, _ => none
  | _ + 1, [] => none
  | fuel + 1, c :: rest =>
    if c = dq then some ([], rest)
    else
      match unquoteOne c rest with
      | none => none
      | some (x, rest1) => (unquoteBody fuel rest1).map (fun r => (x :: r.1, r.2))

/-- `json.Unmarshal(data, &s)` for `var s *string`: `some content` for a
string literal, `none` (the nil pointer) for `null`, with white space allowed
around the value.  Every other input is an error: it is JSON of another type
or it is not JSON. -/
def UnmarshalString (data : GoString) : Except StdError (Option GoString) :=
  match skipSpace data with
  | c :: rest =>
    if c = dq then
      match unquoteBody (rest.length + 1) rest with
      | some (content, tail) =>
        if skipSpace tail = [] then .ok (some content) else .error .json
      | none => .error .json
    else
      match c :: rest with
      | 'n' :: 'u' :: 'l' :: 'l' :: tail =>
        if skipSpace tail = [] then .ok none else .error .json
      | _ => .error .json
  | [] => .error .json

/-- The upper-case-free `hex` table of the encoder. -/
def hex (n : Nat) : Char := GoTime.lowerhex n

/-- One step of the encoder's `appendString` with HTML escaping on. -/
def escapeChar (c : Char) : GoString :=
  let n := c.toNat
  if n < 128 then
    if c = dq ∨ c = bs then [bs, c]
    else if n = 8 then [bs, 'b']
    else if n = 12 then [bs, 'f']
    else if n = 10 then [bs, 'n']
    else if n = 13 then [bs, 'r']
    else if n = 9 then [bs, 't']
    else if n < 32 ∨ c = '<' ∨ c = '>' ∨ c = '&' then [bs, 'u', '0', '0', hex (n / 16), hex n]
    else [c]
  else if n = 8232 ∨ n = 8233 then [bs, 'u', '2', '0', '2', hex n]
  else [c]

/-- `json.Marshal(s)` for a string `s`. -/
def MarshalString (s : GoString) : GoString := [dq] ++ s.flatMap escapeChar ++ [dq]

/-- `json.Marshal(nil)`. -/
def MarshalNil : GoString := ['n', 'u', 'l', 'l']

end GoJSON

/-! ## `types.go`: the Date type -/

/-- The `Date` struct, which embeds a `time.Time`. -/
structure Date where
  Time : GoTime.Time
deriving DecidableEq, Repr

/-- `(*Date).UnmarshalJSON`: the receiver after the call and the error
returned (`none` is nil). -/
def Date.UnmarshalJSON (d : Date) (data : GoString) : Date × Option StdError :=
  match GoJSON.UnmarshalString data with
  | .error err => (d, some err)
  | .ok s =>
    if s = none ∨ s = some [] then ({ d with Time := GoTime.Time.zero }, none)
    else
      match GoTime.Parse (s.getD []) with
      | .error err => (d, some (.timeParse err))
      | .ok t => ({ d with Time := t }, none)

/-- `Date.MarshalJSON`: the bytes and the error returned. -/
def Date.MarshalJSON (d : Date) : GoString × Option StdError :=
  if d.Time.IsZero then (GoJSON.MarshalNil, none)
  else (GoJSON.MarshalString d.Time.Format, none)

/-- `Date.String`. -/
def Date.String (d : Date) : GoString :=
  if d.Time.IsZero then [] else d.Time.Format

/-! ## `types.go`: the response shapes -/

/-- A decoded JSON value, as stored under `map[string]any`; a number keeps
its text. -/
inductive JSONValue where
  | null
  | bool (b : Bool)
  | number (text : GoString)
  | string (s : GoString)
  | array (items : List JSONValue)
  | object (fields : List (GoString × JSONValue))

/-- The `URI` struct. -/
structure URI where
  Name : GoString
  URI : GoString
deriving DecidableEq, Repr

/-- The `Identifier` struct; `Kind` is its field `Type`. -/
structure Identifier where
  ID : GoString
  Kind : GoString
deriving DecidableEq, Repr

/-- The `ProductVersion` struct. -/
structure ProductVersion where
  Name : GoString
  Date : Option Date
  Link : Option GoString
deriving DecidableEq, Repr

/-- The `ProductRelease` struct. -/
structure ProductRelease where
  Name : GoString
  Codename : Option GoString
  Label : GoString
  ReleaseDate : Date
  IsLTS : Bool
  LTSFrom : Option Date
  IsEOAS : Bool
  EOASFrom : Option Date
  IsEOL : Bool
  EOLFrom : Option Date
  IsDiscontinued : Bool
  DiscontinuedFrom : Option Date
  IsEOES : Option Bool
  EOESFrom : Option Date
  IsMaintained : Bool
  Latest : Option ProductVersion
  Custom : List (GoString × JSONValue)

/-- The `ProductSummary` struct. -/
structure ProductSummary where
  Name : GoString
  Label : GoString
  Aliases : List GoString
  Category : GoString
  Tags : List GoString
  URI : GoString
deriving DecidableEq, Repr

/-- The `ProductLabels` struct. -/
structure ProductLabels where
  EOAS : Option GoString
  Discontinued : Option GoString
  EOL : GoString
  EOES : Option GoString
deriving DecidableEq, Repr

/-- The `ProductLinks` struct. -/
structure ProductLinks where
  Icon : Option GoString
  HTML : GoString
  ReleasePolicy : Option GoString
deriving DecidableEq, Repr

/-- The `ProductDetails` struct. -/
structure ProductDetails where
  Name : GoString
  Label : GoString
  Aliases : List GoString
  Category : GoString
  Tags : List GoString
  URI : GoString
  VersionCommand : Option GoString
  Identifiers : List Identifier
  Labels : ProductLabels
  Links : ProductLinks
  Releases : List ProductRelease

/-- The `URIListResponse` struct. -/
structure URIListResponse where
  SchemaVersion : GoString
  GeneratedAt : GoString
  Total : Int
  Result : List URI
deriving DecidableEq, Repr

/-- The `ProductListResponse` struct. -/
structure ProductListResponse where
  SchemaVersion : GoString
  GeneratedAt : GoString
  Total : Int
  Result : List ProductSummary
deriving DecidableEq, Repr

/-- The `FullProductListResponse` struct. -/
structure FullProductListResponse where
  SchemaVersion : GoString
  GeneratedAt : GoString
  Total : Int
  Result : List ProductDetails

/-- The `ProductResponse` struct. -/
structure ProductResponse where
  SchemaVersion : GoString
  GeneratedAt : GoString
  LastModified : GoString
  Result : ProductDetails

/-- The `ProductReleaseResponse` struct. -/
structure ProductReleaseResponse where
  SchemaVersion : GoString
  GeneratedAt : GoString
  LastModified : GoString
  Result : ProductRelease

/-- The `IdentifierMapping` struct. -/
structure IdentifierMapping where
  Identifier : GoString
  Product : URI
deriving DecidableEq, Repr

/-- The `IdentifierListResponse` struct. -/
structure IdentifierListResponse where
  SchemaVersion : GoString
  GeneratedAt : GoString
  Total : Int
  Result : List IdentifierMapping
deriving DecidableEq, Repr

/-- The zero `Date`. -/
def Date.zero : Date := ⟨GoTime.Time.zero⟩

/-- The zero `ProductRelease`. -/
def ProductRelease.zero : ProductRelease :=
  { Name := [], Codename := none, Label := [], ReleaseDate := Date.zero, IsLTS := false,
    LTSFrom := none, IsEOAS := false, EOASFrom := none, IsEOL := false, EOLFrom := none,
    IsDiscontinued := false, DiscontinuedFrom := none, IsEOES := none, EOESFrom := none,
    IsMaintained := false, Latest := none, Custom := [] }

/-- The zero `ProductDetails`. -/
def ProductDetails.zero : ProductDetails :=
  { Name := [], Label := [], Aliases := [], Category := [], Tags := [], URI := [],
    VersionCommand := none, Identifiers := [], Labels := ⟨none, none, [], none⟩,
    Links := ⟨none, [], none⟩, Releases := [] }

/-- The zero `URIListResponse`. -/
def URIListResponse.zero : URIListResponse := ⟨[], [], 0, []⟩

/-- The zero `ProductListResponse`. -/
def ProductListResponse.zero : ProductListResponse := ⟨[], [], 0, []⟩

/-- The zero `FullProductListResponse`. -/
def FullProductListResponse.zero : FullProductListResponse := ⟨[], [], 0, []⟩

/-- The zero `ProductResponse`. -/
def ProductResponse.zero : ProductResponse := ⟨[], [], [], ProductDetails.zero⟩

/-- The zero `ProductReleaseResponse`. -/
def ProductReleaseResponse.zero : ProductReleaseResponse := ⟨[], [], [], ProductRelease.zero⟩

/-- The zero `IdentifierListResponse`. -/
def IdentifierListResponse.zero : IdentifierListResponse := ⟨[], [], 0, []⟩


/-! ## Package `strconv`: `Atoi` -/

namespace GoStrconv

/-- The digit loop of the fast path of `strconv.Atoi`: `none` at the first
character that is not a digit. -/
def atoiFast : Int → GoString → Option Int
  | n, [] => some n
  | n, ch :: rest =>
    if 48 ≤ ch.toNat ∧ ch.toNat ≤ 57 then atoiFast (n * 10 + ((ch.toNat : Int) - 48)) rest
    else none

/-- The cutoff of `ParseUint` in base 10: `maxUint64/10 + 1`. -/
def cutoff10 : Nat := (2 ^ 64 - 1) / 10 + 1

/-- The largest value of `ParseUint` for 64 bits. -/
def maxVal : Nat := 2 ^ 64 - 1

/-- The loop of `strconv.ParseUint(s, 10, 0)`, with the value read so far as
first argument.  A letter is a digit of a larger base and a syntax error like
any other character that is no decimal digit; an overflow ends the loop at
once with the largest value and a range error. -/
def parseUintLoop : Nat → GoString → Nat × Option StdError
  | n, [] => (n, none)
  | n, c :: rest =>
    if 48 ≤ c.toNat ∧ c.toNat ≤ 57 then
      if n ≥ cutoff10 then (maxVal, some .numRange)
      else
        let n0 := n * 10 % 2 ^ 64
        let n1 := (n0 + (c.toNat - 48)) % 2 ^ 64
        if n1 < n0 ∨ n1 > maxVal then (maxVal, some .numRange)
        else parseUintLoop n1 rest
    else (0, some .numSyntax)

/-- `strconv.ParseUint(s, 10, 0)`. -/
def ParseUint (s : GoString) : Nat × Option StdError :=
  if s = [] then (0, some .numSyntax) else parseUintLoop 0 s

/-- `strconv.ParseInt(s, 10, 0)` with a 64-bit `int`. -/
def ParseInt (s : GoString) : Int × Option StdError :=
  match s with
  | [] => (0, some .numSyntax)
  | c :: rest =>
    let neg : Bool := c = '-'
    let s1 := if c = '+' ∨ c = '-' then rest else s
    match ParseUint s1 with
    | (_, some .numSyntax) => (0, some .numSyntax)
    | (un, _) =>
      if !neg ∧ un ≥ 2 ^ 63 then ((2 : Int) ^ 63 - 1, some .numRange)
      else if neg ∧ un > 2 ^ 63 then (-(2 : Int) ^ 63, some .numRange)
      else if neg then (-(un : Int), none)
      else ((un : Int), none)

/-- `strconv.Atoi` with a 64-bit `int`: the value and the error returned. -/
def Atoi (s : GoString) : Int × Option StdError :=
  if 0 < s.length ∧ s.length < 19 then
    match s with
    | [] => (0, some .numSyntax)
    | c :: rest =>
      let s1 := if c = '-' ∨ c = '+' then rest else s
      if (c = '-' ∨ c = '+') ∧ s1.length < 1 then (0, some .numSyntax)
      else
        match atoiFast 0 s1 with
        | none => (0, some .numSyntax)
        | some n => (if c = '-' then -n else n, none)
  else ParseInt s

end GoStrconv

/-! ## Package `net/http` -/

namespace GoHTTP

/-- `http.StatusText`: the reason phrase of a status code, empty when the
code is unknown. -/
def StatusText (code : Int) : GoString :=
  (match code with
  | 100 => "Continue"
  | 101 => "Switching Protocols"
  | 102 => "Processing"
  | 103 => "Early Hints"
  | 200 => "OK"
  | 201 => "Created"
  | 202 => "Accepted"
  | 203 => "Non-Authoritative Information"
  | 204 => "No Content"
  | 205 => "Reset Content"
  | 206 => "Partial Content"
  | 207 => "Multi-Status"
  | 208 => "Already Reported"
  | 226 => "IM Used"
  | 300 => "Multiple Choices"
  | 301 => "Moved Permanently"
  | 302 => "Found"
  | 303 => "See Other"
  | 304 => "Not Modified"
  | 305 => "Use Proxy"
  | 307 => "Temporary Redirect"
  | 308 => "Permanent Redirect"
  | 400 => "Bad Request"
  | 401 => "Unauthorized"
  | 402 => "Payment Required"
  | 403 => "Forbidden"
  | 404 => "Not Found"
  | 405 => "Method Not Allowed"
  | 406 => "Not Acceptable"
  | 407 => "Proxy Authentication Required"
  | 408 => "Request Timeout"
  | 409 => "Conflict"
  | 410 => "Gone"
  | 411 => "Length Required"
  | 412 => "Precondition Failed"
  | 413 => "Request Entity Too Large"
  | 414 => "Request URI Too Long"
  | 415 => "Unsupported Media Type"
  | 416 => "Requested Range Not Satisfiable"
  | 417 => "Expectation Failed"
  | 418 => "I\x27m a teapot"
  | 421 => "Misdirected Request"
  | 422 => "Unprocessable Entity"
  | 423 => "Locked"
  | 424 => "Failed Dependency"
  | 425 => "Too Early"
  | 426 => "Upgrade Required"
  | 428 => "Precondition Required"
  | 429 => "Too Many Requests"
  | 431 => "Request Header Fields Too Large"
  | 451 => "Unavailable For Legal Reasons"
  | 500 => "Internal Server Error"
  | 501 => "Not Implemented"
  | 502 => "Bad Gateway"
  | 503 => "Service Unavailable"
  | 504 => "Gateway Timeout"
  | 505 => "HTTP Version Not Supported"
  | 506 => "Variant Also Negotiates"
  | 507 => "Insufficient Storage"
  | 508 => "Loop Detected"
  | 510 => "Not Extended"
  | 511 => "Network Authentication Required"
  | _ => "").toList

/-- An `http.Header`: the values stored under each canonical key, none when
the key is absent. -/
abbrev Header := GoString → List GoString

/-- `Header.Get` for a key in canonical form: the first value stored under the
key, or the empty string. -/
def Header.Get (h : Header) (key : GoString) : GoString :=
  match h key with
  | [] => []
  | v :: _ => v

/-- `Header.Set`: one value under the key. -/
def Header.Set (h : Header) (key value : GoString) : Header :=
  fun k => if k = key then [value] else h k

/-- A `context.Context`, as the error `ctx.Err()` would report. -/
structure Context where
  Err : Option StdError

/-- An `*http.Request` without a body. -/
structure Request where
  Ctx : Context
  Method : GoString
  URL : GoString
  Header : Header

/-- An `*http.Response`.  `Body` is the outcome of `io.ReadAll(resp.Body)`; the
body comes from the transport, so a failure to read it is any error. -/
structure Response where
  StatusCode : Int
  Header : Header
  Body : Except GoError GoString

/-- An `*http.Client`: its timeout in seconds and what `Do` answers to a
request.  The transport can be any `RoundTripper`, so `Do` can fail with any
error, also one that holds a sentinel or an `*APIError` of this package. -/
structure Client where
  Timeout : Nat
  Do : Request → Except GoError Response

end GoHTTP

/-! ## `client.go` -/

/-- The `DefaultBaseURL` constant. -/
def DefaultBaseURL : GoString := "https://endoflife.date/api/v1".toList

/-- The `DefaultTimeout` constant, in seconds. -/
def DefaultTimeout : Nat := 30

/-- The `Version` constant. -/
def Version : GoString := "0.1.0".toList

/-- The `Client` struct. -/
structure Client where
  BaseURL : GoString
  HTTPClient : GoHTTP.Client
  UserAgent : GoString

/-- `(*Client).handleHTTPError`; `none` is the nil error. -/
def Client.handleHTTPError (_c : Client) (resp : GoHTTP.Response) : Option GoError :=
  if resp.StatusCode = 200 then none
  else if resp.StatusCode = 301 then none
  else if resp.StatusCode = 304 then some (.sentinel .ErrNotModified)
  else if resp.StatusCode = 404 then
    some (.api { StatusCode := resp.StatusCode, Message := "resource not found".toList,
                 RetryAfter := 0 })
  else if resp.StatusCode = 429 then
    let ra := resp.Header.Get "Retry-After".toList
    let retryAfter : Int := if ra ≠ [] then (GoStrconv.Atoi ra).1 else 0
    some (.api { StatusCode := resp.StatusCode, Message := "rate limit exceeded".toList,
                 RetryAfter := retryAfter })
  else
    some (.api { StatusCode := resp.StatusCode, Message := GoHTTP.StatusText resp.StatusCode,
                 RetryAfter := 0 })

/-- The library calls of `doRequest` whose behaviour is left open:
`url.JoinPath(base, path)`, `http.NewRequestWithContext(ctx, method, url, nil)`
and `json.Unmarshal(body, result)` for a result of type `R`, which gives the
result after the call and the error returned. -/
structure Env (R : Type) where
  JoinPath : GoString → GoString → Except StdError GoString
  NewRequest : GoHTTP.Context → GoString → GoString → Except StdError GoHTTP.Request
  Unmarshal : GoString → R → R × Option StdError

/-- `(*Client).doRequest`: the location `result` points to after the call, and
the error returned. -/
def Client.doRequest {R : Type} (c : Client) (env : Env R) (ctx : GoHTTP.Context)
    (method path : GoString) (result : R) : R × Option GoError :=
  match env.JoinPath c.BaseURL path with
  | .error err => (result, some (.wrap "failed to build URL".toList (.std err)))
  | .ok reqURL =>
    match env.NewRequest ctx method reqURL with
    | .error err => (result, some (.wrap "failed to create request".toList (.std err)))
    | .ok req =>
      let req1 := { req with Header := req.Header.Set "Accept".toList "application/json".toList }
      let req2 := { req1 with Header := req1.Header.Set "User-Agent".toList c.UserAgent }
      match c.HTTPClient.Do req2 with
      | .error err => (result, some (.wrap "failed to execute request".toList err))
      | .ok resp =>
        match c.handleHTTPError resp with
        | some err => (result, some err)
        | none =>
          match resp.Body with
          | .error err =>
            (result, some (.wrap "failed to read response body".toList err))
          | .ok body =>
            match env.Unmarshal body result with
            | (r, some err) =>
              (r, some (.wrap "failed to unmarshal response".toList (.std err)))
            | (r, none) => (r, none)

/-- The part of `doRequest` behind the call of `c.HTTPClient.Do`, applied to
what the call returned. -/
def Client.afterDo {R : Type} (c : Client) (env : Env R) (result : R)
    (out : Except GoError GoHTTP.Response) : R × Option GoError :=
  match out with
  | .error err => (result, some (.wrap "failed to execute request".toList err))
  | .ok resp =>
    match c.handleHTTPError resp with
    | some err => (result, some err)
    | none =>
      match resp.Body with
      | .error err => (result, some (.wrap "failed to read response body".toList err))
      | .ok body =>
        match env.Unmarshal body result with
        | (r, some err) => (r, some (.wrap "failed to unmarshal response".toList (.std err)))
        | (r, none) => (r, none)

/-- The tail shared by the endpoint wrappers: no result with an error, the
result without one. -/
def wrapResult {R : Type} (out : R × Option GoError) : Option R × Option GoError :=
  match out with
  | (_, some err) => (none, some err)
  | (r, none) => (some r, none)

/-- The `http.MethodGet` constant. -/
def MethodGet : GoString := "GET".toList

/-- `(*Client).GetIndex`. -/
def Client.GetIndex (c : Client) (env : Env URIListResponse) (ctx : GoHTTP.Context) :
    Option URIListResponse × Option GoError :=
  wrapResult (c.doRequest env ctx MethodGet "/".toList URIListResponse.zero)

/-! ## `products.go`, `categories.go`, `tags.go`, `identifiers.go` -/

/-- `(*Client).GetProducts`. -/
def Client.GetProducts (c : Client) (env : Env ProductListResponse) (ctx : GoHTTP.Context) :
    Option ProductListResponse × Option GoError :=
  wrapResult (c.doRequest env ctx MethodGet "/products".toList ProductListResponse.zero)

/-- `(*Client).GetProductsFull`. -/
def Client.GetProductsFull (c : Client) (env : Env FullProductListResponse)
    (ctx : GoHTTP.Context) : Option FullProductListResponse × Option GoError :=
  wrapResult (c.doRequest env ctx MethodGet "/products/full".toList FullProductListResponse.zero)

/-- `(*Client).GetProduct`. -/
def Client.GetProduct (c : Client) (env : Env ProductResponse) (ctx : GoHTTP.Context)
    (productName : GoString) : Option ProductResponse × Option GoError :=
  if productName = [] then (none, some (.errorf "product name is required".toList))
  else
    let path := "/products/".toList ++ productName
    wrapResult (c.doRequest env ctx MethodGet path ProductResponse.zero)

/-- `(*Client).GetRelease`. -/
def Client.GetRelease (c : Client) (env : Env ProductReleaseResponse) (ctx : GoHTTP.Context)
    (productName releaseName : GoString) : Option ProductReleaseResponse × Option GoError :=
  if productName = [] then (none, some (.errorf "product name is required".toList))
  else if releaseName = [] then (none, some (.errorf "release name is required".toList))
  else
    let path := "/products/".toList ++ productName ++ "/releases/".toList ++ releaseName
    wrapResult (c.doRequest env ctx MethodGet path ProductReleaseResponse.zero)

/-- `(*Client).GetLatestRelease`. -/
def Client.GetLatestRelease (c : Client) (env : Env ProductReleaseResponse)
    (ctx : GoHTTP.Context) (productName : GoString) :
    Option ProductReleaseResponse × Option GoError :=
  if productName = [] then (none, some (.errorf "product name is required".toList))
  else
    let path := "/products/".toList ++ productName ++ "/releases/latest".toList
    wrapResult (c.doRequest env ctx MethodGet path ProductReleaseResponse.zero)

/-- `(*Client).GetCategories`. -/
def Client.GetCategories (c : Client) (env : Env URIListResponse) (ctx : GoHTTP.Context) :
    Option URIListResponse × Option GoError :=
  wrapResult (c.doRequest env ctx MethodGet "/categories".toList URIListResponse.zero)

/-- `(*Client).GetCategoryProducts`. -/
def Client.GetCategoryProducts (c : Client) (env : Env ProductListResponse)
    (ctx : GoHTTP.Context) (categoryName : GoString) :
    Option ProductListResponse × Option GoError :=
  if categoryName = [] then (none, some (.errorf "category name is required".toList))
  else
    let path := "/categories/".toList ++ categoryName
    wrapResult (c.doRequest env ctx MethodGet path ProductListResponse.zero)

/-- `(*Client).GetTags`. -/
def Client.GetTags (c : Client) (env : Env URIListResponse) (ctx : GoHTTP.Context) :
    Option URIListResponse × Option GoError :=
  wrapResult (c.doRequest env ctx MethodGet "/tags".toList URIListResponse.zero)

/-- `(*Client).GetTagProducts`. -/
def Client.GetTagProducts (c : Client) (env : Env ProductListResponse) (ctx : GoHTTP.Context)
    (tagName : GoString) : Option ProductListResponse × Option GoError :=
  if tagName = [] then (none, some (.errorf "tag name is required".toList))
  else
    let path := "/tags/".toList ++ tagName
    wrapResult (c.doRequest env ctx MethodGet path ProductListResponse.zero)

/-- `(*Client).GetIdentifiers`. -/
def Client.GetIdentifiers (c : Client) (env : Env URIListResponse) (ctx : GoHTTP.Context) :
    Option URIListResponse × Option GoError :=
  wrapResult (c.doRequest env ctx MethodGet "/identifiers".toList URIListResponse.zero)

/-- `(*Client).GetIdentifierDetails`. -/
def Client.GetIdentifierDetails (c : Client) (env : Env IdentifierListResponse)
    (ctx : GoHTTP.Context) (identifierType : GoString) :
    Option IdentifierListResponse × Option GoError :=
  if identifierType = [] then (none, some (.errorf "identifier type is required".toList))
  else
    let path := "/identifiers/".toList ++ identifierType
    wrapResult (c.doRequest env ctx MethodGet path IdentifierListResponse.zero)

/-! ## `errors.go` and `client.go`: messages, options and request counts -/

namespace GoFmt

/-- The base 10 loop of `fmt.fmtInteger`: the digits of `u` are written from
the last one backwards, in front of `acc`; `fuel` bounds the iterations. -/
def fmtDigits : Nat → Nat → GoString → GoString
  | 0, u, acc => Char.ofNat (48 + u % 10) :: acc
  | fuel + 1, u, acc =>
    if u ≥ 10 then fmtDigits fuel (u / 10) (Char.ofNat (48 + (u - u / 10 * 10)) :: acc)
    else Char.ofNat (48 + u) :: acc

/-- The verb `%d` of `fmt.Sprintf` on an `int`, without flags: a minus sign
for a negative number and the digits of its absolute value. -/
def formatInt (n : Int) : GoString :=
  if n < 0 then '-' :: fmtDigits n.natAbs n.natAbs [] else fmtDigits n.natAbs n.natAbs []

end GoFmt

/-- `(*APIError).Error`. -/
def APIError.Error (e : APIError) : GoString :=
  if e.RetryAfter > 0 then
    "API error: ".toList ++ GoFmt.formatInt e.StatusCode ++ " ".toList ++ e.Message
      ++ " (retry after ".toList ++ GoFmt.formatInt e.RetryAfter ++ " seconds)".toList
  else
    "API error: ".toList ++ GoFmt.formatInt e.StatusCode ++ " ".toList ++ e.Message

/-- `NewClient`.  `network` is what the default transport of `net/http`
answers to a request. -/
def NewClient (network : GoHTTP.Request → Except GoError GoHTTP.Response) : Client :=
  { BaseURL := DefaultBaseURL,
    HTTPClient := { Timeout := DefaultTimeout, Do := network },
    UserAgent := "endoflife-go/".toList ++ Version }

/-- The `Option` type of `client.go`: a function that configures the client. -/
abbrev ClientOption := Client → Client

/-- `WithBaseURL`. -/
def WithBaseURL (baseURL : GoString) : ClientOption :=
  fun c => { c with BaseURL := baseURL }

/-- `WithHTTPClient`. -/
def WithHTTPClient (httpClient : GoHTTP.Client) : ClientOption :=
  fun c => { c with HTTPClient := httpClient }

/-- `WithUserAgent`. -/
def WithUserAgent (userAgent : GoString) : ClientOption :=
  fun c => { c with UserAgent := userAgent }

/-- `NewClientWithOptions`: the options are applied to the default client in
the order given. -/
def NewClientWithOptions (network : GoHTTP.Request → Except GoError GoHTTP.Response)
    (opts : List ClientOption) : Client :=
  opts.foldl (fun c opt => opt c) (NewClient network)

/-- The number of times a call of `doRequest` reaches `c.HTTPClient.Do`: once
when the URL and the request are built, never otherwise. -/
def Client.doRequestSends {R : Type} (c : Client) (env : Env R) (ctx : GoHTTP.Context)
    (method path : GoString) : Nat :=
  match env.JoinPath c.BaseURL path with
  | .error _ => 0
  | .ok reqURL =>
    match env.NewRequest ctx method reqURL with
    | .error _ => 0
    | .ok _ => 1

/-- The number of HTTP requests a call of `GetProduct` issues. -/
def Client.GetProductSends (c : Client) (env : Env ProductResponse) (ctx : GoHTTP.Context)
    (productName : GoString) : Nat :=
  if productName = [] then 0
  else c.doRequestSends env ctx MethodGet ("/products/".toList ++ productName)

/-- The number of HTTP requests a call of `GetRelease` issues. -/
def Client.GetReleaseSends (c : Client) (env : Env ProductReleaseResponse)
    (ctx : GoHTTP.Context) (productName releaseName : GoString) : Nat :=
  if productName = [] then 0
  else if releaseName = [] then 0
  else c.doRequestSends env ctx MethodGet
    ("/products/".toList ++ productName ++ "/releases/".toList ++ releaseName)

/-- The number of HTTP requests a call of `GetLatestRelease` issues. -/
def Client.GetLatestReleaseSends (c : Client) (env : Env ProductReleaseResponse)
    (ctx : GoHTTP.Context) (productName : GoString) : Nat :=
  if productName = [] then 0
  else c.doRequestSends env ctx MethodGet
    ("/products/".toList ++ productName ++ "/releases/latest".toList)

/-- The number of HTTP requests a call of `GetCategoryProducts` issues. -/
def Client.GetCategoryProductsSends (c : Client) (env : Env ProductListResponse)
    (ctx : GoHTTP.Context) (categoryName : GoString) : Nat :=
  if categoryName = [] then 0
  else c.doRequestSends env ctx MethodGet ("/categories/".toList ++ categoryName)

/-- The number of HTTP requests a call of `GetTagProducts` issues. -/
def Client.GetTagProductsSends (c : Client) (env : Env ProductListResponse)
    (ctx : GoHTTP.Context) (tagName : GoString) : Nat :=
  if tagName = [] then 0
  else c.doRequestSends env ctx MethodGet ("/tags/".toList ++ tagName)

/-- The number of HTTP requests a call of `GetIdentifierDetails` issues. -/
def Client.GetIdentifierDetailsSends (c : Client) (env : Env IdentifierListResponse)
    (ctx : GoHTTP.Context) (identifierType : GoString) : Nat :=
  if identifierType = [] then 0
  else c.doRequestSends env ctx MethodGet ("/identifiers/".toList ++ identifierType)

/-! ## Packages `path` and `net/url`: joining paths -/

namespace GoPath

/-- The inner loop of the `..` case of `path.Clean`, on the buffer written so
far in reverse: `c` is the character just given up; characters are given up
until a slash has been given up or the buffer is down to `dotdot`. -/
def backtrackLoop (dotdot : Nat) : GoString → Char → GoString
  | [], _ => []
  | x :: rest, c =>
    if (x :: rest).length > dotdot ∧ c ≠ '/' then backtrackLoop dotdot rest x else x :: rest

/-- The `..` case of `path.Clean` when it can backtrack: the last element of
the buffer is removed. -/
def backtrack (dotdot : Nat) (out : GoString) : GoString :=
  match out with
  | [] => []
  | c :: rest => backtrackLoop dotdot rest c

/-- The main loop of `path.Clean`: `rest` is the input from index `r` on,
`out` the buffer written so far, in reverse, and `dotdot` the length below
which `..` must not backtrack.  `fuel` bounds the iterations. -/
def cleanLoop (rooted : Bool) : Nat → GoString → GoString → Nat → GoString
  | 0, _, out, _ => out
  | _ + 1, [], out, _ => out
  | fuel + 1, c :: rest, out, dotdot =>
    if c = '/' then cleanLoop rooted fuel rest out dotdot
    else if c = '.' ∧ (rest = [] ∨ rest.head? = some '/') then
      cleanLoop rooted fuel rest out dotdot
    else if c = '.' ∧ rest.head? = some '.' ∧
        (rest.tail = [] ∨ rest.tail.head? = some '/') then
      if out.length > dotdot then cleanLoop rooted fuel rest.tail (backtrack dotdot out) dotdot
      else if !rooted then
        cleanLoop rooted fuel rest.tail
          ('.' :: '.' :: (if out.length > 0 then '/' :: out else out))
          (('.' :: '.' :: (if out.length > 0 then '/' :: out else out)).length)
      else cleanLoop rooted fuel rest.tail out dotdot
    else
      cleanLoop rooted fuel ((c :: rest).dropWhile (fun x => x ≠ '/'))
        (((c :: rest).takeWhile (fun x => x ≠ '/')).reverse ++
          (if (rooted ∧ out.length ≠ 1) ∨ (!rooted ∧ out.length ≠ 0) then '/' :: out else out))
        dotdot

/-- `path.Clean`. -/
def Clean (path : GoString) : GoString :=
  match path with
  | [] => ['.']
  | c :: rest =>
    let rooted : Bool := c = '/'
    let out :=
      if rooted then cleanLoop true (path.length + 1) rest ['/'] 1
      else cleanLoop false (path.length + 1) path [] 0
    if out = [] then ['.'] else out.reverse

/-- The buffer `path.Join` builds: the elements that are not empty, with a
slash between them. -/
def joinBuf : GoString → List GoString → GoString
  | buf, [] => buf
  | buf, e :: rest =>
    if buf ≠ [] ∨ e ≠ [] then joinBuf ((if buf ≠ [] then buf ++ ['/'] else buf) ++ e) rest
    else joinBuf buf rest

/-- `path.Join`. -/
def Join (elem : List GoString) : GoString :=
  if (elem.map List.length).sum = 0 then [] else Clean (joinBuf [] elem)

end GoPath

namespace GoURL

/-- The path that `(*URL).JoinPath(elem...)` computes and hands to `setPath`,
for a URL whose `EscapedPath()` is `escapedPath`. -/
def joinPath (escapedPath : GoString) (elem : List GoString) : GoString :=
  let first : GoString :=
    if escapedPath.head? = some '/' then escapedPath else '/' :: escapedPath
  let p : GoString :=
    if escapedPath.head? = some '/' then GoPath.Join (first :: elem)
    else (GoPath.Join (first :: elem)).drop 1
  if ((first :: elem).getLast?.getD []).getLast? = some '/' ∧ p.getLast? ≠ some '/' then
    p ++ ['/']
  else p

/-- The path as `(*URL).String` writes it behind the host: a relative path
gets a slash in front when the URL has a host. -/
def pathInString (host path : GoString) : GoString :=
  if path ≠ [] ∧ path.head? ≠ some '/' ∧ host ≠ [] then '/' :: path else path

end GoURL

/-! ## Package `encoding/json`, on the shapes of `types.go` -/

namespace GoJSON

open GoTime (dq)

/-- A JSON value as the decoder scans it in valid input: a literal with its
text (`null`, `true`, `false`, a number, or a string literal with its quotes),
an array, or an object, whose keys are given unquoted. -/
inductive Node where
  | literal (text : GoString)
  | array (items : List Node)
  | object (members : List (GoString × Node))

mutual
/-- The text of a scanned value, which an `Unmarshaler` receives; white space
between the tokens is not kept. -/
def Node.text : Node → GoString
  | .literal t => t
  | .array items => '[' :: textItems items ++ [']']
  | .object members => '{' :: textMembers members ++ ['}']
/-- The text of the items of an array. -/
def textItems : List Node → GoString
  | [] => []
  | [x] => x.text
  | x :: y :: rest => x.text ++ ',' :: textItems (y :: rest)
/-- The text of the members of an object. -/
def textMembers : List (GoString × Node) → GoString
  | [] => []
  | [(k, x)] => MarshalString k ++ ':' :: x.text
  | (k, x) :: y :: rest => MarshalString k ++ ':' :: x.text ++ ',' :: textMembers (y :: rest)
end

/-- `unquote` on a string literal with its quotes. -/
def unquote (literal : GoString) : Option GoString :=
  match literal with
  | c :: rest =>
    if c = dq then
      match unquoteBody (rest.length + 1) rest with
      | some (content, []) => some content
      | _ => none
    else none
  | [] => none

/-- `(*decodeState).saveError`: the first error is kept. -/
def saveError (saved : Option StdError) (err : StdError) : Option StdError :=
  match saved with
  | none => some err
  | some e => some e

/-- The value is a literal that starts with `n`, which in valid input is
`null`. -/
def isNull (n : Node) : Bool :=
  match n with
  | .literal (c :: _) => c == 'n'
  | _ => false

/-- The value is a literal without text, which `literalStore` refuses before
it looks at the target. -/
def isEmptyLiteral (n : Node) : Bool :=
  match n with
  | .literal [] => true
  | _ => false

/-- The decoder on a target of kind `string`: the value stored and the saved
error.  `null` changes nothing, a string literal is stored, everything else
is an `UnmarshalTypeError`, which is saved. -/
def storeString (v : GoString) (n : Node) (saved : Option StdError) :
    GoString × Option StdError :=
  match n with
  | .literal text =>
    match text with
    | [] => (v, saveError saved .json)
    | c :: _ =>
      if c = 'n' then (v, saved)
      else if c = dq then
        match unquote text with
        | some s => (s, saved)
        | none => (v, saveError saved .json)
      else (v, saveError saved .json)
  | _ => (v, saveError saved .json)

/-- The decoder on a target of kind `bool`. -/
def storeBool (v : Bool) (n : Node) (saved : Option StdError) : Bool × Option StdError :=
  match n with
  | .literal text =>
    match text with
    | [] => (v, saveError saved .json)
    | c :: _ =>
      if c = 'n' then (v, saved)
      else if c = 't' ∨ c = 'f' then (decide (c = 't'), saved)
      else (v, saveError saved .json)
  | _ => (v, saveError saved .json)

/-- The decoder on a pointer target whose element is decoded by `store`:
`null` sets the pointer to nil; for every other value `indirect` allocates a
zero element when the pointer is nil, and the value is decoded into the
element. -/
def storePointer {T : Type} (zero : T)
    (store : T → Node → Option StdError → T × Option StdError)
    (v : Option T) (n : Node) (saved : Option StdError) : Option T × Option StdError :=
  if isEmptyLiteral n then (v, saveError saved .json)
  else if isNull n then (none, saved)
  else (some (store (v.getD zero) n saved).1, (store (v.getD zero) n saved).2)

/-- The value that `literalStore` puts under an `any` for a literal; a number
keeps its text. -/
def literalValue (text : GoString) : JSONValue :=
  match text with
  | [] => .null
  | c :: _ =>
    if c = 'n' then .null
    else if c = 't' then .bool true
    else if c = 'f' then .bool false
    else if c = dq then .string ((unquote text).getD [])
    else .number text

/-- `m[key] = value` on a map held as a list of entries. -/
def setKey (m : List (GoString × JSONValue)) (key : GoString) (value : JSONValue) :
    List (GoString × JSONValue) :=
  m.filter (fun e => e.1 != key) ++ [(key, value)]

mutual
/-- `valueInterface`: the value stored under an `any`. -/
def Node.toValue : Node → JSONValue
  | .literal t => literalValue t
  | .array items => .array (toValues items)
  | .object members => .object (toEntries members)
/-- `arrayInterface`. -/
def toValues : List Node → List JSONValue
  | [] => []
  | x :: rest => x.toValue :: toValues rest
/-- `objectInterface`: of two members with one key the later one stays. -/
def toEntries : List (GoString × Node) → List (GoString × JSONValue)
  | [] => []
  | (k, x) :: rest =>
    if (toEntries rest).any (fun e => e.1 == k) then toEntries rest
    else (k, x.toValue) :: toEntries rest
end

/-- The decoder on a target of type `map[string]any`. -/
def storeMap (v : List (GoString × JSONValue)) (n : Node) (saved : Option StdError) :
    List (GoString × JSONValue) × Option StdError :=
  match n with
  | .literal text =>
    match text with
    | [] => (v, saveError saved .json)
    | c :: _ => if c = 'n' then ([], saved) else (v, saveError saved .json)
  | .array _ => (v, saveError saved .json)
  | .object members => (members.foldl (fun m e => setKey m e.1 e.2.toValue) v, saved)

/-- The simple case folding of a character, as far as it decides equality
with an ASCII name: a lower-case letter goes to upper case, U+017F to `S` and
U+212A to `K`. -/
def foldChar (c : Char) : Char :=
  if 97 ≤ c.toNat ∧ c.toNat ≤ 122 then Char.ofNat (c.toNat - 32)
  else if c.toNat = 383 then 'S'
  else if c.toNat = 8490 then 'K'
  else c

/-- `foldName`. -/
def foldName (s : GoString) : GoString := s.map foldChar

/-- The field of a struct for a key of the input: the field with exactly this
name, else the first one whose name is equal under case folding. -/
def lookupField {F : Type} (fields : List (GoString × F)) (key : GoString) : Option F :=
  match fields.find? (fun f => f.1 == key) with
  | some f => some f.2
  | none => (fields.find? (fun f => foldName f.1 == foldName key)).map (fun f => f.2)

/-- The loop of `(*decodeState).object` on a struct with fields `fields`,
where `store v f n saved` decodes `n` into the field `f` of `v`.  The result
is the struct, the saved error, and the error that ends the decoding at once,
which is the error of an `Unmarshaler`.  A key without a field is skipped. -/
def decodeMembers {T F : Type} (fields : List (GoString × F))
    (store : T → F → Node → Option StdError → T × Option StdError × Option StdError) :
    List (GoString × Node) → T → Option StdError → T × Option StdError × Option StdError
  | [], v, saved => (v, saved, none)
  | (k, n) :: rest, v, saved =>
    match lookupField fields k with
    | none => decodeMembers fields store rest v saved
    | some f =>
      match (store v f n saved).2.2 with
      | some err => ((store v f n saved).1, (store v f n saved).2.1, some err)
      | none =>
        decodeMembers fields store rest (store v f n saved).1 (store v f n saved).2.1

end GoJSON

/-- The decoder on a target of type `Date`, which is an `Unmarshaler`: the
value after `UnmarshalJSON` on the text of the input value, and its error. -/
def storeDate (v : Date) (n : GoJSON.Node) : Date × Option StdError :=
  v.UnmarshalJSON n.text

/-- The decoder on a target of type `*Date`: the pointer, the saved error and
the error of `UnmarshalJSON`. -/
def storeDatePointer (v : Option Date) (n : GoJSON.Node) (saved : Option StdError) :
    Option Date × Option StdError × Option StdError :=
  if GoJSON.isEmptyLiteral n then (v, GoJSON.saveError saved .json, none)
  else if GoJSON.isNull n then (none, saved, none)
  else (some (storeDate (v.getD Date.zero) n).1, saved, (storeDate (v.getD Date.zero) n).2)

/-- The fields of `ProductVersion`. -/
inductive VersionField where
  | name | date | link
deriving DecidableEq, Repr

/-- The JSON names of the fields of `ProductVersion`, from its tags. -/
def versionFields : List (GoString × VersionField) :=
  [("name".toList, .name), ("date".toList, .date), ("link".toList, .link)]

/-- The zero `ProductVersion`. -/
def ProductVersion.zero : ProductVersion := ⟨[], none, none⟩

/-- The decoder on one field of a `ProductVersion`. -/
def ProductVersion.store (v : ProductVersion) (f : VersionField) (n : GoJSON.Node)
    (saved : Option StdError) : ProductVersion × Option StdError × Option StdError :=
  match f with
  | .name =>
    ({ v with Name := (GoJSON.storeString v.Name n saved).1 },
      (GoJSON.storeString v.Name n saved).2, none)
  | .date =>
    ({ v with Date := (storeDatePointer v.Date n saved).1 }, (storeDatePointer v.Date n saved).2)
  | .link =>
    ({ v with Link := (GoJSON.storePointer [] GoJSON.storeString v.Link n saved).1 },
      (GoJSON.storePointer [] GoJSON.storeString v.Link n saved).2, none)

/-- The decoder on a target of type `*ProductVersion`. -/
def storeVersionPointer (v : Option ProductVersion) (n : GoJSON.Node)
    (saved : Option StdError) : Option ProductVersion × Option StdError × Option StdError :=
  if GoJSON.isEmptyLiteral n then (v, GoJSON.saveError saved .json, none)
  else if GoJSON.isNull n then (none, saved, none)
  else
    match n with
    | .object members =>
      (some (GoJSON.decodeMembers versionFields ProductVersion.store members
          (v.getD ProductVersion.zero) saved).1,
        (GoJSON.decodeMembers versionFields ProductVersion.store members
          (v.getD ProductVersion.zero) saved).2)
    | _ => (some (v.getD ProductVersion.zero), GoJSON.saveError saved .json, none)

/-- The fields of `ProductRelease`. -/
inductive ReleaseField where
  | name | codename | label | releaseDate | isLts | ltsFrom | isEoas | eoasFrom | isEol
  | eolFrom | isDiscontinued | discontinuedFrom | isEoes | eoesFrom | isMaintained | latest
  | custom
deriving DecidableEq, Repr

/-- The JSON names of the fields of `ProductRelease`, from its tags. -/
def releaseFields : List (GoString × ReleaseField) :=
  [("name".toList, .name), ("codename".toList, .codename), ("label".toList, .label),
    ("releaseDate".toList, .releaseDate), ("isLts".toList, .isLts),
    ("ltsFrom".toList, .ltsFrom), ("isEoas".toList, .isEoas), ("eoasFrom".toList, .eoasFrom),
    ("isEol".toList, .isEol), ("eolFrom".toList, .eolFrom),
    ("isDiscontinued".toList, .isDiscontinued),
    ("discontinuedFrom".toList, .discontinuedFrom), ("isEoes".toList, .isEoes),
    ("eoesFrom".toList, .eoesFrom), ("isMaintained".toList, .isMaintained),
    ("latest".toList, .latest), ("custom".toList, .custom)]

/-- The decoder on one field of a `ProductRelease`. -/
def ProductRelease.store (r : ProductRelease) (f : ReleaseField) (n : GoJSON.Node)
    (saved : Option StdError) : ProductRelease × Option StdError × Option StdError :=
  match f with
  | .name =>
    ({ r with Name := (GoJSON.storeString r.Name n saved).1 },
      (GoJSON.storeString r.Name n saved).2, none)
  | .codename =>
    ({ r with Codename := (GoJSON.storePointer [] GoJSON.storeString r.Codename n saved).1 },
      (GoJSON.storePointer [] GoJSON.storeString r.Codename n saved).2, none)
  | .label =>
    ({ r with Label := (GoJSON.storeString r.Label n saved).1 },
      (GoJSON.storeString r.Label n saved).2, none)
  | .releaseDate =>
    ({ r with ReleaseDate := (storeDate r.ReleaseDate n).1 }, saved,
      (storeDate r.ReleaseDate n).2)
  | .isLts =>
    ({ r with IsLTS := (GoJSON.storeBool r.IsLTS n saved).1 },
      (GoJSON.storeBool r.IsLTS n saved).2, none)
  | .ltsFrom =>
    ({ r with LTSFrom := (storeDatePointer r.LTSFrom n saved).1 },
      (storeDatePointer r.LTSFrom n saved).2)
  | .isEoas =>
    ({ r with IsEOAS := (GoJSON.storeBool r.IsEOAS n saved).1 },
      (GoJSON.storeBool r.IsEOAS n saved).2, none)
  | .eoasFrom =>
    ({ r with EOASFrom := (storeDatePointer r.EOASFrom n saved).1 },
      (storeDatePointer r.EOASFrom n saved).2)
  | .isEol =>
    ({ r with IsEOL := (GoJSON.storeBool r.IsEOL n saved).1 },
      (GoJSON.storeBool r.IsEOL n saved).2, none)
  | .eolFrom =>
    ({ r with EOLFrom := (storeDatePointer r.EOLFrom n saved).1 },
      (storeDatePointer r.EOLFrom n saved).2)
  | .isDiscontinued =>
    ({ r with IsDiscontinued := (GoJSON.storeBool r.IsDiscontinued n saved).1 },
      (GoJSON.storeBool r.IsDiscontinued n saved).2, none)
  | .discontinuedFrom =>
    ({ r with DiscontinuedFrom := (storeDatePointer r.DiscontinuedFrom n saved).1 },
      (storeDatePointer r.DiscontinuedFrom n saved).2)
  | .isEoes =>
    ({ r with IsEOES := (GoJSON.storePointer false GoJSON.storeBool r.IsEOES n saved).1 },
      (GoJSON.storePointer false GoJSON.storeBool r.IsEOES n saved).2, none)
  | .eoesFrom =>
    ({ r with EOESFrom := (storeDatePointer r.EOESFrom n saved).1 },
      (storeDatePointer r.EOESFrom n saved).2)
  | .isMaintained =>
    ({ r with IsMaintained := (GoJSON.storeBool r.IsMaintained n saved).1 },
      (GoJSON.storeBool r.IsMaintained n saved).2, none)
  | .latest =>
    ({ r with Latest := (storeVersionPointer r.Latest n saved).1 },
      (storeVersionPointer r.Latest n saved).2)
  | .custom =>
    ({ r with Custom := (GoJSON.storeMap r.Custom n saved).1 },
      (GoJSON.storeMap r.Custom n saved).2, none)

/-- `json.Unmarshal(data, &r)` for a `ProductRelease` `r`, on input that is an
object with the members `members`: the value of `r` after the call and the
error returned, which is the error of an `Unmarshaler` if one came up, else
the saved error. -/
def ProductRelease.UnmarshalObject (members : List (GoString × GoJSON.Node))
    (r : ProductRelease) : ProductRelease × Option StdError :=
  match (GoJSON.decodeMembers releaseFields ProductRelease.store members r none).2.2 with
  | some err =>
    ((GoJSON.decodeMembers releaseFields ProductRelease.store members r none).1, some err)
  | none =>
    ((GoJSON.decodeMembers releaseFields ProductRelease.store members r none).1,
      (GoJSON.decodeMembers releaseFields ProductRelease.store members r none).2.1)

/-! ## `encoding/json` on the response shapes: decoding -/

namespace GoJSON

/-- The decoder on a target of kind `int`: a number is stored when
`strconv.ParseInt` accepts its text. -/
def storeInt (v : Int) (n : Node) (saved : Option StdError) : Int × Option StdError :=
  match n with
  | .literal text =>
    match text with
    | [] => (v, saveError saved .json)
    | c :: _ =>
      if c = 'n' then (v, saved)
      else if c = '-' ∨ (48 ≤ c.toNat ∧ c.toNat ≤ 57) then
        match GoStrconv.ParseInt text with
        | (m, none) => (m, saved)
        | (_, some _) => (v, saveError saved .json)
      else (v, saveError saved .json)
  | _ => (v, saveError saved .json)

/-- The loop of `(*decodeState).array` on a slice: item `i` is decoded into
element `i` of the slice when it has one, else into a zero element.  `v` holds
the elements of the target from the current index on. -/
def decodeItems {T : Type} (zero : T)
    (store : T → Node → Option StdError → T × Option StdError × Option StdError) :
    List Node → List T → Option StdError → List T × Option StdError × Option StdError
  | [], _, saved => ([], saved, none)
  | x :: rest, v, saved =>
    match (store (v.headD zero) x saved).2.2 with
    | some err =>
      ((store (v.headD zero) x saved).1 :: v.tail, (store (v.headD zero) x saved).2.1, some err)
    | none =>
      ((store (v.headD zero) x saved).1 ::
          (decodeItems zero store rest v.tail (store (v.headD zero) x saved).2.1).1,
        (decodeItems zero store rest v.tail (store (v.headD zero) x saved).2.1).2)

/-- The decoder on a target that is a slice; the nil slice and the empty
slice are both the empty list. -/
def storeSlice {T : Type} (zero : T)
    (store : T → Node → Option StdError → T × Option StdError × Option StdError)
    (v : List T) (n : Node) (saved : Option StdError) :
    List T × Option StdError × Option StdError :=
  match n with
  | .literal text =>
    match text with
    | [] => (v, saveError saved .json, none)
    | c :: _ => if c = 'n' then ([], saved, none) else (v, saveError saved .json, none)
  | .array items => decodeItems zero store items v saved
  | .object _ => (v, saveError saved .json, none)

/-- The decoder on a target that is a struct with the fields `fields`. -/
def storeStruct {T F : Type} (fields : List (GoString × F))
    (store : T → F → Node → Option StdError → T × Option StdError × Option StdError)
    (v : T) (n : Node) (saved : Option StdError) : T × Option StdError × Option StdError :=
  match n with
  | .literal text =>
    match text with
    | [] => (v, saveError saved .json, none)
    | c :: _ => if c = 'n' then (v, saved, none) else (v, saveError saved .json, none)
  | .array _ => (v, saveError saved .json, none)
  | .object members => decodeMembers fields store members v saved

/-- The end of `json.Unmarshal`: the error of an `Unmarshaler` if one came
up, else the saved error. -/
def unmarshalResult {T : Type} (out : T × Option StdError × Option StdError) :
    T × Option StdError :=
  match out.2.2 with
  | some err => (out.1, some err)
  | none => (out.1, out.2.1)

end GoJSON

/-- The fields of `URI`. -/
inductive URIField where
  | name | uri
deriving DecidableEq, Repr

/-- The JSON names of the fields of `URI`. -/
def uriFields : List (GoString × URIField) := [("name".toList, .name), ("uri".toList, .uri)]

/-- The zero `URI`. -/
def URI.zero : Endoflife.URI := ⟨[], []⟩

/-- The decoder on one field of a `URI`. -/
def URI.store (v : Endoflife.URI) (f : URIField) (n : GoJSON.Node)
    (saved : Option StdError) : Endoflife.URI × Option StdError × Option StdError :=
  match f with
  | .name =>
    ({ v with Name := (GoJSON.storeString v.Name n saved).1 },
      (GoJSON.storeString v.Name n saved).2, none)
  | .uri =>
    ({ v with URI := (GoJSON.storeString v.URI n saved).1 },
      (GoJSON.storeString v.URI n saved).2, none)

/-- The fields of `URIListResponse`. -/
inductive URIListField where
  | schemaVersion | generatedAt | total | result
deriving DecidableEq, Repr

/-- The JSON names of the fields of `URIListResponse`. -/
def uriListFields : List (GoString × URIListField) :=
  [("schema_version".toList, .schemaVersion), ("generated_at".toList, .generatedAt),
    ("total".toList, .total), ("result".toList, .result)]

/-- The decoder on one field of a `URIListResponse`. -/
def URIListResponse.store (v : URIListResponse) (f : URIListField) (n : GoJSON.Node)
    (saved : Option StdError) : URIListResponse × Option StdError × Option StdError :=
  match f with
  | .schemaVersion =>
    ({ v with SchemaVersion := (GoJSON.storeString v.SchemaVersion n saved).1 },
      (GoJSON.storeString v.SchemaVersion n saved).2, none)
  | .generatedAt =>
    ({ v with GeneratedAt := (GoJSON.storeString v.GeneratedAt n saved).1 },
      (GoJSON.storeString v.GeneratedAt n saved).2, none)
  | .total =>
    ({ v with Total := (GoJSON.storeInt v.Total n saved).1 },
      (GoJSON.storeInt v.Total n saved).2, none)
  | .result =>
    ({ v with Result := (GoJSON.storeSlice URI.zero
          (GoJSON.storeStruct uriFields URI.store) v.Result n saved).1 },
      (GoJSON.storeSlice URI.zero (GoJSON.storeStruct uriFields URI.store) v.Result n saved).2)

/-- `json.Unmarshal(data, &r)` for a `URIListResponse` `r`, on input that
scans as the value `n`. -/
def URIListResponse.Unmarshal (n : GoJSON.Node) (r : URIListResponse) :
    URIListResponse × Option StdError :=
  GoJSON.unmarshalResult (GoJSON.storeStruct uriListFields URIListResponse.store r n none)

/-- The fields of `ProductReleaseResponse`. -/
inductive ReleaseResponseField where
  | schemaVersion | generatedAt | lastModified | result
deriving DecidableEq, Repr

/-- The JSON names of the fields of `ProductReleaseResponse`. -/
def releaseResponseFields : List (GoString × ReleaseResponseField) :=
  [("schema_version".toList, .schemaVersion), ("generated_at".toList, .generatedAt),
    ("last_modified".toList, .lastModified), ("result".toList, .result)]

/-- The decoder on one field of a `ProductReleaseResponse`. -/
def ProductReleaseResponse.store (v : ProductReleaseResponse) (f : ReleaseResponseField)
    (n : GoJSON.Node) (saved : Option StdError) :
    ProductReleaseResponse × Option StdError × Option StdError :=
  match f with
  | .schemaVersion =>
    ({ v with SchemaVersion := (GoJSON.storeString v.SchemaVersion n saved).1 },
      (GoJSON.storeString v.SchemaVersion n saved).2, none)
  | .generatedAt =>
    ({ v with GeneratedAt := (GoJSON.storeString v.GeneratedAt n saved).1 },
      (GoJSON.storeString v.GeneratedAt n saved).2, none)
  | .lastModified =>
    ({ v with LastModified := (GoJSON.storeString v.LastModified n saved).1 },
      (GoJSON.storeString v.LastModified n saved).2, none)
  | .result =>
    ({ v with Result :=
        (GoJSON.storeStruct releaseFields ProductRelease.store v.Result n saved).1 },
      (GoJSON.storeStruct releaseFields ProductRelease.store v.Result n saved).2)

/-- `json.Unmarshal(data, &r)` for a `ProductReleaseResponse` `r`, on input
that scans as the value `n`. -/
def ProductReleaseResponse.Unmarshal (n : GoJSON.Node) (r : ProductReleaseResponse) :
    ProductReleaseResponse × Option StdError :=
  GoJSON.unmarshalResult
    (GoJSON.storeStruct releaseResponseFields ProductReleaseResponse.store r n none)

/-! ## `encoding/json` on the response shapes: encoding -/

namespace GoJSON

/-- The encoding of a `string`. -/
def encodeString (s : GoString) : Node := .literal (MarshalString s)

/-- The encoding of a `bool`. -/
def encodeBool (b : Bool) : Node := .literal (if b then "true".toList else "false".toList)

/-- The encoding of an `int`: `strconv.AppendInt` in base 10, which writes the
digits that `%d` writes. -/
def encodeInt (n : Int) : Node := .literal (GoFmt.formatInt n)

/-- The encoding of a slice: `null` for the nil slice, which is the empty
list here, else the array of the encodings of its elements. -/
def encodeSlice {T : Type} (enc : T → Node) (v : List T) : Node :=
  match v with
  | [] => .literal MarshalNil
  | x :: rest => .array ((x :: rest).map enc)

/-- A member of an object for a field tagged `omitempty`: none when the field
is empty. -/
def optionalMember {T : Type} (key : String) (enc : T → Node) (v : Option T) :
    List (GoString × Node) :=
  match v with
  | none => []
  | some x => [(key.toList, enc x)]

/-- A member for a `string` field tagged `omitempty`. -/
def omitEmptyString (key : String) (s : GoString) : List (GoString × Node) :=
  if s = [] then [] else [(key.toList, encodeString s)]

/-- One step of the sort of the keys of a map. -/
def insertMember (m : GoString × Node) : List (GoString × Node) → List (GoString × Node)
  | [] => [m]
  | x :: rest => if m.1 < x.1 then m :: x :: rest else x :: insertMember m rest

/-- The members of a map in the order of their keys. -/
def sortMembers (ms : List (GoString × Node)) : List (GoString × Node) :=
  ms.foldr insertMember []

mutual
/-- The encoding of a value held under an `any`; a number is written with the
text it keeps. -/
def encodeValue : JSONValue → Node
  | .null => .literal MarshalNil
  | .bool b => encodeBool b
  | .number t => .literal t
  | .string s => encodeString s
  | .array items => .array (encodeValues items)
  | .object entries => .object (sortMembers (encodeEntries entries))
/-- The encodings of the items of an array. -/
def encodeValues : List JSONValue → List Node
  | [] => []
  | x :: rest => encodeValue x :: encodeValues rest
/-- The encodings of the entries of a map. -/
def encodeEntries : List (GoString × JSONValue) → List (GoString × Node)
  | [] => []
  | (k, x) :: rest => (k, encodeValue x) :: encodeEntries rest
end

end GoJSON

/-- The encoding of a `Date`, which is a `Marshaler`: what `MarshalJSON`
returns. -/
def Date.encode (d : Date) : GoJSON.Node := .literal d.MarshalJSON.1

/-- `json.Marshal` on a `URI`. -/
def URI.encode (u : Endoflife.URI) : GoJSON.Node :=
  .object [("name".toList, GoJSON.encodeString u.Name),
    ("uri".toList, GoJSON.encodeString u.URI)]

/-- `json.Marshal` on a `URIListResponse`. -/
def URIListResponse.encode (v : URIListResponse) : GoJSON.Node :=
  .object ([("schema_version".toList, GoJSON.encodeString v.SchemaVersion)] ++
    GoJSON.omitEmptyString "generated_at" v.GeneratedAt ++
    [("total".toList, GoJSON.encodeInt v.Total),
      ("result".toList, GoJSON.encodeSlice URI.encode v.Result)])

/-- `json.Marshal` on a `ProductVersion`. -/
def ProductVersion.encode (v : ProductVersion) : GoJSON.Node :=
  .object ([("name".toList, GoJSON.encodeString v.Name)] ++
    GoJSON.optionalMember "date" Date.encode v.Date ++
    GoJSON.optionalMember "link" GoJSON.encodeString v.Link)

/-- `json.Marshal` on a `ProductRelease`. -/
def ProductRelease.encode (r : ProductRelease) : GoJSON.Node :=
  .object ([("name".toList, GoJSON.encodeString r.Name)] ++
    GoJSON.optionalMember "codename" GoJSON.encodeString r.Codename ++
    [("label".toList, GoJSON.encodeString r.Label),
      ("releaseDate".toList, r.ReleaseDate.encode),
      ("isLts".toList, GoJSON.encodeBool r.IsLTS)] ++
    GoJSON.optionalMember "ltsFrom" Date.encode r.LTSFrom ++
    [("isEoas".toList, GoJSON.encodeBool r.IsEOAS)] ++
    GoJSON.optionalMember "eoasFrom" Date.encode r.EOASFrom ++
    [("isEol".toList, GoJSON.encodeBool r.IsEOL)] ++
    GoJSON.optionalMember "eolFrom" Date.encode r.EOLFrom ++
    [("isDiscontinued".toList, GoJSON.encodeBool r.IsDiscontinued)] ++
    GoJSON.optionalMember "discontinuedFrom" Date.encode r.DiscontinuedFrom ++
    GoJSON.optionalMember "isEoes" GoJSON.encodeBool r.IsEOES ++
    GoJSON.optionalMember "eoesFrom" Date.encode r.EOESFrom ++
    [("isMaintained".toList, GoJSON.encodeBool r.IsMaintained)] ++
    GoJSON.optionalMember "latest" ProductVersion.encode r.Latest ++
    (match r.Custom with
      | [] => []
      | e :: rest =>
        [("custom".toList, GoJSON.Node.object
          (GoJSON.sortMembers (GoJSON.encodeEntries (e :: rest))))]))

/-- `json.Marshal` on a `ProductReleaseResponse`. -/
def ProductReleaseResponse.encode (v : ProductReleaseResponse) : GoJSON.Node :=
  .object ([("schema_version".toList, GoJSON.encodeString v.SchemaVersion)] ++
    GoJSON.omitEmptyString "generated_at" v.GeneratedAt ++
    GoJSON.omitEmptyString "last_modified" v.LastModified ++
    [("result".toList, v.Result.encode)])

/-! ## Package `encoding/json`: the scanner -/

namespace GoJSON

open GoTime (dq bs)

/-- The scanner's test for a hexadecimal digit. -/
def isHexDigit (c : Char) : Bool := (hexVal c).isSome

/-- The scanner's test for a decimal digit. -/
def isDecimal (c : Char) : Bool := 48 ≤ c.toNat && c.toNat ≤ 57

/-- The scanner inside a string literal, from just after the opening quote:
the text of the literal up to and with the closing quote, and the input
behind it.  A raw control character and an escape that JSON does not have are
errors.  `fuel` bounds the number of elements. -/
def scanString : Nat → GoString → Option (GoString × GoString)
  | 0, _ => none
  | _ + 1, [] => none
  | fuel + 1, c :: rest =>
    if c = dq then some ([dq], rest)
    else if c = bs then
      match rest with
      | [] => none
      | e :: rest2 =>
        if e = 'u' then
          match rest2 with
          | h1 :: h2 :: h3 :: h4 :: rest3 =>
            if isHexDigit h1 ∧ isHexDigit h2 ∧ isHexDigit h3 ∧ isHexDigit h4 then
              (scanString fuel rest3).map
                (fun r => (c :: e :: h1 :: h2 :: h3 :: h4 :: r.1, r.2))
            else none
          | _ => none
        else if (simpleEscape e).isSome then
          (scanString fuel rest2).map (fun r => (c :: e :: r.1, r.2))
        else none
    else if c.toNat < 32 then none
    else (scanString fuel rest).map (fun r => (c :: r.1, r.2))

/-- The scanner behind the integer and fraction parts of a number: an
exponent, if there is one. -/
def scanExponent (acc s : GoString) : Option (GoString × GoString) :=
  match s with
  | [] => some (acc, [])
  | e :: r =>
    if e = 'e' ∨ e = 'E' then
      match r with
      | [] => none
      | g :: r1 =>
        if g = '+' ∨ g = '-' then
          if r1.takeWhile isDecimal = [] then none
          else some (acc ++ e :: g :: r1.takeWhile isDecimal, r1.dropWhile isDecimal)
        else
          if (g :: r1).takeWhile isDecimal = [] then none
          else some (acc ++ e :: (g :: r1).takeWhile isDecimal, (g :: r1).dropWhile isDecimal)
    else some (acc, e :: r)

/-- The scanner behind the integer part of a number: a fraction, if there is
one, then the exponent. -/
def scanFraction (acc s : GoString) : Option (GoString × GoString) :=
  match s with
  | [] => some (acc, [])
  | d :: r =>
    if d = '.' then
      if r.takeWhile isDecimal = [] then none
      else scanExponent (acc ++ d :: r.takeWhile isDecimal) (r.dropWhile isDecimal)
    else scanExponent acc (d :: r)

/-- The scanner on the digits of a number, behind its sign `acc`: a zero, or
a digit from 1 to 9 followed by digits. -/
def scanDigits (acc s : GoString) : Option (GoString × GoString) :=
  match s with
  | [] => none
  | c :: r =>
    if c = '0' then scanFraction (acc ++ [c]) r
    else if isDecimal c then
      scanFraction (acc ++ c :: r.takeWhile isDecimal) (r.dropWhile isDecimal)
    else none

/-- The scanner on a number: its text and the input behind it. -/
def scanNumber (s : GoString) : Option (GoString × GoString) :=
  match s with
  | [] => none
  | c :: r => if c = '-' then scanDigits [c] r else scanDigits [] (c :: r)

/-- The scanner's `maxNestingDepth`: the number of arrays and objects that
may be open at a time. -/
def maxNestingDepth : Nat := 10000

mutual
/-- The scanner on a value, with white space in front of it: the value and
the input behind it.  `depth` is the number of arrays and objects that are
open, and opening one more than `maxNestingDepth` is an error.  `fuel` bounds
the depth of the calls. -/
def parseValue : Nat → Nat → GoString → Option (Node × GoString)
  | 0, _, _ => none
  | fuel + 1, depth, s =>
    match skipSpace s with
    | [] => none
    | c :: rest =>
      if c = '{' then
        if maxNestingDepth ≤ depth then none
        else
          match skipSpace rest with
          | [] => none
          | x :: rest1 =>
            if x = '}' then some (.object [], rest1)
            else
              (parseMembers fuel (depth + 1) (x :: rest1)).map
                (fun r => (Node.object r.1, r.2))
      else if c = '[' then
        if maxNestingDepth ≤ depth then none
        else
          match skipSpace rest with
          | [] => none
          | x :: rest1 =>
            if x = ']' then some (.array [], rest1)
            else
              (parseItems fuel (depth + 1) (x :: rest1)).map
                (fun r => (Node.array r.1, r.2))
      else if c = dq then
        (scanString (rest.length + 1) rest).map (fun r => (Node.literal (c :: r.1), r.2))
      else if c = 'n' then
        match rest with
        | 'u' :: 'l' :: 'l' :: r => some (.literal ['n', 'u', 'l', 'l'], r)
        | _ => none
      else if c = 't' then
        match rest with
        | 'r' :: 'u' :: 'e' :: r => some (.literal ['t', 'r', 'u', 'e'], r)
        | _ => none
      else if c = 'f' then
        match rest with
        | 'a' :: 'l' :: 's' :: 'e' :: r => some (.literal ['f', 'a', 'l', 's', 'e'], r)
        | _ => none
      else (scanNumber (c :: rest)).map (fun r => (Node.literal r.1, r.2))
/-- The scanner on the items of an array that is not empty, up to and with
its closing bracket. -/
def parseItems : Nat → Nat → GoString → Option (List Node × GoString)
  | 0, _, _ => none
  | fuel + 1, depth, s =>
    match parseValue fuel depth s with
    | none => none
    | some (x, rest) =>
      match skipSpace rest with
      | [] => none
      | d :: rest1 =>
        if d = ',' then (parseItems fuel depth rest1).map (fun r => (x :: r.1, r.2))
        else if d = ']' then some ([x], rest1)
        else none
/-- The scanner on the members of an object that is not empty, up to and with
its closing brace; the keys are unquoted. -/
def parseMembers : Nat → Nat → GoString → Option (List (GoString × Node) × GoString)
  | 0, _, _ => none
  | fuel + 1, depth, s =>
    match skipSpace s with
    | [] => none
    | c :: rest =>
      if c = dq then
        match scanString (rest.length + 1) rest with
        | none => none
        | some (lit, rest1) =>
          match unquote (c :: lit) with
          | none => none
          | some key =>
            match skipSpace rest1 with
            | [] => none
            | d :: rest2 =>
              if d = ':' then
                match parseValue fuel depth rest2 with
                | none => none
                | some (x, rest3) =>
                  match skipSpace rest3 with
                  | [] => none
                  | g :: rest4 =>
                    if g = ',' then
                      (parseMembers fuel depth rest4).map (fun r => ((key, x) :: r.1, r.2))
                    else if g = '}' then some ([(key, x)], rest4)
                    else none
              else none
      else none
end

/-- The scanner on a whole input: one value, with white space around it. -/
def scan (data : GoString) : Option Node :=
  match parseValue (2 * data.length + 2) 0 data with
  | none => none
  | some (n, rest) => if skipSpace rest = [] then some n else none

/-- `json.Unmarshal(data, &v)`: a syntax error when the input does not scan,
else what the decoder `decode` for the type of `v` makes of the value. -/
def Unmarshal {T : Type} (decode : Node → T → T × Option StdError) (data : GoString) (v : T) :
    T × Option StdError :=
  match scan data with
  | none => (v, some .json)
  | some n => decode n v

/-- The decoder on an element of a `[]string`. -/
def storeStringItem (v : GoString) (n : Node) (saved : Option StdError) :
    GoString × Option StdError × Option StdError :=
  ((storeString v n saved).1, (storeString v n saved).2, none)

end GoJSON

/-- The fields of `ProductSummary`. -/
inductive SummaryField where
  | name | label | aliases | category | tags | uri
deriving DecidableEq, Repr

/-- The JSON names of the fields of `ProductSummary`. -/
def summaryFields : List (GoString × SummaryField) :=
  [("name".toList, .name), ("label".toList, .label), ("aliases".toList, .aliases),
    ("category".toList, .category), ("tags".toList, .tags), ("uri".toList, .uri)]

/-- The zero `ProductSummary`. -/
def ProductSummary.zero : ProductSummary := ⟨[], [], [], [], [], []⟩

/-- The decoder on one field of a `ProductSummary`. -/
def ProductSummary.store (v : ProductSummary) (f : SummaryField) (n : GoJSON.Node)
    (saved : Option StdError) : ProductSummary × Option StdError × Option StdError :=
  match f with
  | .name =>
    ({ v with Name := (GoJSON.storeString v.Name n saved).1 },
      (GoJSON.storeString v.Name n saved).2, none)
  | .label =>
    ({ v with Label := (GoJSON.storeString v.Label n saved).1 },
      (GoJSON.storeString v.Label n saved).2, none)
  | .aliases =>
    ({ v with Aliases := (GoJSON.storeSlice [] GoJSON.storeStringItem v.Aliases n saved).1 },
      (GoJSON.storeSlice [] GoJSON.storeStringItem v.Aliases n saved).2)
  | .category =>
    ({ v with Category := (GoJSON.storeString v.Category n saved).1 },
      (GoJSON.storeString v.Category n saved).2, none)
  | .tags =>
    ({ v with Tags := (GoJSON.storeSlice [] GoJSON.storeStringItem v.Tags n saved).1 },
      (GoJSON.storeSlice [] GoJSON.storeStringItem v.Tags n saved).2)
  | .uri =>
    ({ v with URI := (GoJSON.storeString v.URI n saved).1 },
      (GoJSON.storeString v.URI n saved).2, none)

/-- The decoder on one field of a `ProductListResponse`, whose fields have the
JSON names of those of `URIListResponse`. -/
def ProductListResponse.store (v : ProductListResponse) (f : URIListField) (n : GoJSON.Node)
    (saved : Option StdError) : ProductListResponse × Option StdError × Option StdError :=
  match f with
  | .schemaVersion =>
    ({ v with SchemaVersion := (GoJSON.storeString v.SchemaVersion n saved).1 },
      (GoJSON.storeString v.SchemaVersion n saved).2, none)
  | .generatedAt =>
    ({ v with GeneratedAt := (GoJSON.storeString v.GeneratedAt n saved).1 },
      (GoJSON.storeString v.GeneratedAt n saved).2, none)
  | .total =>
    ({ v with Total := (GoJSON.storeInt v.Total n saved).1 },
      (GoJSON.storeInt v.Total n saved).2, none)
  | .result =>
    ({ v with Result := (GoJSON.storeSlice ProductSummary.zero
          (GoJSON.storeStruct summaryFields ProductSummary.store) v.Result n saved).1 },
      (GoJSON.storeSlice ProductSummary.zero
        (GoJSON.storeStruct summaryFields ProductSummary.store) v.Result n saved).2)

/-- The decoder of `json.Unmarshal` for a `ProductListResponse`, on input that
scans as the value `n`. -/
def ProductListResponse.Unmarshal (n : GoJSON.Node) (r : ProductListResponse) :
    ProductListResponse × Option StdError :=
  GoJSON.unmarshalResult (GoJSON.storeStruct uriListFields ProductListResponse.store r n none)

/-- The fields of `IdentifierMapping`. -/
inductive MappingField where
  | identifier | product
deriving DecidableEq, Repr

/-- The JSON names of the fields of `IdentifierMapping`. -/
def mappingFields : List (GoString × MappingField) :=
  [("identifier".toList, .identifier), ("product".toList, .product)]

/-- The zero `IdentifierMapping`. -/
def IdentifierMapping.zero : IdentifierMapping := ⟨[], URI.zero⟩

/-- The decoder on one field of an `IdentifierMapping`. -/
def IdentifierMapping.store (v : IdentifierMapping) (f : MappingField) (n : GoJSON.Node)
    (saved : Option StdError) : IdentifierMapping × Option StdError × Option StdError :=
  match f with
  | .identifier =>
    ({ v with Identifier := (GoJSON.storeString v.Identifier n saved).1 },
      (GoJSON.storeString v.Identifier n saved).2, none)
  | .product =>
    ({ v with Product := (GoJSON.storeStruct uriFields URI.store v.Product n saved).1 },
      (GoJSON.storeStruct uriFields URI.store v.Product n saved).2)

/-- The decoder on one field of an `IdentifierListResponse`, whose fields have
the JSON names of those of `URIListResponse`. -/
def IdentifierListResponse.store (v : IdentifierListResponse) (f : URIListField)
    (n : GoJSON.Node) (saved : Option StdError) :
    IdentifierListResponse × Option StdError × Option StdError :=
  match f with
  | .schemaVersion =>
    ({ v with SchemaVersion := (GoJSON.storeString v.SchemaVersion n saved).1 },
      (GoJSON.storeString v.SchemaVersion n saved).2, none)
  | .generatedAt =>
    ({ v with GeneratedAt := (GoJSON.storeString v.GeneratedAt n saved).1 },
      (GoJSON.storeString v.GeneratedAt n saved).2, none)
  | .total =>
    ({ v with Total := (GoJSON.storeInt v.Total n saved).1 },
      (GoJSON.storeInt v.Total n saved).2, none)
  | .result =>
    ({ v with Result := (GoJSON.storeSlice IdentifierMapping.zero
          (GoJSON.storeStruct mappingFields IdentifierMapping.store) v.Result n saved).1 },
      (GoJSON.storeSlice IdentifierMapping.zero
        (GoJSON.storeStruct mappingFields IdentifierMapping.store) v.Result n saved).2)

/-- The decoder of `json.Unmarshal` for an `IdentifierListResponse`, on input
that scans as the value `n`. -/
def IdentifierListResponse.Unmarshal (n : GoJSON.Node) (r : IdentifierListResponse) :
    IdentifierListResponse × Option StdError :=
  GoJSON.unmarshalResult
    (GoJSON.storeStruct uriListFields IdentifierListResponse.store r n none)


/-- `json.Marshal` on a `ProductSummary`. -/
def ProductSummary.encode (p : ProductSummary) : GoJSON.Node :=
  .object [("name".toList, GoJSON.encodeString p.Name),
    ("label".toList, GoJSON.encodeString p.Label),
    ("aliases".toList, GoJSON.encodeSlice GoJSON.encodeString p.Aliases),
    ("category".toList, GoJSON.encodeString p.Category),
    ("tags".toList, GoJSON.encodeSlice GoJSON.encodeString p.Tags),
    ("uri".toList, GoJSON.encodeString p.URI)]

/-- `json.Marshal` on a `ProductListResponse`. -/
def ProductListResponse.encode (v : ProductListResponse) : GoJSON.Node :=
  .object ([("schema_version".toList, GoJSON.encodeString v.SchemaVersion)] ++
    GoJSON.omitEmptyString "generated_at" v.GeneratedAt ++
    [("total".toList, GoJSON.encodeInt v.Total),
      ("result".toList, GoJSON.encodeSlice ProductSummary.encode v.Result)])

/-- `json.Marshal` on an `IdentifierMapping`. -/
def IdentifierMapping.encode (m : IdentifierMapping) : GoJSON.Node :=
  .object [("identifier".toList, GoJSON.encodeString m.Identifier),
    ("product".toList, m.Product.encode)]

/-- `json.Marshal` on an `IdentifierListResponse`. -/
def IdentifierListResponse.encode (v : IdentifierListResponse) : GoJSON.Node :=
  .object ([("schema_version".toList, GoJSON.encodeString v.SchemaVersion)] ++
    GoJSON.omitEmptyString "generated_at" v.GeneratedAt ++
    [("total".toList, GoJSON.encodeInt v.Total),
      ("result".toList, GoJSON.encodeSlice IdentifierMapping.encode v.Result)])

/-! ## Notions of the specification -/

/-- The character is a decimal digit. -/
def isDigitChar (c : Char) : Bool := 48 ≤ c.toNat && c.toNat ≤ 57

/-- The value of a decimal digit. -/
def digitValue (c : Char) : Nat := c.toNat - 48

/-- The number of days of a month of the Gregorian calendar. -/
def daysInMonth (year month : Nat) : Nat :=
  if month = 2 then
    if year % 4 = 0 ∧ (year % 100 ≠ 0 ∨ year % 400 = 0) then 29 else 28
  else if month = 4 ∨ month = 6 ∨ month = 9 ∨ month = 11 then 30
  else 31

/-- The string has the form YYYY-MM-DD and denotes a valid calendar date: a
four-digit year, a month in 01..12 and a day that exists in that month of that
year. -/
def validDate (s : GoString) : Bool :=
  match s with
  | [y1, y2, y3, y4, h1, m1, m2, h2, d1, d2] =>
    let year := digitValue y1 * 1000 + digitValue y2 * 100 + digitValue y3 * 10 + digitValue y4
    let month := digitValue m1 * 10 + digitValue m2
    let day := digitValue d1 * 10 + digitValue d2
    isDigitChar y1 && isDigitChar y2 && isDigitChar y3 && isDigitChar y4 &&
      h1 == '-' && isDigitChar m1 && isDigitChar m2 && h2 == '-' &&
      isDigitChar d1 && isDigitChar d2 &&
      decide (1 ≤ month) && decide (month ≤ 12) && decide (1 ≤ day) &&
      decide (day ≤ daysInMonth year month)
  | _ => false

/-- The JSON string literal that writes `s` as it is, between double quotes
and without escapes. -/
def jsonLiteral (s : GoString) : GoString := [GoTime.dq] ++ s ++ [GoTime.dq]

/-- The text `msg` contains the text `s`, as `strings.Contains(msg, s)`. -/
def Contains (msg s : GoString) : Prop := s <:+: msg

instance (msg s : GoString) : Decidable (Contains msg s) := by
  unfold Contains
  infer_instance

/-- Every character of the text is printable ASCII other than the double
quote and the backslash. -/
def plainASCII (s : GoString) : Bool :=
  s.all (fun c => decide (32 ≤ c.toNat) && decide (c.toNat < 128) && c != GoTime.dq && c != GoTime.bs)

/-- The request that `doRequest` hands to the HTTP client: the request built
by `http.NewRequestWithContext` with the two headers set. -/
def Client.outgoing (c : Client) (req : GoHTTP.Request) : GoHTTP.Request :=
  { req with
    Header := GoHTTP.Header.Set
      (GoHTTP.Header.Set req.Header "Accept".toList "application/json".toList)
      "User-Agent".toList c.UserAgent }

/-- The call `doRequest(ctx, method, path, _)` of client `c` gets the response
`resp`: the URL and the request are built without error and the HTTP client
answers the request with `resp`. -/
def Client.Receives {R : Type} (c : Client) (env : Env R) (ctx : GoHTTP.Context)
    (method path : GoString) (resp : GoHTTP.Response) : Prop :=
  ∃ reqURL req, env.JoinPath c.BaseURL path = .ok reqURL ∧
    env.NewRequest ctx method reqURL = .ok req ∧
    c.HTTPClient.Do (c.outgoing req) = .ok resp

/-- The call `doRequest(ctx, method, path, _)` of client `c` fails in the
transport with the error `e`: the URL and the request are built without error
and the HTTP client fails on the request with `e`. -/
def Client.TransportFails {R : Type} (c : Client) (env : Env R) (ctx : GoHTTP.Context)
    (method path : GoString) (e : GoError) : Prop :=
  ∃ reqURL req, env.JoinPath c.BaseURL path = .ok reqURL ∧
    env.NewRequest ctx method reqURL = .ok req ∧
    c.HTTPClient.Do (c.outgoing req) = .error e

/-- The decimal representation of an integer: a minus sign when it is
negative, then the digits of its absolute value without leading zeros. -/
def decimalRepr (n : Int) : GoString :=
  (if n < 0 then ['-'] else []) ++ GoTime.decimalDigits (n.natAbs + 1) n.natAbs

/-- The integer fits in a 64-bit `int`. -/
def fitsInt (n : Int) : Prop := -(2 : Int) ^ 63 ≤ n ∧ n < (2 : Int) ^ 63

/-- The header that holds `Retry-After: value` and nothing else. -/
def retryAfterHeader (value : GoString) : GoHTTP.Header :=
  fun k => if k = "Retry-After".toList then [value] else []

/-- The header without any field. -/
def emptyHeader : GoHTTP.Header := fun _ => []

/-- A response with the given status code and header and an empty body. -/
def responseOf (status : Int) (header : GoHTTP.Header) : GoHTTP.Response :=
  { StatusCode := status, Header := header, Body := .ok [] }

/-- A client as `setupTestServer` of `client_test.go` builds it, for a server
that answers every request with `resp`. -/
def setupTestServer (resp : GoHTTP.Response) : Client :=
  { BaseURL := "http://127.0.0.1:8080".toList,
    HTTPClient := { Timeout := DefaultTimeout, Do := fun _ => .ok resp },
    UserAgent := "endoflife-go/".toList ++ Version }

/-- A test client whose transport fails on every request with the error `e`. -/
def failingClient (e : GoError) : Client :=
  { BaseURL := "http://127.0.0.1:8080".toList,
    HTTPClient := { Timeout := DefaultTimeout, Do := fun _ => .error e },
    UserAgent := "endoflife-go/".toList ++ Version }

/-- A response with the given status whose body fails to be read with `e`. -/
def unreadable (status : Int) (e : GoError) : GoHTTP.Response :=
  { StatusCode := status, Header := emptyHeader, Body := .error e }

/-- An environment for the test client: the URL is the base followed by the
path, every request can be built, and the body is decoded by `decode`. -/
def testEnv {R : Type} (decode : GoString → R → R × Option StdError) : Env R :=
  { JoinPath := fun base path => .ok (base ++ path),
    NewRequest := fun ctx method url =>
      .ok { Ctx := ctx, Method := method, URL := url, Header := emptyHeader },
    Unmarshal := decode }

/-- The background context. -/
def background : GoHTTP.Context := { Err := none }

/-- The chain of an error: the error itself, then the error it wraps, and so
on to the end. -/
def GoError.chain : GoError → List GoError
  | .wrap msg inner => .wrap msg inner :: inner.chain
  | .sentinel s => [.sentinel s]
  | .api e => [.api e]
  | .std e => [.std e]
  | .errorf msg => [.errorf msg]

/-- The chain of the error contains the sentinel; the nil error has no
chain. -/
def ContainsSentinel (err : Option GoError) (s : Sentinel) : Prop :=
  ∃ e, err = some e ∧ GoError.sentinel s ∈ e.chain

/-- The chain of the error contains an `*APIError` with the status code. -/
def ContainsStatus (err : Option GoError) (code : Int) : Prop :=
  ∃ e a, err = some e ∧ GoError.api a ∈ e.chain ∧ a.StatusCode = code

/-- A call of one of the three option constructors, with its argument. -/
inductive OptionCall where
  | baseURL (baseURL : GoString)
  | httpClient (httpClient : GoHTTP.Client)
  | userAgent (userAgent : GoString)

/-- The option a call builds. -/
def OptionCall.toOption : OptionCall → ClientOption
  | .baseURL s => WithBaseURL s
  | .httpClient h => WithHTTPClient h
  | .userAgent s => WithUserAgent s

/-- The argument of the last `WithBaseURL` in the list, if there is one. -/
def lastBaseURL (calls : List OptionCall) : Option GoString :=
  (calls.filterMap (fun o => match o with | .baseURL s => some s | _ => none)).getLast?

/-- The argument of the last `WithHTTPClient` in the list, if there is one. -/
def lastHTTPClient (calls : List OptionCall) : Option GoHTTP.Client :=
  (calls.filterMap (fun o => match o with | .httpClient h => some h | _ => none)).getLast?

/-- The argument of the last `WithUserAgent` in the list, if there is one. -/
def lastUserAgent (calls : List OptionCall) : Option GoString :=
  (calls.filterMap (fun o => match o with | .userAgent s => some s | _ => none)).getLast?

/-- The character stands for itself in the path of a URL: `url.JoinPath`
neither escapes it nor gives it a meaning.  It is a letter, a digit, or one of
`-._~$&+,:;=@`. -/
def isPathChar (c : Char) : Bool :=
  (97 ≤ c.toNat && c.toNat ≤ 122) || (65 ≤ c.toNat && c.toNat ≤ 90) ||
    (48 ≤ c.toNat && c.toNat ≤ 57) || "-._~$&+,:;=@".toList.contains c

/-- A plain path segment: not empty, made of characters that stand for
themselves, and neither `.` nor `..`. -/
def plainSegment (s : GoString) : Bool :=
  s != [] && s.all isPathChar && s != ['.'] && s != ['.', '.']

/-- The absolute path with the given segments, each behind a slash; the empty
path when there is no segment. -/
def pathOf (segments : List GoString) : GoString :=
  segments.flatMap (fun s => '/' :: s)

/-- The address with the given scheme, host and path. -/
def address (scheme host path : GoString) : GoString :=
  scheme ++ "://".toList ++ host ++ path

/-- The environment joins paths as `url.JoinPath` does on the base address
`scheme://host` followed by `basePath`, for every relative path made of
slashes and of characters that stand for themselves: the base address parses
to that scheme, host and path, the path is joined and cleaned, and the URL is
written back. -/
def Env.JoinsFrom {R : Type} (env : Env R) (scheme host basePath : GoString) : Prop :=
  ∀ path, (∀ c ∈ path, isPathChar c = true ∨ c = '/') →
    env.JoinPath (address scheme host basePath) path
      = .ok (address scheme host (GoURL.pathInString host (GoURL.joinPath basePath [path])))

/-- The environment builds a `GET` request for every URL, as
`http.NewRequestWithContext` does for a URL that parses: the request holds the
context, the method and the URL. -/
def Env.BuildsRequests {R : Type} (env : Env R) : Prop :=
  ∀ ctx url, ∃ req, env.NewRequest ctx MethodGet url = .ok req ∧
    req.Ctx = ctx ∧ req.Method = MethodGet ∧ req.URL = url

/-- The call `doRequest(ctx, method, path, _)` of client `c` hands the request
`req` to `c.HTTPClient.Do`: the URL is joined and the request built without
error, and `req` is the request built with the two headers set. -/
def Client.Sends {R : Type} (c : Client) (env : Env R) (ctx : GoHTTP.Context)
    (method path : GoString) (req : GoHTTP.Request) : Prop :=
  ∃ reqURL built, env.JoinPath c.BaseURL path = .ok reqURL ∧
    env.NewRequest ctx method reqURL = .ok built ∧ req = c.outgoing built

/-- An environment for the base address `scheme://host` followed by
`basePath`: paths are joined to it as `url.JoinPath` does, every request can
be built, and the body is decoded by `decode`. -/
def libraryEnv {R : Type} (scheme host basePath : GoString)
    (decode : GoString → R → R × Option StdError) : Env R :=
  { JoinPath := fun base path =>
      if base = address scheme host basePath then
        .ok (address scheme host (GoURL.pathInString host (GoURL.joinPath basePath [path])))
      else .error (.other "another base address".toList),
    NewRequest := fun ctx method url =>
      .ok { Ctx := ctx, Method := method, URL := url, Header := emptyHeader },
    Unmarshal := decode }

/-- The value of the last member of an object that the decoder gives to the
field `f`, if there is one. -/
def lastValue {F : Type} [DecidableEq F] (fields : List (GoString × F)) (f : F) :
    List (GoString × GoJSON.Node) → Option GoJSON.Node
  | [] => none
  | (k, n) :: rest =>
    match lastValue fields f rest with
    | some x => some x
    | none => if GoJSON.lookupField fields k = some f then some n else none

/-- The values of the members of an object that the decoder gives to the
field `f`, in the order of the input. -/
def valuesOf {F : Type} [DecidableEq F] (fields : List (GoString × F)) (f : F) :
    List (GoString × GoJSON.Node) → List GoJSON.Node
  | [] => []
  | (k, n) :: rest =>
    if GoJSON.lookupField fields k = some f then n :: valuesOf fields f rest
    else valuesOf fields f rest

/-- The JSON value `null`. -/
def nullNode : GoJSON.Node := .literal "null".toList

/-- The optional date fields of `ProductRelease`. -/
def ReleaseField.isOptionalDate (f : ReleaseField) : Bool :=
  f = .ltsFrom ∨ f = .eoasFrom ∨ f = .eolFrom ∨ f = .discontinuedFrom ∨ f = .eoesFrom

/-- The optional date of a release under the field `f`. -/
def ProductRelease.optionalDate (r : ProductRelease) (f : ReleaseField) : Option Date :=
  match f with
  | .ltsFrom => r.LTSFrom
  | .eoasFrom => r.EOASFrom
  | .eolFrom => r.EOLFrom
  | .discontinuedFrom => r.DiscontinuedFrom
  | .eoesFrom => r.EOESFrom
  | _ => none

/-- The input of `TestProductRelease_UnmarshalJSON`. -/
def testReleaseInput : List (GoString × GoJSON.Node) :=
  [("name".toList, .literal "\"3.12\"".toList),
    ("codename".toList, .literal "null".toList),
    ("label".toList, .literal "\"3.12\"".toList),
    ("releaseDate".toList, .literal "\"2023-10-02\"".toList),
    ("isLts".toList, .literal "false".toList),
    ("ltsFrom".toList, .literal "null".toList),
    ("isEoas".toList, .literal "false".toList),
    ("eoasFrom".toList, .literal "null".toList),
    ("isEol".toList, .literal "false".toList),
    ("eolFrom".toList, .literal "\"2028-10-01\"".toList),
    ("isDiscontinued".toList, .literal "false".toList),
    ("discontinuedFrom".toList, .literal "null".toList),
    ("isEoes".toList, .literal "false".toList),
    ("eoesFrom".toList, .literal "null".toList),
    ("isMaintained".toList, .literal "true".toList),
    ("latest".toList, .object
      [("name".toList, .literal "\"3.12.8\"".toList),
        ("date".toList, .literal "\"2024-12-03\"".toList),
        ("link".toList,
          .literal "\"https://python.org/downloads/release/python-3128/\"".toList)])]

/-- A release response whose release date is January 15, 2024, at noon, and
whose other fields are zero. -/
def noonRelease : ProductReleaseResponse :=
  { ProductReleaseResponse.zero with
    Result := { ProductRelease.zero with
      ReleaseDate := ⟨⟨(GoTime.Date 2024 1 15).sec + 43200, 0⟩⟩ } }

/-- The index of the API as `TestGetIndex` serves it. -/
def testIndex : URIListResponse :=
  { SchemaVersion := "1.2.0".toList, GeneratedAt := [], Total := 3,
    Result := [⟨"products".toList, "/api/v1/products".toList⟩,
      ⟨"categories".toList, "/api/v1/categories".toList⟩,
      ⟨"tags".toList, "/api/v1/tags".toList⟩] }

/-- The text behind a value does not go on with the value: it is empty, or it
starts with a comma, a closing bracket or brace, or white space. -/
def Delim (rest : GoString) : Prop :=
  ∀ c, rest.head? = some c → c = ',' ∨ c = ']' ∨ c = '}' ∨ GoJSON.isSpace c = true

/-- The scanner reads the value `n`, which opens at most `d` arrays and
objects inside one another, back from its text: the text starts with a
character of the value, and from the text followed by any text that does not
go on with the value the scanner gives `n` and that text. -/
def Scannable (d : Nat) (n : GoJSON.Node) : Prop :=
  (∃ c t, n.text = c :: t ∧ GoJSON.isSpace c = false ∧ c ≠ ']') ∧
  ∀ fuel depth rest, 2 * (n.text ++ rest).length + 1 ≤ fuel →
    depth + d ≤ GoJSON.maxNestingDepth → Delim rest →
    GoJSON.parseValue fuel depth (n.text ++ rest) = some (n, rest)

/-- The value `n` is a JSON encoding of the string `s`: a string literal that
the scanner accepts and that `unquote` decodes to `s`. -/
def EncodesString (s : GoString) (n : GoJSON.Node) : Prop :=
  ∃ body, n = .literal (GoTime.dq :: body) ∧
    GoJSON.scanString (body.length + 1) body = some (body, []) ∧
    GoJSON.unquote (GoTime.dq :: body) = some s

/-- The value `n` is the JSON encoding of the `int` `i`: its decimal digits. -/
def EncodesInt (i : Int) (n : GoJSON.Node) : Prop := n = GoJSON.encodeInt i

/-- The value `n` is a JSON encoding of the slice `v`, whose elements are
encoded as `enc` says: `null` for the nil slice, the array of encodings of
the elements for a slice with elements, and `[]` for the empty slice that is
not nil, which is the empty list as the nil slice is. -/
def EncodesSlice {T : Type} (enc : T → GoJSON.Node → Prop) (v : List T) (n : GoJSON.Node) :
    Prop :=
  (v = [] ∧ n = nullNode) ∨ ∃ items, n = .array items ∧ List.Forall₂ enc v items

/-- The members `ms` encode a `string` field tagged `omitempty` with the key
`key`: none when the string is empty, else the member with an encoding of the
string. -/
def EncodesOmitEmpty (key : String) (s : GoString) (ms : List (GoString × GoJSON.Node)) :
    Prop :=
  (s = [] ∧ ms = []) ∨ (s ≠ [] ∧ ∃ a, ms = [(key.toList, a)] ∧ EncodesString s a)

/-- The value `n` is a JSON encoding of the `URI` `u`. -/
def EncodesURI (u : Endoflife.URI) (n : GoJSON.Node) : Prop :=
  ∃ a b, n = .object [("name".toList, a), ("uri".toList, b)] ∧
    EncodesString u.Name a ∧ EncodesString u.URI b

/-- The value `n` is a JSON encoding of the `ProductSummary` `p`. -/
def EncodesSummary (p : ProductSummary) (n : GoJSON.Node) : Prop :=
  ∃ a b c d e f, n = .object [("name".toList, a), ("label".toList, b),
      ("aliases".toList, c), ("category".toList, d), ("tags".toList, e), ("uri".toList, f)] ∧
    EncodesString p.Name a ∧ EncodesString p.Label b ∧
    EncodesSlice EncodesString p.Aliases c ∧ EncodesString p.Category d ∧
    EncodesSlice EncodesString p.Tags e ∧ EncodesString p.URI f

/-- The value `n` is a JSON encoding of the `IdentifierMapping` `m`. -/
def EncodesMapping (m : IdentifierMapping) (n : GoJSON.Node) : Prop :=
  ∃ a b, n = .object [("identifier".toList, a), ("product".toList, b)] ∧
    EncodesString m.Identifier a ∧ EncodesURI m.Product b

/-- The value `n` is a JSON encoding of a list response with the given
fields, whose results are encoded as `enc` says. -/
def EncodesList {T : Type} (enc : T → GoJSON.Node → Prop) (schemaVersion generatedAt : GoString)
    (total : Int) (result : List T) (n : GoJSON.Node) : Prop :=
  ∃ a g t r, n = .object ([("schema_version".toList, a)] ++ g ++
      [("total".toList, t), ("result".toList, r)]) ∧
    EncodesString schemaVersion a ∧ EncodesOmitEmpty "generated_at" generatedAt g ∧
    EncodesInt total t ∧ EncodesSlice enc result r

/-- The value `n` is a JSON encoding of the `URIListResponse` `v`. -/
def EncodesURIList (v : URIListResponse) (n : GoJSON.Node) : Prop :=
  EncodesList EncodesURI v.SchemaVersion v.GeneratedAt v.Total v.Result n

/-- The value `n` is a JSON encoding of the `ProductListResponse` `v`. -/
def EncodesProductList (v : ProductListResponse) (n : GoJSON.Node) : Prop :=
  EncodesList EncodesSummary v.SchemaVersion v.GeneratedAt v.Total v.Result n

/-- The value `n` is a JSON encoding of the `IdentifierListResponse` `v`. -/
def EncodesIdentifierList (v : IdentifierListResponse) (n : GoJSON.Node) : Prop :=
  EncodesList EncodesMapping v.SchemaVersion v.GeneratedAt v.Total v.Result n

/-- The server answers the `GET` of `path` that client `c` sends with status
200 and a body that is the text of the JSON value `n`, followed by white space
or by nothing, and the body is decoded as `json.Unmarshal` does with the
decoder `decode` of the result type. -/
def Client.Serves {R : Type} (c : Client) (env : Env R) (ctx : GoHTTP.Context)
    (path : GoString) (decode : GoJSON.Node → R → R × Option StdError) (n : GoJSON.Node) :
    Prop :=
  env.Unmarshal = GoJSON.Unmarshal decode ∧
  ∃ resp trailing, c.Receives env ctx MethodGet path resp ∧ resp.StatusCode = 200 ∧
    resp.Body = .ok (n.text ++ trailing) ∧ GoJSON.skipSpace trailing = []

/-- A response with status 200 whose body is the text `body`. -/
def jsonResponse (body : GoString) : GoHTTP.Response :=
  { StatusCode := 200, Header := emptyHeader, Body := .ok body }

/-- The body that `json.NewEncoder(w).Encode` writes for the JSON value `n`:
its text and a newline. -/
def encodedLine (n : GoJSON.Node) : GoString := n.text ++ ['\n']

/-- The product list as `TestGetProducts` serves it. -/
def testProducts : ProductListResponse :=
  { SchemaVersion := "1.2.0".toList, GeneratedAt := [], Total := 2,
    Result := [
      { Name := "python".toList, Label := "Python".toList, Aliases := [],
        Category := "lang".toList, Tags := ["programming".toList],
        URI := "/api/v1/products/python".toList },
      { Name := "go".toList, Label := "Go".toList, Aliases := [],
        Category := "lang".toList, Tags := ["programming".toList],
        URI := "/api/v1/products/go".toList }] }

/-- The identifier list as `TestGetIdentifierDetails` serves it. -/
def testIdentifiers : IdentifierListResponse :=
  { SchemaVersion := "1.2.0".toList, GeneratedAt := [], Total := 2,
    Result := [
      ⟨"pkg:pypi/python".toList, ⟨"python".toList, "/api/v1/products/python".toList⟩⟩,
      ⟨"pkg:golang/go".toList, ⟨"go".toList, "/api/v1/products/go".toList⟩⟩] }

/-! ## Lemmas on package `time` -/

namespace GoTime

theorem daysSinceEpoch_eq (year : Int) :
    ∃ a b c e : Nat, b < 4 ∧ c < 25 ∧ e < 4 ∧
      (year + 292277022399).toNat = 400 * a + 100 * b + 4 * c + e ∧
      daysSinceEpoch year = 146097 * a + 36524 * b + 1461 * c + 365 * e := by
  refine ⟨(year + 292277022399).toNat / 400, (year + 292277022399).toNat % 400 / 100,
    (year + 292277022399).toNat % 100 / 4, (year + 292277022399).toNat % 4, ?_, ?_, ?_, ?_, ?_⟩
  · omega
  · omega
  · omega
  · omega
  · simp only [daysSinceEpoch, absoluteZeroYear, daysPer400Years, daysPer100Years, daysPer4Years]
    have : year - -292277022399 = year + 292277022399 := by ring
    rw [this]
    generalize (year + 292277022399).toNat = Y
    omega

theorem absYearDay_days (a b c e yd : Nat) (hb : b < 4) (hc : c < 25) (he : e < 4)
    (hyd : yd < 366) (hyd' : yd = 365 → e = 3 ∧ (c ≠ 24 ∨ b = 3)) :
    absYearDay ((146097 * a + 36524 * b + 1461 * c + 365 * e + yd) * 86400) =
      (((400 * a + 100 * b + 4 * c + e : Nat) : Int) + absoluteZeroYear, yd) := by
  simp only [absYearDay, secondsPerDay, daysPer400Years, daysPer100Years, daysPer4Years]
  rw [Nat.mul_div_cancel _ (by norm_num : 0 < 86400)]
  generalize hD : 146097 * a + 36524 * b + 1461 * c + 365 * e + yd = D
  have hR4 : 365 * e + yd < 1461 := by omega
  have hR100 : 1461 * c + 365 * e + yd < 36524 ∨ (c = 24 ∧ e = 3 ∧ yd = 365 ∧ b = 3) := by omega
  have hR400 : 36524 * b + 1461 * c + 365 * e + yd < 146097 := by omega
  have h1 : D / 146097 = a := by omega
  rw [h1]
  have e1 : D - 146097 * a = 36524 * b + 1461 * c + 365 * e + yd := by omega
  rw [e1]
  have h2 : (36524 * b + 1461 * c + 365 * e + yd) / 36524
      - (36524 * b + 1461 * c + 365 * e + yd) / 36524 / 4 = b := by
    rcases hR100 with h | ⟨h1, h2, h3, h4⟩
    · have : (36524 * b + 1461 * c + 365 * e + yd) / 36524 = b := by omega
      rw [this]; omega
    · subst h1 h2 h3 h4; norm_num
  rw [h2]
  have e2 : 36524 * b + 1461 * c + 365 * e + yd - 36524 * b = 1461 * c + 365 * e + yd := by omega
  rw [e2]
  have h3 : (1461 * c + 365 * e + yd) / 1461 = c := by omega
  rw [h3]
  have e3 : 1461 * c + 365 * e + yd - 1461 * c = 365 * e + yd := by omega
  rw [e3]
  have h4 : (365 * e + yd) / 365 - (365 * e + yd) / 365 / 4 = e := by
    by_cases hy : yd = 365
    · obtain ⟨h5, _⟩ := hyd' hy
      subst h5 hy; norm_num
    · have : (365 * e + yd) / 365 = e := by omega
      rw [this]; omega
  rw [h4]
  have e4 : 365 * e + yd - 365 * e = yd := by omega
  rw [e4]

theorem daysBefore_table :
    daysBefore.getD 0 0 = 0 ∧ daysBefore.getD 1 0 = 31 ∧ daysBefore.getD 2 0 = 59 ∧
    daysBefore.getD 3 0 = 90 ∧ daysBefore.getD 4 0 = 120 ∧ daysBefore.getD 5 0 = 151 ∧
    daysBefore.getD 6 0 = 181 ∧ daysBefore.getD 7 0 = 212 ∧ daysBefore.getD 8 0 = 243 ∧
    daysBefore.getD 9 0 = 273 ∧ daysBefore.getD 10 0 = 304 ∧ daysBefore.getD 11 0 = 334 ∧
    daysBefore.getD 12 0 = 365 := by
  refine ⟨rfl, rfl, rfl, rfl, rfl, rfl, rfl, rfl, rfl, rfl, rfl, rfl, rfl⟩

theorem monthDay_tail (day m : Nat) (hm1 : 1 ≤ m) (hm2 : m ≤ 12)
    (h1 : daysBefore.getD (m - 1) 0 ≤ day) (h2 : day < daysBefore.getD m 0) :
    (if day ≥ daysBefore.getD (day / 31 + 1) 0 then
        (day / 31 + 2, day - daysBefore.getD (day / 31 + 1) 0 + 1)
      else (day / 31 + 1, day - daysBefore.getD (day / 31) 0 + 1))
      = (m, day - daysBefore.getD (m - 1) 0 + 1) := by
  obtain ⟨t0, t1, t2, t3, t4, t5, t6, t7, t8, t9, t10, t11, t12⟩ := daysBefore_table
  obtain ⟨k, hk⟩ : ∃ k, day / 31 = k := ⟨_, rfl⟩
  rw [hk]
  interval_cases m <;>
    simp only [Nat.reduceSub, t0, t1, t2, t3, t4, t5, t6, t7, t8, t9, t10, t11, t12] at h1 h2 ⊢ <;>
    (have hk11 : k ≤ 11 := by omega) <;>
    interval_cases k <;>
    simp only [Nat.reduceAdd, t0, t1, t2, t3, t4, t5, t6, t7, t8, t9, t10, t11, t12] <;>
    first
      | omega
      | (split_ifs <;> first | omega | simp only [Prod.mk.injEq])

theorem isLeap_iff (y : Int) : isLeap y = true ↔ (y % 4 = 0 ∧ (y % 100 ≠ 0 ∨ y % 400 = 0)) := by
  simp [isLeap]

theorem daysBefore_step (m : Nat) (hm1 : 1 ≤ m) (hm2 : m ≤ 12) :
    daysBefore.getD (m - 1) 0 < daysBefore.getD m 0 := by
  interval_cases m <;> decide

theorem monthDay_aux (y : Int) (m d : Nat) (hm1 : 1 ≤ m) (hm2 : m ≤ 12)
    (hd1 : 1 ≤ d) (hd2 : d ≤ daysIn m y) :
    monthDay y (daysBefore.getD (m - 1) 0 + (if isLeap y = true ∧ 3 ≤ m then 1 else 0) + (d - 1))
      = (m, d) := by
  obtain ⟨t0, t1, t2, t3, t4, t5, t6, t7, t8, t9, t10, t11, t12⟩ := daysBefore_table
  have hstep := daysBefore_step m hm1 hm2
  have hd2' : d ≤ if m = 2 ∧ isLeap y = true then 29
      else daysBefore.getD m 0 - daysBefore.getD (m - 1) 0 := by
    simpa [daysIn] using hd2
  clear hd2
  unfold monthDay
  cases hl : isLeap y
  · rw [hl] at hd2'
    simp only [Bool.false_and, Bool.false_eq_true, if_false, false_and, and_false] at hd2' ⊢
    have key := monthDay_tail (daysBefore.getD (m - 1) 0 + 0 + (d - 1)) m hm1 hm2 (by omega) (by omega)
    simp only [ge_iff_le] at key ⊢
    rw [key]
    simp only [Prod.mk.injEq, true_and]
    omega
  · rw [hl] at hd2'
    simp only [Bool.true_and, true_and, and_true, beq_iff_eq, decide_eq_true_eq] at hd2' ⊢
    by_cases hm3 : 3 ≤ m
    · have hm2' : ¬ m = 2 := by omega
      rw [if_neg hm2'] at hd2'
      have hge : daysBefore.getD (m - 1) 0 ≥ 59 := by
        interval_cases m <;> simp only [Nat.reduceSub, t2, t3, t4, t5, t6, t7, t8, t9, t10, t11] <;> omega
      rw [if_pos hm3]
      have e1 : ¬ (daysBefore.getD (m - 1) 0 + 1 + (d - 1) = 31 + 29 - 1) := by omega
      have e2 : daysBefore.getD (m - 1) 0 + 1 + (d - 1) > 31 + 29 - 1 := by omega
      simp only [if_neg e1, if_pos e2]
      have key := monthDay_tail (daysBefore.getD (m - 1) 0 + 1 + (d - 1) - 1) m hm1 hm2 (by omega) (by omega)
      simp only [ge_iff_le] at key ⊢
      rw [key]
      simp only [Prod.mk.injEq, true_and]
      omega
    · rw [if_neg hm3]
      have hm : m = 1 ∨ m = 2 := by omega
      rcases hm with rfl | rfl
      · simp only [Nat.reduceSub, t0, t1, Nat.reduceEqDiff, if_false, OfNat.one_ne_ofNat] at hd2' ⊢
        have e1 : ¬ (0 + 0 + (d - 1) = 31 + 29 - 1) := by omega
        have e2 : ¬ (0 + 0 + (d - 1) > 31 + 29 - 1) := by omega
        simp only [if_neg e1, if_neg e2]
        have key := monthDay_tail (0 + 0 + (d - 1)) 1 (by omega) (by omega) (by simp only [Nat.reduceSub, t0]; omega) (by rw [t1]; omega)
        simp only [ge_iff_le, Nat.reduceSub, t0] at key ⊢
        rw [key]
        simp only [Prod.mk.injEq, true_and]
        omega
      · simp only [Nat.reduceSub, t1, t2, if_true] at hd2' ⊢
        by_cases h29 : d = 29
        · subst h29; rfl
        · have e1 : ¬ (31 + 0 + (d - 1) = 31 + 29 - 1) := by omega
          have e2 : ¬ (31 + 0 + (d - 1) > 31 + 29 - 1) := by omega
          simp only [if_neg e1, if_neg e2]
          have key := monthDay_tail (31 + 0 + (d - 1)) 2 (by omega) (by omega) (by simp only [Nat.reduceSub, t1]; omega) (by rw [t2]; omega)
          simp only [ge_iff_le, Nat.reduceSub, t1] at key ⊢
          rw [key]
          simp only [Prod.mk.injEq, true_and]
          omega

theorem daysBefore_le (m : Nat) (hm2 : m ≤ 12) : daysBefore.getD m 0 ≤ 365 := by
  interval_cases m <;> decide

theorem Date_abs (y : Int) (m d : Nat) (hd1 : 1 ≤ d) :
    (GoTime.Date y m d).abs =
      (daysSinceEpoch y + (daysBefore.getD (m - 1) 0 +
        (if isLeap y = true ∧ 3 ≤ m then 1 else 0) + (d - 1))) * 86400 := by
  simp only [GoTime.Date, Time.abs, secondsPerDay, absoluteToInternal, Bool.and_eq_true,
    decide_eq_true_eq, ge_iff_le]
  split_ifs <;> omega

theorem absDate_Date (y : Int) (m d : Nat) (hy : absoluteZeroYear ≤ y) (hm1 : 1 ≤ m)
    (hm2 : m ≤ 12) (hd1 : 1 ≤ d) (hd2 : d ≤ daysIn m y) :
    absDate (GoTime.Date y m d).abs = (y, m, d) := by
  obtain ⟨a, b, c, e, hb, hc, he, hY, hD⟩ := daysSinceEpoch_eq y
  have hmd := monthDay_aux y m d hm1 hm2 hd1 hd2
  have hstep := daysBefore_step m hm1 hm2
  have hle := daysBefore_le m hm2
  have hd2' : d ≤ if m = 2 ∧ isLeap y = true then 29
      else daysBefore.getD m 0 - daysBefore.getD (m - 1) 0 := by
    simpa [daysIn] using hd2
  have hleap := isLeap_iff y
  unfold absoluteZeroYear at hy
  rw [Date_abs y m d hd1, hD]
  generalize hyd : daysBefore.getD (m - 1) 0 + (if isLeap y = true ∧ 3 ≤ m then 1 else 0) + (d - 1) = yd at hmd ⊢
  have h2 : m = 2 → daysBefore.getD m 0 = 59 ∧ daysBefore.getD (m - 1) 0 = 31 := by
    rintro rfl; exact ⟨rfl, rfl⟩
  have h3 : m < 3 → daysBefore.getD m 0 ≤ 59 := by
    intro h; interval_cases m <;> decide
  have hlt : yd < 366 ∧ (yd = 365 → isLeap y = true) := by
    clear hmd hleap hY hD
    cases hl : isLeap y
    · simp only [hl, Bool.false_eq_true, and_false, false_and, if_false] at hd2' hyd
      refine ⟨by omega, fun h => ?_⟩
      omega
    · simp only [hl, and_true, true_and] at hd2' hyd
      refine ⟨?_, fun _ => rfl⟩
      by_cases hm3 : 3 ≤ m
      · rw [if_pos hm3] at hyd
        rw [if_neg (by omega)] at hd2'
        omega
      · rw [if_neg hm3] at hyd
        have := h3 (by omega)
        by_cases hm' : m = 2
        · rw [if_pos hm'] at hd2'
          have := h2 hm'
          omega
        · rw [if_neg hm'] at hd2'
          omega
  have hyear : ((400 * a + 100 * b + 4 * c + e : Nat) : Int) + absoluteZeroYear = y := by
    unfold absoluteZeroYear; omega
  have hcond : yd = 365 → e = 3 ∧ (c ≠ 24 ∨ b = 3) := by
    intro h
    have hl := hleap.1 (hlt.2 h)
    omega
  have key := absYearDay_days a b c e yd hb hc he hlt.1 hcond
  unfold absDate
  rw [key, hyear]
  simp only [hmd]

theorem char_ne_of_toNat {c d : Char} (h : c.toNat ≠ d.toNat) : c ≠ d :=
  fun e => h (e ▸ rfl)

theorem isDigitChar_iff (c : Char) : isDigitChar c = true ↔ 48 ≤ c.toNat ∧ c.toNat ≤ 57 := by
  simp [isDigitChar]

theorem skip_nil (v : GoString) : skip v [] = .ok v := rfl

theorem skip_dash (v : GoString) :
    skip v ['-'] = match v with
      | c :: r => if c = '-' then .ok r else .error v
      | [] => .error v := by
  cases v with
  | nil => rfl
  | cons c r =>
    simp only [skip, skipLoop, List.length_cons, List.length_nil]
    by_cases h : c = '-'
    · subst h; simp
    · simp [h]

theorem getnum_fixed (v : GoString) :
    getnum v true = match v with
      | a :: b :: r =>
        if isDigitChar a = true ∧ isDigitChar b = true then
          some (digitValue a * 10 + digitValue b, r)
        else none
      | _ => none := by
  match v with
  | [] => rfl
  | [a] => simp [getnum, isDigit]
  | a :: b :: r =>
    simp only [getnum, isDigit, isDigitChar, digitValue]
    by_cases ha : (48 ≤ a.toNat ∧ a.toNat ≤ 57) <;> by_cases hb : (48 ≤ b.toNat ∧ b.toNat ≤ 57) <;>
      simp [ha, hb]

theorem leadingInt_digit (x : Nat) (c : Char) (rest : GoString) (hc : isDigitChar c = true)
    (hx : x ≤ 100000) :
    leadingInt x (c :: rest) = leadingInt (x * 10 + digitValue c) rest := by
  rw [isDigitChar_iff] at hc
  have h1 : ¬ (c.toNat < 48 ∨ c.toNat > 57) := by omega
  have h2 : ¬ (x > 2 ^ 63 / 10) := by norm_num; omega
  have h3 : ¬ (x * 10 + c.toNat - 48 > 2 ^ 63) := by norm_num; omega
  have h4 : x * 10 + c.toNat - 48 = x * 10 + digitValue c := by unfold digitValue; omega
  rw [leadingInt]
  rw [h4] at h3
  simp only [if_neg h1, if_neg h2, h4, if_neg h3]

theorem leadingInt_nondigit (x : Nat) (c : Char) (rest : GoString) (hc : isDigitChar c = false) :
    leadingInt x (c :: rest) = some (x, c :: rest) := by
  have h1 : c.toNat < 48 ∨ c.toNat > 57 := by
    simp [isDigitChar] at hc; omega
  rw [leadingInt]
  simp only [if_pos h1]

theorem atoi_four (y1 y2 y3 y4 : Char) (h1 : isDigitChar y1 = true) :
    atoi [y1, y2, y3, y4] =
      if isDigitChar y2 = true ∧ isDigitChar y3 = true ∧ isDigitChar y4 = true then
        some ((digitValue y1 * 1000 + digitValue y2 * 100 + digitValue y3 * 10 + digitValue y4 : Nat) : Int)
      else none := by
  have hd := (isDigitChar_iff y1).1 h1
  have hm : ¬ (y1 = '-' ∨ y1 = '+') := by
    rintro (h | h) <;> subst h <;> simp at hd
  have hv1 : digitValue y1 ≤ 9 := by unfold digitValue; omega
  unfold atoi
  simp only [if_neg hm]
  rw [leadingInt_digit 0 y1 _ h1 (by omega)]
  cases h2 : isDigitChar y2
  · rw [leadingInt_nondigit _ _ _ h2]; simp
  · have hv2 : digitValue y2 ≤ 9 := by
      have := (isDigitChar_iff y2).1 h2; unfold digitValue; omega
    rw [leadingInt_digit _ y2 _ h2 (by omega)]
    cases h3 : isDigitChar y3
    · rw [leadingInt_nondigit _ _ _ h3]; simp
    · have hv3 : digitValue y3 ≤ 9 := by
        have := (isDigitChar_iff y3).1 h3; unfold digitValue; omega
      rw [leadingInt_digit _ y3 _ h3 (by omega)]
      cases h4 : isDigitChar y4
      · rw [leadingInt_nondigit _ _ _ h4]; simp
      · rw [leadingInt_digit _ y4 _ h4 (by omega)]
        simp only [leadingInt, and_self, if_true, Bool.false_eq_true, if_false]
        congr 1
        push_cast
        ring

theorem Parse_ok_inv (s : GoString) (t : Time) (h : Parse s = .ok t) :
    ∃ y1 y2 y3 y4 m1 m2 d1 d2 : Char,
      s = [y1, y2, y3, y4, '-', m1, m2, '-', d1, d2] ∧
      isDigitChar y1 = true ∧ isDigitChar y2 = true ∧ isDigitChar y3 = true ∧
      isDigitChar y4 = true ∧ isDigitChar m1 = true ∧ isDigitChar m2 = true ∧
      isDigitChar d1 = true ∧ isDigitChar d2 = true ∧
      1 ≤ digitValue m1 * 10 + digitValue m2 ∧ digitValue m1 * 10 + digitValue m2 ≤ 12 ∧
      1 ≤ digitValue d1 * 10 + digitValue d2 ∧
      digitValue d1 * 10 + digitValue d2 ≤ daysIn (digitValue m1 * 10 + digitValue m2)
        ((digitValue y1 * 1000 + digitValue y2 * 100 + digitValue y3 * 10 + digitValue y4 : Nat) : Int) ∧
      t = GoTime.Date
        ((digitValue y1 * 1000 + digitValue y2 * 100 + digitValue y3 * 10 + digitValue y4 : Nat) : Int)
        (digitValue m1 * 10 + digitValue m2) (digitValue d1 * 10 + digitValue d2) := by
  unfold Parse at h
  simp only [skip_nil] at h
  split at h
  · exact absurd h (by simp)
  rename_i hlen
  match s, hlen, h with
  | [], hlen, h => simp at hlen
  | [_], hlen, h => simp at hlen
  | [_, _], hlen, h => simp at hlen
  | [_, _, _], hlen, h => simp at hlen
  | y1 :: y2 :: y3 :: y4 :: r, hlen, h =>
    have hy1 : isDigitChar y1 = true := by
      simpa [isDigit, isDigitChar] using hlen
    simp only [List.take, atoi_four _ _ _ _ hy1] at h
    by_cases hy : isDigitChar y2 = true ∧ isDigitChar y3 = true ∧ isDigitChar y4 = true
    swap
    · simp only [if_neg hy] at h; simp at h
    simp only [if_pos hy, List.drop, skip_dash] at h
    match r, h with
    | [], h => simp at h
    | h1 :: r1, h =>
      by_cases hh1 : h1 = '-'
      swap
      · simp only [if_neg hh1] at h; simp at h
      simp only [if_pos hh1, getnum_fixed] at h
      match r1, h with
      | [], h => simp at h
      | [_], h => simp at h
      | m1 :: m2 :: r2, h =>
        by_cases hm : isDigitChar m1 = true ∧ isDigitChar m2 = true
        swap
        · simp only [if_neg hm] at h; simp at h
        simp only [if_pos hm] at h
        by_cases hmr : digitValue m1 * 10 + digitValue m2 ≤ 0 ∨ 12 < digitValue m1 * 10 + digitValue m2
        · simp only [if_pos hmr] at h; simp at h
        simp only [if_neg hmr, skip_dash] at h
        match r2, h with
        | [], h => simp at h
        | h2 :: r3, h =>
          by_cases hh2 : h2 = '-'
          swap
          · simp only [if_neg hh2] at h; simp at h
          simp only [if_pos hh2, getnum_fixed] at h
          match r3, h with
          | [], h => simp at h
          | [_], h => simp at h
          | d1 :: d2 :: r4, h =>
            by_cases hd : isDigitChar d1 = true ∧ isDigitChar d2 = true
            swap
            · simp only [if_neg hd] at h; simp at h
            simp only [if_pos hd] at h
            by_cases hr4 : r4.length ≠ 0
            · simp only [if_pos hr4] at h; simp at h
            simp only [if_neg hr4] at h
            by_cases hdr : digitValue d1 * 10 + digitValue d2 < 1 ∨
                digitValue d1 * 10 + digitValue d2 > daysIn (digitValue m1 * 10 + digitValue m2)
                  ((digitValue y1 * 1000 + digitValue y2 * 100 + digitValue y3 * 10 + digitValue y4 : Nat) : Int)
            · simp only [if_pos hdr] at h; simp at h
            simp only [if_neg hdr, Except.ok.injEq] at h
            have hr4' : r4 = [] := by
              cases r4 with
              | nil => rfl
              | cons a b => simp at hr4
            rw [hr4', hh1, hh2]
            exact ⟨y1, y2, y3, y4, m1, m2, d1, d2, rfl, hy1, hy.1, hy.2.1, hy.2.2, hm.1, hm.2,
              hd.1, hd.2, by omega, by omega, by omega, by omega, h.symm⟩

theorem Parse_error_value (s : GoString) (e : ParseError) (h : Parse s = .error e) :
    e.Value = s := by
  unfold Parse at h
  simp only [skip_nil] at h
  repeat' split at h
  all_goals first
    | (cases h; rfl)
    | simp at h

theorem Parse_of_digits (y1 y2 y3 y4 m1 m2 d1 d2 : Char)
    (hy1 : isDigitChar y1 = true) (hy2 : isDigitChar y2 = true) (hy3 : isDigitChar y3 = true)
    (hy4 : isDigitChar y4 = true) (hm1 : isDigitChar m1 = true) (hm2 : isDigitChar m2 = true)
    (hd1 : isDigitChar d1 = true) (hd2 : isDigitChar d2 = true)
    (hmlo : 1 ≤ digitValue m1 * 10 + digitValue m2) (hmhi : digitValue m1 * 10 + digitValue m2 ≤ 12)
    (hdlo : 1 ≤ digitValue d1 * 10 + digitValue d2)
    (hdhi : digitValue d1 * 10 + digitValue d2 ≤ daysIn (digitValue m1 * 10 + digitValue m2)
        ((digitValue y1 * 1000 + digitValue y2 * 100 + digitValue y3 * 10 + digitValue y4 : Nat) : Int)) :
    Parse [y1, y2, y3, y4, '-', m1, m2, '-', d1, d2] =
      .ok (GoTime.Date
        ((digitValue y1 * 1000 + digitValue y2 * 100 + digitValue y3 * 10 + digitValue y4 : Nat) : Int)
        (digitValue m1 * 10 + digitValue m2) (digitValue d1 * 10 + digitValue d2)) := by
  have h0 : isDigit [y1, y2, y3, y4, '-', m1, m2, '-', d1, d2] 0 = true := by
    simpa [isDigit, isDigitChar] using hy1
  have hmr : ¬ (digitValue m1 * 10 + digitValue m2 ≤ 0 ∨ 12 < digitValue m1 * 10 + digitValue m2) := by
    omega
  have hdr : ¬ (digitValue d1 * 10 + digitValue d2 < 1 ∨
      digitValue d1 * 10 + digitValue d2 > daysIn (digitValue m1 * 10 + digitValue m2)
        ((digitValue y1 * 1000 + digitValue y2 * 100 + digitValue y3 * 10 + digitValue y4 : Nat) : Int)) := by
    omega
  unfold Parse
  simp only [skip_nil, List.length_cons, List.length_nil, h0, List.take, List.drop,
    atoi_four _ _ _ _ hy1, hy2, hy3, hy4, and_self, if_true, skip_dash, getnum_fixed, hm1, hm2,
    hd1, hd2, if_neg hmr, if_neg hdr]
  simp

theorem daysIn_eq_daysInMonth (year m : Nat) (hm1 : 1 ≤ m) (hm2 : m ≤ 12) :
    daysIn m (year : Int) = daysInMonth year m := by
  have hl : (isLeap (year : Int) = true) ↔ (year % 4 = 0 ∧ (year % 100 ≠ 0 ∨ year % 400 = 0)) := by
    rw [isLeap_iff]; omega
  unfold daysIn daysInMonth
  by_cases h : year % 4 = 0 ∧ (year % 100 ≠ 0 ∨ year % 400 = 0)
  · have := hl.2 h
    interval_cases m <;> simp [this, h, daysBefore]
  · have : isLeap (year : Int) = false := by
      cases hh : isLeap (year : Int)
      · rfl
      · exact absurd (hl.1 hh) h
    interval_cases m <;> simp [this, h, daysBefore]

theorem validDate_iff (s : GoString) :
    validDate s = true ↔
    ∃ y1 y2 y3 y4 m1 m2 d1 d2 : Char,
      s = [y1, y2, y3, y4, '-', m1, m2, '-', d1, d2] ∧
      isDigitChar y1 = true ∧ isDigitChar y2 = true ∧ isDigitChar y3 = true ∧
      isDigitChar y4 = true ∧ isDigitChar m1 = true ∧ isDigitChar m2 = true ∧
      isDigitChar d1 = true ∧ isDigitChar d2 = true ∧
      1 ≤ digitValue m1 * 10 + digitValue m2 ∧ digitValue m1 * 10 + digitValue m2 ≤ 12 ∧
      1 ≤ digitValue d1 * 10 + digitValue d2 ∧
      digitValue d1 * 10 + digitValue d2 ≤ daysInMonth
        (digitValue y1 * 1000 + digitValue y2 * 100 + digitValue y3 * 10 + digitValue y4)
        (digitValue m1 * 10 + digitValue m2) := by
  constructor
  · intro h
    match s, h with
    | [y1, y2, y3, y4, h1, m1, m2, h2, d1, d2], h =>
      simp only [validDate, Bool.and_eq_true, beq_iff_eq, decide_eq_true_eq] at h
      obtain ⟨⟨⟨⟨⟨⟨⟨⟨⟨⟨⟨⟨⟨a1, a2⟩, a3⟩, a4⟩, a5⟩, a6⟩, a7⟩, a8⟩, a9⟩, a10⟩, a11⟩, a12⟩, a13⟩, a14⟩ := h
      subst a5 a8
      exact ⟨y1, y2, y3, y4, m1, m2, d1, d2, rfl, a1, a2, a3, a4, a6, a7, a9, a10, a11, a12, a13, a14⟩
  · rintro ⟨y1, y2, y3, y4, m1, m2, d1, d2, rfl, a1, a2, a3, a4, a6, a7, a9, a10, a11, a12, a13, a14⟩
    simp [validDate, a1, a2, a3, a4, a6, a7, a9, a10, a11, a12, a13, a14]

theorem digitChar_digitValue (c : Char) (h : isDigitChar c = true) (n : Nat)
    (hn : n % 10 = digitValue c) : digitChar n = c := by
  have hc := (isDigitChar_iff c).1 h
  unfold digitChar
  rw [hn]
  have : 48 + digitValue c = c.toNat := by unfold digitValue; omega
  rw [this]
  exact Char.ofNat_toNat c

theorem digitValue_le (c : Char) (h : isDigitChar c = true) : digitValue c ≤ 9 := by
  have hc := (isDigitChar_iff c).1 h
  unfold digitValue; omega

theorem Format_Date (y1 y2 y3 y4 m1 m2 d1 d2 : Char)
    (hy1 : isDigitChar y1 = true) (hy2 : isDigitChar y2 = true) (hy3 : isDigitChar y3 = true)
    (hy4 : isDigitChar y4 = true) (hm1 : isDigitChar m1 = true) (hm2 : isDigitChar m2 = true)
    (hd1 : isDigitChar d1 = true) (hd2 : isDigitChar d2 = true)
    (hmlo : 1 ≤ digitValue m1 * 10 + digitValue m2) (hmhi : digitValue m1 * 10 + digitValue m2 ≤ 12)
    (hdlo : 1 ≤ digitValue d1 * 10 + digitValue d2)
    (hdhi : digitValue d1 * 10 + digitValue d2 ≤ daysIn (digitValue m1 * 10 + digitValue m2)
        ((digitValue y1 * 1000 + digitValue y2 * 100 + digitValue y3 * 10 + digitValue y4 : Nat) : Int)) :
    (GoTime.Date
        ((digitValue y1 * 1000 + digitValue y2 * 100 + digitValue y3 * 10 + digitValue y4 : Nat) : Int)
        (digitValue m1 * 10 + digitValue m2) (digitValue d1 * 10 + digitValue d2)).Format
      = [y1, y2, y3, y4, '-', m1, m2, '-', d1, d2] := by
  have v1 := digitValue_le y1 hy1
  have v2 := digitValue_le y2 hy2
  have v3 := digitValue_le y3 hy3
  have v4 := digitValue_le y4 hy4
  have v5 := digitValue_le m1 hm1
  have v6 := digitValue_le m2 hm2
  have v7 := digitValue_le d1 hd1
  have v8 := digitValue_le d2 hd2
  unfold Time.Format
  rw [absDate_Date _ _ _ (by unfold absoluteZeroYear; omega) hmlo hmhi hdlo hdhi]
  simp only [appendInt, Int.natAbs_ofNat]
  have e1 : ¬ ((((digitValue y1 * 1000 + digitValue y2 * 100 + digitValue y3 * 10 + digitValue y4 : Nat) : Int)) < 0) := by
    omega
  have e2 : ¬ (((digitValue m1 * 10 + digitValue m2 : Nat) : Int) < 0) := by omega
  have e3 : ¬ (((digitValue d1 * 10 + digitValue d2 : Nat) : Int) < 0) := by omega
  have e4 : digitValue y1 * 1000 + digitValue y2 * 100 + digitValue y3 * 10 + digitValue y4 < 10000 := by
    omega
  have e5 : digitValue m1 * 10 + digitValue m2 < 100 := by omega
  have e6 : digitValue d1 * 10 + digitValue d2 < 100 := by omega
  simp only [if_neg e1, if_neg e2, if_neg e3, e4, e5, e6, and_true, true_and, if_true,
    Nat.reduceEqDiff, false_and, if_false, List.nil_append, List.cons_append,
    List.append_nil]
  rw [digitChar_digitValue y1 hy1 _ (by omega), digitChar_digitValue y2 hy2 _ (by omega),
    digitChar_digitValue y3 hy3 _ (by omega), digitChar_digitValue y4 hy4 _ (by omega),
    digitChar_digitValue m1 hm1 _ (by omega), digitChar_digitValue m2 hm2 _ (by omega),
    digitChar_digitValue d1 hd1 _ (by omega), digitChar_digitValue d2 hd2 _ (by omega)]

end GoTime

/-! ## Lemmas on the JSON forms of a date -/

section DateLemmas

open GoTime GoJSON

theorem Time_eq_zero_of_IsZero (t : Time) (h : t.IsZero = true) : t = Time.zero := by
  cases t with
  | mk sec nsec =>
    simp only [Time.IsZero, Bool.and_eq_true, beq_iff_eq] at h
    obtain ⟨h1, h2⟩ := h
    subst h1 h2
    rfl

theorem Format_zero : Time.zero.Format = ['0', '0', '0', '1', '-', '0', '1', '-', '0', '1'] := by
  decide


theorem unquoteOne_plain (c : Char) (rest : GoString) (h1 : c ≠ bs) (h2 : 32 ≤ c.toNat) :
    unquoteOne c rest = some (c, rest) := by
  unfold unquoteOne
  rw [if_neg h1, if_neg (by omega)]

theorem unquoteBody_plain (s tail : GoString) (fuel : Nat) (hf : s.length < fuel)
    (hs : ∀ c ∈ s, c ≠ dq ∧ c ≠ bs ∧ 32 ≤ c.toNat) :
    unquoteBody fuel (s ++ dq :: tail) = some (s, tail) := by
  induction s generalizing fuel with
  | nil =>
    cases fuel with
    | zero => simp at hf
    | succ n => simp [unquoteBody]
  | cons c r ih =>
    cases fuel with
    | zero => simp at hf
    | succ n =>
      have hc := hs c (by simp)
      have hr : ∀ x ∈ r, x ≠ dq ∧ x ≠ bs ∧ 32 ≤ x.toNat := fun x hx => hs x (by simp [hx])
      simp only [List.cons_append, unquoteBody, if_neg hc.1, unquoteOne_plain c _ hc.2.1 hc.2.2]
      have e := ih n (by simpa using hf) hr
      rw [show r.append (dq :: tail) = r ++ dq :: tail from rfl, e]
      rfl

theorem UnmarshalString_jsonLiteral (s : GoString)
    (hs : ∀ c ∈ s, c ≠ dq ∧ c ≠ bs ∧ 32 ≤ c.toNat) :
    UnmarshalString (jsonLiteral s) = .ok (some s) := by
  unfold UnmarshalString jsonLiteral
  have h1 : skipSpace ([dq] ++ s ++ [dq]) = dq :: (s ++ [dq]) := by
    simp [skipSpace, isSpace, dq]
  rw [h1]
  simp only [if_true]
  rw [unquoteBody_plain s [] _ (by simp; omega) hs]
  simp [skipSpace]

theorem escapeChar_safe (c : Char) (h1 : 32 ≤ c.toNat) (h2 : c.toNat < 128) (h3 : c ≠ dq)
    (h4 : c ≠ bs) (h5 : c ≠ '<') (h6 : c ≠ '>') (h7 : c ≠ '&') : escapeChar c = [c] := by
  unfold escapeChar
  simp only [h2, if_true, h3, h4, or_self, if_false, h5, h6, h7, or_false]
  rw [if_neg (by omega), if_neg (by omega), if_neg (by omega), if_neg (by omega),
    if_neg (by omega), if_neg (by omega)]


theorem digit_plain (c : Char) (h : isDigitChar c = true) :
    c ≠ dq ∧ c ≠ bs ∧ 32 ≤ c.toNat ∧ c.toNat < 128 ∧ c ≠ '<' ∧ c ≠ '>' ∧ c ≠ '&' := by
  have hc := (isDigitChar_iff c).1 h
  refine ⟨?_, ?_, by omega, by omega, ?_, ?_, ?_⟩ <;>
    (apply char_ne_of_toNat; simp [dq, bs]; omega)

theorem dash_plain :
    '-' ≠ dq ∧ '-' ≠ bs ∧ 32 ≤ '-'.toNat ∧ '-'.toNat < 128 ∧ '-' ≠ '<' ∧ '-' ≠ '>' ∧ '-' ≠ '&' := by
  decide

theorem validDate_plain (s : GoString) (h : validDate s = true) :
    ∀ c ∈ s, c ≠ dq ∧ c ≠ bs ∧ 32 ≤ c.toNat ∧ c.toNat < 128 ∧ c ≠ '<' ∧ c ≠ '>' ∧ c ≠ '&' := by
  obtain ⟨y1, y2, y3, y4, m1, m2, d1, d2, rfl, a1, a2, a3, a4, a6, a7, a9, a10, _⟩ :=
    (validDate_iff s).1 h
  intro c hc
  simp only [List.mem_cons, List.mem_singleton, List.not_mem_nil, or_false] at hc
  rcases hc with rfl | rfl | rfl | rfl | rfl | rfl | rfl | rfl | rfl | rfl
  · exact digit_plain _ a1
  · exact digit_plain _ a2
  · exact digit_plain _ a3
  · exact digit_plain _ a4
  · exact dash_plain
  · exact digit_plain _ a6
  · exact digit_plain _ a7
  · exact dash_plain
  · exact digit_plain _ a9
  · exact digit_plain _ a10

theorem flatMap_escapeChar (s : GoString)
    (hs : ∀ c ∈ s, c ≠ dq ∧ c ≠ bs ∧ 32 ≤ c.toNat ∧ c.toNat < 128 ∧ c ≠ '<' ∧ c ≠ '>' ∧ c ≠ '&') :
    s.flatMap GoJSON.escapeChar = s := by
  induction s with
  | nil => rfl
  | cons c r ih =>
    obtain ⟨h1, h2, h3, h4, h5, h6, h7⟩ := hs c (by simp)
    rw [List.flatMap_cons, escapeChar_safe c h3 h4 h1 h2 h5 h6 h7,
      ih (fun x hx => hs x (by simp [hx]))]
    rfl

theorem Parse_valid (s : GoString) (h : validDate s = true) :
    ∃ t, Parse s = .ok t ∧ t.Format = s := by
  obtain ⟨y1, y2, y3, y4, m1, m2, d1, d2, rfl, a1, a2, a3, a4, a6, a7, a9, a10, a11, a12, a13, a14⟩ :=
    (validDate_iff s).1 h
  rw [← daysIn_eq_daysInMonth _ _ a11 a12] at a14
  exact ⟨_, Parse_of_digits y1 y2 y3 y4 m1 m2 d1 d2 a1 a2 a3 a4 a6 a7 a9 a10 a11 a12 a13 a14,
    Format_Date y1 y2 y3 y4 m1 m2 d1 d2 a1 a2 a3 a4 a6 a7 a9 a10 a11 a12 a13 a14⟩

theorem Parse_ok_validDate (s : GoString) (t : Time) (h : Parse s = .ok t) :
    validDate s = true := by
  obtain ⟨y1, y2, y3, y4, m1, m2, d1, d2, rfl, a1, a2, a3, a4, a6, a7, a9, a10, a11, a12, a13, a14, _⟩ :=
    Parse_ok_inv s t h
  rw [daysIn_eq_daysInMonth _ _ a11 a12] at a14
  exact (validDate_iff _).2
    ⟨y1, y2, y3, y4, m1, m2, d1, d2, rfl, a1, a2, a3, a4, a6, a7, a9, a10, a11, a12, a13, a14⟩

theorem UnmarshalJSON_valid (d : Endoflife.Date) (s : GoString) (h : validDate s = true) :
    ∃ t, d.UnmarshalJSON (jsonLiteral s) = (⟨t⟩, none) ∧ t.Format = s := by
  obtain ⟨t, ht, hf⟩ := Parse_valid s h
  refine ⟨t, ?_, hf⟩
  have hne : s ≠ [] := by
    rintro rfl; simp [validDate] at h
  unfold Endoflife.Date.UnmarshalJSON
  rw [UnmarshalString_jsonLiteral s (fun c hc => ⟨(validDate_plain s h c hc).1,
    (validDate_plain s h c hc).2.1, (validDate_plain s h c hc).2.2.1⟩)]
  simp only [Option.some.injEq, hne, or_false, Option.getD_some, ht, if_false, reduceCtorEq]

theorem quoteChar_plain (c : Char) (h1 : 32 ≤ c.toNat) (h2 : c.toNat < 128) (h3 : c ≠ dq)
    (h4 : c ≠ bs) : quoteChar c = [c] := by
  unfold quoteChar
  rw [if_neg (by omega), if_neg (by simp [h3, h4])]

theorem quote_plain (s : GoString) (h : plainASCII s = true) : quote s = [dq] ++ s ++ [dq] := by
  unfold quote
  congr 2
  induction s with
  | nil => rfl
  | cons c r ih =>
    simp only [plainASCII, List.all_cons, Bool.and_eq_true, decide_eq_true_eq, bne_iff_ne, ne_eq] at h
    obtain ⟨⟨⟨⟨h1, h2⟩, h3⟩, h4⟩, hr⟩ := h
    rw [List.flatMap_cons, quoteChar_plain c h1 h2 h3 h4, ih (by simpa [plainASCII] using hr)]
    rfl

theorem Contains_quote_Error (e : ParseError) : Contains e.Error (quote e.Value) := by
  unfold Contains ParseError.Error
  split_ifs
  · exact ⟨"parsing time ".toList, " as ".toList ++ quote e.Layout ++ ": cannot parse ".toList
      ++ quote e.ValueElem ++ " as ".toList ++ quote e.LayoutElem, by simp [List.append_assoc]⟩
  · exact ⟨"parsing time ".toList, e.Message, by simp [List.append_assoc]⟩

theorem Contains_of_quote (msg s : GoString) (h : Contains msg (quote s))
    (hp : plainASCII s = true) : Contains msg s := by
  unfold Contains at *
  rw [quote_plain s hp] at h
  exact List.IsInfix.trans ⟨[dq], [dq], rfl⟩ h

end DateLemmas

/-! ## Lemmas on the request pipeline -/

section ClientLemmas

open GoHTTP GoStrconv GoTime

theorem doRequest_of_response {R : Type} (c : Client) (env : Env R) (ctx : Context)
    (method path : GoString) (result : R) (resp : Response)
    (h : c.Receives env ctx method path resp) :
    c.doRequest env ctx method path result =
      match c.handleHTTPError resp with
      | some err => (result, some err)
      | none =>
        match resp.Body with
        | .error err => (result, some (.wrap "failed to read response body".toList err))
        | .ok body =>
          match env.Unmarshal body result with
          | (r, some err) => (r, some (.wrap "failed to unmarshal response".toList (.std err)))
          | (r, none) => (r, none) := by
  obtain ⟨reqURL, req, hurl, hreq, hdo⟩ := h
  unfold Client.outgoing at hdo
  unfold Client.doRequest
  rw [hurl]
  simp only []
  rw [hreq]
  simp only []
  rw [hdo]

theorem doRequest_of_status_error {R : Type} (c : Client) (env : Env R) (ctx : Context)
    (method path : GoString) (result : R) (resp : Response) (err : GoError)
    (h : c.Receives env ctx method path resp) (herr : c.handleHTTPError resp = some err) :
    c.doRequest env ctx method path result = (result, some err) := by
  rw [doRequest_of_response c env ctx method path result resp h, herr]

theorem handleHTTPError_404 (c : Client) (resp : Response) (h : resp.StatusCode = 404) :
    c.handleHTTPError resp = some (.api ⟨404, "resource not found".toList, 0⟩) := by
  simp [Client.handleHTTPError, h]

theorem testClient_Receives {R : Type} (resp : Response)
    (decode : GoString → R → R × Option StdError) (method path : GoString) :
    (setupTestServer resp).Receives (testEnv decode) background method path resp :=
  ⟨_, _, rfl, rfl, rfl⟩

theorem digitChar_toNat (u : Nat) : (digitChar u).toNat = 48 + u % 10 := by
  obtain ⟨k, hk⟩ : ∃ k, u % 10 = k := ⟨_, rfl⟩
  have hk10 : k < 10 := by omega
  unfold digitChar
  rw [hk]
  interval_cases k <;> rfl

theorem digitChar_ne_sign (u : Nat) : ¬ (digitChar u = '-' ∨ digitChar u = '+') := by
  have h := digitChar_toNat u
  rintro (e | e) <;> rw [e] at h <;> simp at h <;> omega

theorem decimalDigits_succ (fuel u : Nat) :
    decimalDigits (fuel + 1) u =
      if u < 10 then [digitChar u] else decimalDigits fuel (u / 10) ++ [digitChar u] := rfl

theorem decimalDigits_ne_nil (fuel u : Nat) (h : u < fuel) : decimalDigits fuel u ≠ [] := by
  cases fuel with
  | zero => omega
  | succ f =>
    rw [decimalDigits_succ]
    split_ifs <;> simp

theorem decimalDigits_head (fuel u : Nat) (h : u < fuel) :
    ∃ k rest, decimalDigits fuel u = digitChar k :: rest := by
  induction fuel generalizing u with
  | zero => omega
  | succ f ih =>
    rw [decimalDigits_succ]
    split_ifs with h10
    · exact ⟨u, [], rfl⟩
    · obtain ⟨k, rest, hk⟩ := ih (u / 10) (by omega)
      exact ⟨k, rest ++ [digitChar u], by rw [hk]; rfl⟩

theorem atoiFast_append (acc : Int) (xs ys : GoString) :
    atoiFast acc (xs ++ ys) = (atoiFast acc xs).bind (fun m => atoiFast m ys) := by
  induction xs generalizing acc with
  | nil => rfl
  | cons c r ih =>
    simp only [List.cons_append, atoiFast]
    split_ifs
    · exact ih _
    · rfl

theorem atoiFast_digit (acc : Int) (u : Nat) :
    atoiFast acc [digitChar u] = some (acc * 10 + ((u % 10 : Nat) : Int)) := by
  have h := digitChar_toNat u
  simp only [atoiFast, h]
  rw [if_pos (by omega)]
  congr 2
  omega

theorem atoiFast_decimalDigits (fuel u : Nat) (h : u < fuel) :
    atoiFast 0 (decimalDigits fuel u) = some (u : Int) := by
  induction fuel generalizing u with
  | zero => omega
  | succ f ih =>
    rw [decimalDigits_succ]
    split_ifs with h10
    · rw [atoiFast_digit]
      simp only [Option.some.injEq]
      omega
    · rw [atoiFast_append, ih (u / 10) (by omega)]
      simp only [atoiFast_digit, Option.some_bind, Option.some.injEq]
      omega

theorem parseUintLoop_append (acc : Nat) (xs ys : GoString) :
    parseUintLoop acc (xs ++ ys) =
      match parseUintLoop acc xs with
      | (m, none) => parseUintLoop m ys
      | (m, some e) => (m, some e) := by
  induction xs generalizing acc with
  | nil => rfl
  | cons c r ih =>
    simp only [List.cons_append, parseUintLoop]
    split_ifs
    · rfl
    · rfl
    · exact ih _
    · rfl

theorem parseUintLoop_digit (acc u : Nat) (h : acc * 10 + u % 10 < 2 ^ 64) :
    parseUintLoop acc [digitChar u] = (acc * 10 + u % 10, none) := by
  have hc := digitChar_toNat u
  simp only [parseUintLoop, hc, cutoff10, maxVal]
  norm_num at h ⊢
  rw [if_pos (by omega), if_neg (by omega)]
  have e1 : acc * 10 % 18446744073709551616 = acc * 10 := by omega
  have e2 : (acc * 10 + u % 10) % 18446744073709551616 = acc * 10 + u % 10 := by omega
  rw [e2, if_neg (by omega)]

theorem parseUintLoop_decimalDigits (fuel u : Nat) (h : u < fuel) (hu : u < 2 ^ 64) :
    parseUintLoop 0 (decimalDigits fuel u) = (u, none) := by
  induction fuel generalizing u with
  | zero => omega
  | succ f ih =>
    rw [decimalDigits_succ]
    split_ifs with h10
    · rw [parseUintLoop_digit 0 u (by norm_num at hu ⊢; omega)]
      congr 1; omega
    · rw [parseUintLoop_append, ih (u / 10) (by omega) (by norm_num at hu ⊢; omega)]
      simp only []
      rw [parseUintLoop_digit (u / 10) u (by norm_num at hu ⊢; omega)]
      congr 1; omega


theorem ParseUint_decimalDigits (u : Nat) (hu : u < 2 ^ 64) :
    ParseUint (decimalDigits (u + 1) u) = (u, none) := by
  unfold ParseUint
  rw [if_neg (decimalDigits_ne_nil _ _ (by omega)), parseUintLoop_decimalDigits _ _ (by omega) hu]

theorem Atoi_decimalRepr_nonneg (u : Nat) (hu : u < 2 ^ 63) :
    Atoi (decimalDigits (u + 1) u) = ((u : Int), none) := by
  obtain ⟨k, rest, hk⟩ := decimalDigits_head (u + 1) u (by omega)
  have hsign := digitChar_ne_sign k
  have hfast := atoiFast_decimalDigits (u + 1) u (by omega)
  have hslow := ParseUint_decimalDigits u (by norm_num at hu ⊢; omega)
  rw [hk] at hfast hslow ⊢
  unfold Atoi
  split_ifs with hlen
  · simp only [if_neg hsign, hsign, false_and, if_false, hfast]
    have : ¬ (digitChar k = '-') := fun e => hsign (Or.inl e)
    simp [this]
  · unfold ParseInt
    have h1 : ¬ (digitChar k = '-') := fun e => hsign (Or.inl e)
    have hsign2 : ¬ (digitChar k = '+' ∨ digitChar k = '-') := fun e => hsign e.symm
    simp only [if_neg hsign2]
    rw [hslow]
    simp only [h1, decide_False, Bool.not_false, Bool.false_eq_true, false_and, if_false, true_and]
    have h2 : ¬ (u ≥ 2 ^ 63) := by omega
    rw [if_neg h2]

theorem Atoi_decimalRepr_neg (u : Nat) (h0 : 0 < u) (hu : u ≤ 2 ^ 63) :
    Atoi ('-' :: decimalDigits (u + 1) u) = (-(u : Int), none) := by
  have hne := decimalDigits_ne_nil (u + 1) u (by omega)
  have hfast := atoiFast_decimalDigits (u + 1) u (by omega)
  have hslow := ParseUint_decimalDigits u (by norm_num at hu ⊢; omega)
  have hlen : ¬ ((decimalDigits (u + 1) u).length < 1) := by
    cases hd : decimalDigits (u + 1) u with
    | nil => exact absurd hd hne
    | cons a b => simp
  unfold Atoi
  split_ifs with hl
  · simp only [true_or, if_true, true_and, if_neg hlen, hfast]
  · unfold ParseInt
    simp only [or_true, if_true]
    rw [hslow]
    simp only [decide_True, Bool.not_true, Bool.false_eq_true, false_and, if_false, true_and]
    have h2 : ¬ (u > 2 ^ 63) := by omega
    rw [if_neg h2, if_pos trivial]

theorem Atoi_decimalRepr (n : Int) (h : fitsInt n) : Atoi (decimalRepr n) = (n, none) := by
  unfold fitsInt at h
  unfold decimalRepr
  by_cases hn : n < 0
  · rw [if_pos hn]
    have := Atoi_decimalRepr_neg n.natAbs (by omega) (by norm_num at h ⊢; omega)
    simp only [List.singleton_append] at this ⊢
    rw [this]
    congr 1
    omega
  · rw [if_neg hn]
    have := Atoi_decimalRepr_nonneg n.natAbs (by norm_num at h ⊢; omega)
    simp only [List.nil_append] at this ⊢
    rw [this]
    congr 1
    omega

theorem decimalRepr_ne_nil (n : Int) : decimalRepr n ≠ [] := by
  unfold decimalRepr
  have := decimalDigits_ne_nil (n.natAbs + 1) n.natAbs (by omega)
  split_ifs <;> simp [this]

theorem handleHTTPError_429_api (c : Client) (resp : Response) (h : resp.StatusCode = 429) :
    ∃ n, c.handleHTTPError resp = some (.api ⟨429, "rate limit exceeded".toList, n⟩) := by
  refine ⟨if resp.Header.Get "Retry-After".toList ≠ [] then
    (Atoi (resp.Header.Get "Retry-After".toList)).1 else 0, ?_⟩
  simp only [Client.handleHTTPError, h]
  simp

theorem GoError_Is_iff_mem_chain (e : GoError) (s : Sentinel) :
    e.Is s = true ↔ GoError.sentinel s ∈ e.chain := by
  induction e with
  | sentinel t =>
    simp only [GoError.Is, GoError.chain, beq_iff_eq, List.mem_singleton, GoError.sentinel.injEq]
    exact eq_comm
  | api a => simp [GoError.Is, GoError.chain]
  | std a => simp [GoError.Is, GoError.chain]
  | errorf m => simp [GoError.Is, GoError.chain]
  | wrap m inner ih => simp [GoError.Is, GoError.chain, ih]

theorem GoError_As_iff_mem_chain (e : GoError) (a : APIError) :
    e.As = some a ↔ GoError.api a ∈ e.chain := by
  induction e with
  | sentinel t => simp [GoError.As, GoError.chain]
  | api b =>
    simp only [GoError.As, GoError.chain, Option.some.injEq, List.mem_singleton, GoError.api.injEq]
    exact eq_comm
  | std b => simp [GoError.As, GoError.chain]
  | errorf m => simp [GoError.As, GoError.chain]
  | wrap m inner ih => simp [GoError.As, GoError.chain, ih]

theorem GoError_Is_As (e : GoError) (s : Sentinel) (h : e.Is s = true) : e.As = none := by
  induction e with
  | sentinel t => rfl
  | api a => simp [GoError.Is] at h
  | std a => rfl
  | errorf m => rfl
  | wrap m inner ih => exact ih (by simpa [GoError.Is] using h)

theorem isStatus_iff (err : Option GoError) (s : Sentinel) (code : Int) :
    ((if errorsIs err s then true
      else match errorsAs err with
        | some apiErr => apiErr.StatusCode == code
        | none => false) = true) ↔
    (ContainsSentinel err s ∨ ContainsStatus err code) := by
  cases err with
  | none => simp [errorsIs, errorsAs, ContainsSentinel, ContainsStatus]
  | some e =>
    have hS : ContainsSentinel (some e) s ↔ GoError.sentinel s ∈ e.chain := by
      unfold ContainsSentinel
      constructor
      · rintro ⟨e1, h1, h2⟩
        cases h1
        exact h2
      · intro h
        exact ⟨e, rfl, h⟩
    have hC : ContainsStatus (some e) code ↔ ∃ a, GoError.api a ∈ e.chain ∧ a.StatusCode = code := by
      unfold ContainsStatus
      constructor
      · rintro ⟨e1, a, h1, h2, h3⟩
        cases h1
        exact ⟨a, h2, h3⟩
      · rintro ⟨a, h2, h3⟩
        exact ⟨e, a, rfl, h2, h3⟩
    rw [hS, hC]
    simp only [errorsIs, errorsAs]
    by_cases hIs : e.Is s = true
    · simp only [hIs, if_true, true_iff]
      exact Or.inl ((GoError_Is_iff_mem_chain e s).1 hIs)
    · simp only [hIs, Bool.false_eq_true, if_false]
      have hnot : ¬ GoError.sentinel s ∈ e.chain := fun h => hIs ((GoError_Is_iff_mem_chain e s).2 h)
      cases hAs : e.As with
      | none =>
        simp only [Bool.false_eq_true, false_iff, not_or]
        refine ⟨hnot, ?_⟩
        rintro ⟨a, ha, _⟩
        have := (GoError_As_iff_mem_chain e a).2 ha
        rw [hAs] at this
        exact absurd this (by simp)
      | some a =>
        simp only [beq_iff_eq]
        constructor
        · intro hc
          exact Or.inr ⟨a, (GoError_As_iff_mem_chain e a).1 hAs, hc⟩
        · rintro (h | ⟨b, hb, hc⟩)
          · exact absurd h hnot
          · have := (GoError_As_iff_mem_chain e b).2 hb
            rw [hAs] at this
            cases this
            exact hc

theorem fmtDigits_eq (f2 : Nat) : ∀ (f1 u : Nat) (acc : GoString), u < f1 → u ≤ f2 →
    GoFmt.fmtDigits f2 u acc = decimalDigits f1 u ++ acc := by
  induction f2 with
  | zero =>
    intro f1 u acc h1 h2
    have hu : u = 0 := by omega
    subst hu
    cases f1 with
    | zero => omega
    | succ k => rfl
  | succ f ih =>
    intro f1 u acc h1 h2
    cases f1 with
    | zero => omega
    | succ k =>
      rw [decimalDigits_succ]
      unfold GoFmt.fmtDigits
      by_cases h10 : u ≥ 10
      · rw [if_pos h10, if_neg (by omega), ih k (u / 10) _ (by omega) (by omega)]
        have : u - u / 10 * 10 = u % 10 := by omega
        rw [this]
        simp [digitChar]
      · rw [if_neg h10, if_pos (by omega)]
        have : u % 10 = u := by omega
        simp [digitChar, this]

theorem formatInt_eq_decimalRepr (n : Int) : GoFmt.formatInt n = decimalRepr n := by
  unfold GoFmt.formatInt decimalRepr
  rw [fmtDigits_eq n.natAbs (n.natAbs + 1) n.natAbs [] (by omega) (by omega)]
  split_ifs <;> simp

theorem foldl_options (calls : List OptionCall) : ∀ c0 : Client,
    ((calls.map OptionCall.toOption).foldl (fun c opt => opt c) c0).BaseURL
      = (lastBaseURL calls).getD c0.BaseURL ∧
    ((calls.map OptionCall.toOption).foldl (fun c opt => opt c) c0).HTTPClient
      = (lastHTTPClient calls).getD c0.HTTPClient ∧
    ((calls.map OptionCall.toOption).foldl (fun c opt => opt c) c0).UserAgent
      = (lastUserAgent calls).getD c0.UserAgent := by
  induction calls with
  | nil => intro c0; exact ⟨rfl, rfl, rfl⟩
  | cons o rest ih =>
    intro c0
    obtain ⟨h1, h2, h3⟩ := ih (o.toOption c0)
    simp only [List.map_cons, List.foldl_cons]
    rw [h1, h2, h3]
    unfold lastBaseURL lastHTTPClient lastUserAgent
    cases o with
    | baseURL s =>
      simp only [List.filterMap_cons, OptionCall.toOption, WithBaseURL]
      refine ⟨?_, trivial, trivial⟩
      cases hl : (List.filterMap (fun o => match o with | .baseURL s => some s | _ => none) rest).getLast? <;>
        simp [List.getLast?_cons, hl]
    | httpClient h =>
      simp only [List.filterMap_cons, OptionCall.toOption, WithHTTPClient]
      refine ⟨trivial, ?_, trivial⟩
      cases hl : (List.filterMap (fun o => match o with | .httpClient s => some s | _ => none) rest).getLast? <;>
        simp [List.getLast?_cons, hl]
    | userAgent s =>
      simp only [List.filterMap_cons, OptionCall.toOption, WithUserAgent]
      refine ⟨trivial, trivial, ?_⟩
      cases hl : (List.filterMap (fun o => match o with | .userAgent s => some s | _ => none) rest).getLast? <;>
        simp [List.getLast?_cons, hl]

theorem wrapResult_error {R : Type} (out : R × Option GoError) (err : GoError)
    (h : out.2 = some err) : wrapResult out = (none, some err) := by
  obtain ⟨r, e⟩ := out
  simp only at h
  subst h
  rfl

theorem handleHTTPError_success (c : Client) (resp : Response)
    (hs : resp.StatusCode = 200 ∨ resp.StatusCode = 301) : c.handleHTTPError resp = none := by
  unfold Client.handleHTTPError
  rcases hs with h | h <;> simp [h]

theorem handleHTTPError_none (c : Client) (resp : Response)
    (h : c.handleHTTPError resp = none) : resp.StatusCode = 200 ∨ resp.StatusCode = 301 := by
  unfold Client.handleHTTPError at h
  split_ifs at h <;> simp_all

theorem failingClient_TransportFails {R : Type} (e : GoError)
    (decode : GoString → R → R × Option StdError) (method path : GoString) :
    (failingClient e).TransportFails (testEnv decode) background method path e :=
  ⟨_, _, rfl, rfl, rfl⟩

theorem wrappers_unfold (c : Client) (ctx : Context) :
    (∀ env, c.GetIndex env ctx
      = wrapResult (c.doRequest env ctx MethodGet "/".toList URIListResponse.zero)) ∧
    (∀ env, c.GetProducts env ctx
      = wrapResult (c.doRequest env ctx MethodGet "/products".toList ProductListResponse.zero)) ∧
    (∀ env, c.GetProductsFull env ctx
      = wrapResult (c.doRequest env ctx MethodGet "/products/full".toList
          FullProductListResponse.zero)) ∧
    (∀ env name, name ≠ [] → c.GetProduct env ctx name
      = wrapResult (c.doRequest env ctx MethodGet ("/products/".toList ++ name)
          ProductResponse.zero)) ∧
    (∀ env name release, name ≠ [] → release ≠ [] → c.GetRelease env ctx name release
      = wrapResult (c.doRequest env ctx MethodGet
          ("/products/".toList ++ name ++ "/releases/".toList ++ release)
          ProductReleaseResponse.zero)) ∧
    (∀ env name, name ≠ [] → c.GetLatestRelease env ctx name
      = wrapResult (c.doRequest env ctx MethodGet
          ("/products/".toList ++ name ++ "/releases/latest".toList)
          ProductReleaseResponse.zero)) ∧
    (∀ env, c.GetCategories env ctx
      = wrapResult (c.doRequest env ctx MethodGet "/categories".toList URIListResponse.zero)) ∧
    (∀ env name, name ≠ [] → c.GetCategoryProducts env ctx name
      = wrapResult (c.doRequest env ctx MethodGet ("/categories/".toList ++ name)
          ProductListResponse.zero)) ∧
    (∀ env, c.GetTags env ctx
      = wrapResult (c.doRequest env ctx MethodGet "/tags".toList URIListResponse.zero)) ∧
    (∀ env name, name ≠ [] → c.GetTagProducts env ctx name
      = wrapResult (c.doRequest env ctx MethodGet ("/tags/".toList ++ name)
          ProductListResponse.zero)) ∧
    (∀ env, c.GetIdentifiers env ctx
      = wrapResult (c.doRequest env ctx MethodGet "/identifiers".toList URIListResponse.zero)) ∧
    (∀ env name, name ≠ [] → c.GetIdentifierDetails env ctx name
      = wrapResult (c.doRequest env ctx MethodGet ("/identifiers/".toList ++ name)
          IdentifierListResponse.zero)) := by
  refine ⟨fun _ => rfl, fun _ => rfl, fun _ => rfl, ?_, ?_, ?_, fun _ => rfl, ?_, fun _ => rfl, ?_,
    fun _ => rfl, ?_⟩
  · intro env name h; unfold Client.GetProduct; rw [if_neg h]
  · intro env name release h1 h2; unfold Client.GetRelease; rw [if_neg h1, if_neg h2]
  · intro env name h; unfold Client.GetLatestRelease; rw [if_neg h]
  · intro env name h; unfold Client.GetCategoryProducts; rw [if_neg h]
  · intro env name h; unfold Client.GetTagProducts; rw [if_neg h]
  · intro env name h; unfold Client.GetIdentifierDetails; rw [if_neg h]

end ClientLemmas

/-! ## Lemmas on joining paths -/

section PathLemmas

open GoPath GoURL GoHTTP

theorem cleanLoop_nil (rooted : Bool) (fuel : Nat) (out : GoString) (d : Nat) :
    cleanLoop rooted fuel [] out d = out := by
  cases fuel <;> rfl

theorem cleanLoop_slash (fuel : Nat) (rest out : GoString) (d : Nat) :
    cleanLoop true (fuel + 1) ('/' :: rest) out d = cleanLoop true fuel rest out d := by
  rw [cleanLoop]; simp

theorem isPathChar_ne_slash (c : Char) (h : isPathChar c = true) : c ≠ '/' := by
  rintro rfl; revert h; decide

theorem plainSegment_iff (s : GoString) :
    plainSegment s = true ↔
      s ≠ [] ∧ (∀ c ∈ s, isPathChar c = true) ∧ s ≠ ['.'] ∧ s ≠ ['.', '.'] := by
  unfold plainSegment
  simp only [Bool.and_eq_true, bne_iff_ne, ne_eq, List.all_eq_true, and_assoc]

theorem plainSegment_no_slash (s : GoString) (h : plainSegment s = true) :
    ∀ c ∈ s, c ≠ '/' := fun c hc =>
  isPathChar_ne_slash c (((plainSegment_iff s).1 h).2.1 c hc)

theorem takeWhile_segment (s rest : GoString) (hs : ∀ c ∈ s, c ≠ '/')
    (hr : rest = [] ∨ rest.head? = some '/') :
    (s ++ rest).takeWhile (fun x => x ≠ '/') = s ∧
    (s ++ rest).dropWhile (fun x => x ≠ '/') = rest := by
  induction s with
  | nil =>
    rcases hr with rfl | hr
    · simp
    · cases rest with
      | nil => simp
      | cons x xs =>
        simp only [List.head?_cons, Option.some.injEq] at hr
        subst hr
        simp
  | cons a s ih =>
    have ha : a ≠ '/' := hs a (List.mem_cons_self _ _)
    have ih1 := ih (fun c hc => hs c (List.mem_cons_of_mem _ hc))
    simp only [List.cons_append, List.takeWhile_cons, List.dropWhile_cons, ne_eq, ha,
      not_false_eq_true, decide_True, if_true]
    exact ⟨by rw [ih1.1], ih1.2⟩

theorem cleanLoop_segment (fuel : Nat) (s rest out : GoString) (d : Nat)
    (hs : plainSegment s = true) (hr : rest = [] ∨ rest.head? = some '/') :
    cleanLoop true (fuel + 1) (s ++ rest) out d
      = cleanLoop true fuel rest
          (s.reverse ++ (if out.length ≠ 1 then '/' :: out else out)) d := by
  have hns := plainSegment_no_slash s hs
  obtain ⟨hne, -, hdot, hdotdot⟩ := (plainSegment_iff s).1 hs
  have htd := takeWhile_segment s rest hns hr
  cases s with
  | nil => exact absurd rfl hne
  | cons c s1 =>
    have hc : c ≠ '/' := hns c (List.mem_cons_self _ _)
    have h2 : ¬ (c = '.' ∧ (s1 ++ rest = [] ∨ (s1 ++ rest).head? = some '/')) := by
      rintro ⟨rfl, h⟩
      cases s1 with
      | nil => exact hdot rfl
      | cons x xs =>
        rcases h with h | h
        · simp at h
        · simp only [List.cons_append, List.head?_cons, Option.some.injEq] at h
          exact hns x (by simp) h
    have h3 : ¬ (c = '.' ∧ (s1 ++ rest).head? = some '.' ∧
        ((s1 ++ rest).tail = [] ∨ (s1 ++ rest).tail.head? = some '/')) := by
      rintro ⟨rfl, h, h1⟩
      cases s1 with
      | nil =>
        rcases hr with rfl | hr
        · simp at h
        · simp only [List.nil_append] at h
          rw [hr] at h
          simp at h
      | cons x xs =>
        simp only [List.cons_append, List.head?_cons, Option.some.injEq] at h
        subst h
        cases xs with
        | nil => exact hdotdot rfl
        | cons y ys =>
          simp only [List.cons_append, List.tail_cons, List.head?_cons, Option.some.injEq] at h1
          rcases h1 with h1 | h1
          · simp at h1
          · exact hns y (by simp) h1
    rw [List.cons_append, cleanLoop, if_neg hc, if_neg h2, if_neg h3]
    rw [← List.cons_append, htd.1, htd.2]
    simp

theorem pathOf_cons (s : GoString) (segs : List GoString) :
    pathOf (s :: segs) = '/' :: (s ++ pathOf segs) := by
  simp [pathOf]

theorem pathOf_append (a b : List GoString) : pathOf (a ++ b) = pathOf a ++ pathOf b := by
  simp [pathOf]

theorem pathOf_head (segs : List GoString) :
    pathOf segs = [] ∨ (pathOf segs).head? = some '/' := by
  cases segs with
  | nil => left; rfl
  | cons s segs => right; rw [pathOf_cons]; rfl

theorem pathOf_length (segs : List GoString) (h : ∀ s ∈ segs, plainSegment s = true) :
    2 * segs.length ≤ (pathOf segs).length := by
  induction segs with
  | nil => simp
  | cons s segs ih =>
    have h1 := ih (fun x hx => h x (List.mem_cons_of_mem _ hx))
    have h2 : s ≠ [] := ((plainSegment_iff s).1 (h s (List.mem_cons_self _ _))).1
    have h3 : 0 < s.length := List.length_pos.2 h2
    rw [pathOf_cons]
    simp only [List.length_cons, List.length_append]
    omega

theorem cleanLoop_pathOf (segs : List GoString) :
    ∀ (fuel : Nat) (rest out : GoString) (d : Nat),
      (∀ s ∈ segs, plainSegment s = true) → (rest = [] ∨ rest.head? = some '/') →
      out.length ≠ 1 →
      cleanLoop true (fuel + 2 * segs.length) (pathOf segs ++ rest) out d
        = cleanLoop true fuel rest ((pathOf segs).reverse ++ out) d := by
  induction segs with
  | nil => intro fuel rest out d _ _ _; simp [pathOf]
  | cons s segs ih =>
    intro fuel rest out d hs hr hout
    have hrest : pathOf segs ++ rest = [] ∨ (pathOf segs ++ rest).head? = some '/' := by
      rcases pathOf_head segs with h | h
      · rw [h]; simpa using hr
      · right
        cases hp : pathOf segs with
        | nil => rw [hp] at h; simp at h
        | cons x xs => rw [hp] at h; simpa using h
    have e : fuel + 2 * (s :: segs).length = (fuel + 2 * segs.length + 1) + 1 := by
      simp only [List.length_cons]; omega
    rw [e, pathOf_cons, List.cons_append, cleanLoop_slash, List.append_assoc,
      cleanLoop_segment _ _ _ _ _ (hs s (List.mem_cons_self _ _)) hrest,
      ih _ _ _ _ (fun x hx => hs x (List.mem_cons_of_mem _ hx)) hr]
    · rw [if_pos hout]
      simp
    · have h3 : 0 < s.length :=
        List.length_pos.2 ((plainSegment_iff s).1 (hs s (List.mem_cons_self _ _))).1
      rw [if_pos hout]
      simp only [List.length_append, List.length_reverse, List.length_cons]
      omega

theorem cleanLoop_pathOf_root (segs : List GoString) (hne : segs ≠ [])
    (fuel : Nat) (rest : GoString) (d : Nat)
    (hs : ∀ s ∈ segs, plainSegment s = true) (hr : rest = [] ∨ rest.head? = some '/') :
    cleanLoop true (fuel + 2 * segs.length) (pathOf segs ++ rest) ['/'] d
      = cleanLoop true fuel rest (pathOf segs).reverse d := by
  cases segs with
  | nil => exact absurd rfl hne
  | cons s segs =>
    have hrest : pathOf segs ++ rest = [] ∨ (pathOf segs ++ rest).head? = some '/' := by
      rcases pathOf_head segs with h | h
      · rw [h]; simpa using hr
      · right
        cases hp : pathOf segs with
        | nil => rw [hp] at h; simp at h
        | cons x xs => rw [hp] at h; simpa using h
    have e : fuel + 2 * (s :: segs).length = (fuel + 2 * segs.length + 1) + 1 := by
      simp only [List.length_cons]; omega
    rw [e, pathOf_cons, List.cons_append, cleanLoop_slash, List.append_assoc,
      cleanLoop_segment _ _ _ _ _ (hs s (List.mem_cons_self _ _)) hrest,
      cleanLoop_pathOf _ _ _ _ _ (fun x hx => hs x (List.mem_cons_of_mem _ hx)) hr]
    · simp
    · have h3 : 0 < s.length :=
        List.length_pos.2 ((plainSegment_iff s).1 (hs s (List.mem_cons_self _ _))).1
      rw [if_neg (by simp)]
      simp only [List.length_append, List.length_reverse, List.length_cons, List.length_nil]
      omega

theorem cleanLoop_joined(bs ws : List GoString) (fuel : Nat)
    (hb : ∀ s ∈ bs, plainSegment s = true) (hw : ∀ s ∈ ws, plainSegment s = true)
    (hne : ws ≠ []) (hfuel : 2 * bs.length + 2 * ws.length + 1 ≤ fuel) :
    cleanLoop true fuel (pathOf bs ++ '/' :: pathOf ws) ['/'] 1
      = (pathOf (bs ++ ws)).reverse := by
  obtain ⟨F, rfl⟩ : ∃ F, fuel = ((F + 2 * ws.length) + 1) + 2 * bs.length :=
    ⟨fuel - (2 * bs.length + 2 * ws.length + 1), by omega⟩
  by_cases hbs : bs = []
  · subst hbs
    have h := cleanLoop_pathOf_root ws hne F [] 1 hw (Or.inl rfl)
    rw [List.append_nil] at h
    show cleanLoop true (F + 2 * ws.length + 1) ('/' :: pathOf ws) ['/'] 1 = _
    rw [cleanLoop_slash, h, cleanLoop_nil]
    rfl
  · have hlen := pathOf_length bs hb
    have hpos : 0 < bs.length := List.length_pos.2 hbs
    have hout : ((pathOf bs).reverse).length ≠ 1 := by
      rw [List.length_reverse]; omega
    have h := cleanLoop_pathOf ws F [] (pathOf bs).reverse 1 hw (Or.inl rfl) hout
    rw [List.append_nil] at h
    rw [cleanLoop_pathOf_root bs hbs _ ('/' :: pathOf ws) _ hb (Or.inr rfl), cleanLoop_slash, h,
      cleanLoop_nil,
      pathOf_append, List.reverse_append]

theorem pathOf_ne_nil (ws : List GoString) (hne : ws ≠ []) : pathOf ws ≠ [] := by
  cases ws with
  | nil => exact absurd rfl hne
  | cons w ws => rw [pathOf_cons]; exact List.cons_ne_nil _ _

theorem Clean_joined (bs ws : List GoString)
    (hb : ∀ s ∈ bs, plainSegment s = true) (hw : ∀ s ∈ ws, plainSegment s = true)
    (hne : ws ≠ []) :
    Clean ((if bs = [] then ['/'] else pathOf bs) ++ '/' :: pathOf ws) = pathOf (bs ++ ws) := by
  have hlb := pathOf_length bs hb
  have hlw := pathOf_length ws hw
  have hres : (pathOf (bs ++ ws)).reverse ≠ [] := by
    intro h
    have h1 := List.reverse_eq_nil_iff.1 h
    rw [pathOf_append] at h1
    exact pathOf_ne_nil ws hne (List.append_eq_nil.1 h1).2
  by_cases hbs : bs = []
  · subst hbs
    have h := cleanLoop_joined [] ws (('/' :: '/' :: pathOf ws).length + 1) hb hw hne
      (by simp only [List.length_cons, List.length_nil]; omega)
    have h1 : cleanLoop true (('/' :: '/' :: pathOf ws).length + 1) ('/' :: pathOf ws) ['/'] 1
        = (pathOf ([] ++ ws)).reverse := h
    simp only [if_true, List.cons_append, List.nil_append, Clean, decide_True]
    rw [h1, if_neg hres, List.reverse_reverse]
    rfl
  · obtain ⟨b, bs1, rfl⟩ := List.exists_cons_of_ne_nil hbs
    have h := cleanLoop_joined (b :: bs1) ws
      (('/' :: (b ++ pathOf bs1 ++ '/' :: pathOf ws)).length + 1 + 1) hb hw hne
      (by
        simp only [List.length_cons, List.length_append] at hlb ⊢
        rw [pathOf_cons] at hlb
        simp only [List.length_cons, List.length_append] at hlb
        omega)
    rw [pathOf_cons, List.cons_append, cleanLoop_slash] at h
    rw [if_neg hbs, pathOf_cons]
    simp only [List.cons_append, Clean, decide_True, if_true]
    rw [List.append_assoc] at h ⊢
    rw [h, if_neg hres, List.reverse_reverse]
    rfl

theorem joinBuf_two (a b : GoString) (ha : a ≠ []) :
    joinBuf [] [a, b] = a ++ '/' :: b := by
  simp [joinBuf, ha]

theorem pathOf_getLast (ws : List GoString) (hw : ∀ s ∈ ws, plainSegment s = true)
    (hne : ws ≠ []) : (pathOf ws).getLast? ≠ some '/' := by
  obtain ⟨init, l, rfl⟩ : ∃ init l, ws = init ++ [l] :=
    ⟨ws.dropLast, ws.getLast hne, (List.dropLast_append_getLast hne).symm⟩
  have hl : plainSegment l = true := hw l (by simp)
  have hl1 : l ≠ [] := ((plainSegment_iff l).1 hl).1
  obtain ⟨l1, c, rfl⟩ : ∃ l1 c, l = l1 ++ [c] :=
    ⟨l.dropLast, l.getLast hl1, (List.dropLast_append_getLast hl1).symm⟩
  have hc : c ≠ '/' := plainSegment_no_slash _ hl c (by simp)
  have e : pathOf (init ++ [l1 ++ [c]]) = (pathOf init ++ '/' :: l1) ++ [c] := by
    simp [pathOf]
  rw [e, List.getLast?_concat]
  intro h
  exact hc (Option.some.inj h)

theorem joinPath_pathOf (host : GoString) (bs ws : List GoString) (hhost : host ≠ [])
    (hb : ∀ s ∈ bs, plainSegment s = true) (hw : ∀ s ∈ ws, plainSegment s = true)
    (hne : ws ≠ []) :
    pathInString host (joinPath (pathOf bs) [pathOf ws]) = pathOf (bs ++ ws) := by
  have hlast := pathOf_getLast ws hw hne
  have hcl := Clean_joined bs ws hb hw hne
  have hsum : ∀ a : GoString, ¬ (([a, pathOf ws].map List.length).sum = 0) := by
    intro a
    have := pathOf_ne_nil ws hne
    have h3 : 0 < (pathOf ws).length := List.length_pos.2 this
    simp only [List.map_cons, List.map_nil, List.sum_cons, List.sum_nil]
    omega
  by_cases hbs : bs = []
  · subst hbs
    rw [if_pos rfl] at hcl
    have hj : Join [['/'], pathOf ws] = pathOf ([] ++ ws) := by
      unfold Join
      rw [if_neg (hsum _), joinBuf_two _ _ (by simp), hcl]
    obtain ⟨w, ws1, rfl⟩ := List.exists_cons_of_ne_nil hne
    have hw1 : plainSegment w = true := hw w (List.mem_cons_self _ _)
    obtain ⟨c, w1, rfl⟩ := List.exists_cons_of_ne_nil ((plainSegment_iff w).1 hw1).1
    have hc : c ≠ '/' := plainSegment_no_slash _ hw1 c (List.mem_cons_self _ _)
    have e0 : pathOf ([] : List GoString) = [] := rfl
    unfold joinPath
    simp only [e0, List.head?_nil, if_false, hj, List.getLast?_cons_cons, List.getLast?_singleton,
      Option.getD_some, hlast, false_and, List.nil_append, reduceCtorEq]
    rw [pathOf_cons]
    unfold pathInString
    simp [hc, hhost]
  · rw [if_neg hbs] at hcl
    obtain ⟨b, bs1, rfl⟩ := List.exists_cons_of_ne_nil hbs
    have hhead : (pathOf (b :: bs1)).head? = some '/' := by rw [pathOf_cons]; rfl
    have hj : Join [pathOf (b :: bs1), pathOf ws] = pathOf (b :: bs1 ++ ws) := by
      unfold Join
      rw [if_neg (hsum _), joinBuf_two _ _ (pathOf_ne_nil _ hbs), hcl]
    unfold joinPath
    simp only [hhead, if_true, hj, List.getLast?_cons_cons, List.getLast?_singleton,
      Option.getD_some, hlast, false_and, if_false]
    unfold pathInString
    have hh : (pathOf (b :: bs1 ++ ws)).head? = some '/' := by
      rw [List.cons_append, pathOf_cons]; rfl
    simp only [List.cons_append] at hh ⊢
    simp [hh]


theorem pathOf_chars (ws : List GoString) (hw : ∀ s ∈ ws, plainSegment s = true) :
    ∀ c ∈ pathOf ws, isPathChar c = true ∨ c = '/' := by
  induction ws with
  | nil => intro c hc; simp [pathOf] at hc
  | cons w rest ih =>
    intro c hc
    rw [pathOf_cons] at hc
    simp only [List.mem_cons, List.mem_append] at hc
    rcases hc with rfl | hc | hc
    · exact Or.inr rfl
    · exact Or.inl (((plainSegment_iff w).1 (hw w (List.mem_cons_self _ _))).2.1 c hc)
    · exact ih (fun s hs => hw s (List.mem_cons_of_mem _ hs)) c hc

theorem Sends_afterDo {R : Type} (c : Client) (env : Env R) (ctx : Context)
    (method path : GoString) (req : Request) (h : c.Sends env ctx method path req) (result : R) :
    c.doRequest env ctx method path result = c.afterDo env result (c.HTTPClient.Do req) := by
  obtain ⟨reqURL, built, hurl, hreq, rfl⟩ := h
  unfold Client.doRequest Client.afterDo Client.outgoing
  rw [hurl]
  simp only []
  rw [hreq]

theorem Sends_of_segments {R : Type} (c : Client) (env : Env R) (ctx : Context)
    (scheme host : GoString) (bs ws : List GoString)
    (hbase : c.BaseURL = address scheme host (pathOf bs))
    (hjoin : env.JoinsFrom scheme host (pathOf bs)) (hbuild : env.BuildsRequests)
    (hhost : host ≠ []) (hb : ∀ s ∈ bs, plainSegment s = true)
    (hw : ∀ s ∈ ws, plainSegment s = true) (hne : ws ≠ []) :
    ∃ req, c.Sends env ctx MethodGet (pathOf ws) req ∧ req.Method = MethodGet ∧
      req.URL = c.BaseURL ++ pathOf ws ∧
      ∀ result : R, c.doRequest env ctx MethodGet (pathOf ws) result
        = c.afterDo env result (c.HTTPClient.Do req) := by
  have hj := hjoin (pathOf ws) (pathOf_chars ws hw)
  rw [joinPath_pathOf host bs ws hhost hb hw hne, pathOf_append] at hj
  have hurl : address scheme host (pathOf bs ++ pathOf ws) = c.BaseURL ++ pathOf ws := by
    rw [hbase]; simp [address, List.append_assoc]
  rw [hurl, ← hbase] at hj
  obtain ⟨built, hreq, -, hm, hu⟩ := hbuild ctx (c.BaseURL ++ pathOf ws)
  have hs : c.Sends env ctx MethodGet (pathOf ws) (c.outgoing built) := ⟨_, built, hj, hreq, rfl⟩
  exact ⟨c.outgoing built, hs, hm, hu, fun result => Sends_afterDo c env ctx _ _ _ hs result⟩

theorem Sends_one {R : Type} (c : Client) (env : Env R) (ctx : Context)
    (scheme host : GoString) (bs : List GoString) (k p : GoString)
    (hbase : c.BaseURL = address scheme host (pathOf bs))
    (hjoin : env.JoinsFrom scheme host (pathOf bs)) (hbuild : env.BuildsRequests)
    (hhost : host ≠ []) (hb : ∀ s ∈ bs, plainSegment s = true)
    (hk : plainSegment k = true) (hp : plainSegment p = true) :
    ∃ req, c.Sends env ctx MethodGet ('/' :: k ++ '/' :: p) req ∧ req.Method = MethodGet ∧
      req.URL = c.BaseURL ++ ('/' :: k ++ '/' :: p) ∧
      ∀ result : R, c.doRequest env ctx MethodGet ('/' :: k ++ '/' :: p) result
        = c.afterDo env result (c.HTTPClient.Do req) := by
  have h := Sends_of_segments c env ctx scheme host bs [k, p] hbase hjoin hbuild hhost hb
    (by intro s hs; simp only [List.mem_cons, List.mem_singleton, List.not_mem_nil, or_false] at hs
        rcases hs with rfl | rfl
        · exact hk
        · exact hp) (by simp)
  have e : pathOf [k, p] = '/' :: k ++ '/' :: p := by simp [pathOf]
  rw [e] at h
  exact h

theorem Sends_three {R : Type} (c : Client) (env : Env R) (ctx : Context)
    (scheme host : GoString) (bs : List GoString) (k p k2 q : GoString)
    (hbase : c.BaseURL = address scheme host (pathOf bs))
    (hjoin : env.JoinsFrom scheme host (pathOf bs)) (hbuild : env.BuildsRequests)
    (hhost : host ≠ []) (hb : ∀ s ∈ bs, plainSegment s = true)
    (hk : plainSegment k = true) (hp : plainSegment p = true)
    (hk2 : plainSegment k2 = true) (hq : plainSegment q = true) :
    ∃ req, c.Sends env ctx MethodGet ('/' :: k ++ '/' :: p ++ '/' :: k2 ++ '/' :: q) req ∧
      req.Method = MethodGet ∧
      req.URL = c.BaseURL ++ ('/' :: k ++ '/' :: p ++ '/' :: k2 ++ '/' :: q) ∧
      ∀ result : R,
        c.doRequest env ctx MethodGet ('/' :: k ++ '/' :: p ++ '/' :: k2 ++ '/' :: q) result
          = c.afterDo env result (c.HTTPClient.Do req) := by
  have h := Sends_of_segments c env ctx scheme host bs [k, p, k2, q] hbase hjoin hbuild hhost hb
    (by intro s hs; simp only [List.mem_cons, List.mem_singleton, List.not_mem_nil, or_false] at hs
        rcases hs with rfl | rfl | rfl | rfl
        · exact hk
        · exact hp
        · exact hk2
        · exact hq) (by simp)
  have e : pathOf [k, p, k2, q] = '/' :: k ++ '/' :: p ++ '/' :: k2 ++ '/' :: q := by
    simp [pathOf]
  rw [e] at h
  exact h

theorem libraryEnv_JoinsFrom {R : Type} (scheme host basePath : GoString)
    (decode : GoString → R → R × Option StdError) :
    (libraryEnv scheme host basePath decode).JoinsFrom scheme host basePath :=
  fun _ _ => if_pos rfl

theorem libraryEnv_BuildsRequests {R : Type} (scheme host basePath : GoString)
    (decode : GoString → R → R × Option StdError) :
    (libraryEnv scheme host basePath decode).BuildsRequests :=
  fun _ _ => ⟨_, rfl, rfl, rfl, rfl⟩

end PathLemmas

/-! ## Lemmas on decoding a struct -/

section DecodeLemmas

open GoJSON GoTime GoStrconv

theorem decodeMembers_last {T F A : Type} [DecidableEq F] (fields : List (GoString × F))
    (store : T → F → Node → Option StdError → T × Option StdError × Option StdError)
    (f : F) (proj : T → A) (U : Node → A → Prop)
    (hother : ∀ g v n s, g ≠ f → proj (store v g n s).1 = proj v)
    (hown : ∀ v n s, (store v f n s).2.2 = none → U n (proj (store v f n s).1)) :
    ∀ (ms : List (GoString × Node)) (v : T) (s : Option StdError),
      (decodeMembers fields store ms v s).2.2 = none →
      (lastValue fields f ms = none → proj (decodeMembers fields store ms v s).1 = proj v) ∧
      (∀ n, lastValue fields f ms = some n →
        U n (proj (decodeMembers fields store ms v s).1)) := by
  intro ms
  induction ms with
  | nil =>
    intro v s _
    exact ⟨fun _ => rfl, fun n h => by simp [lastValue] at h⟩
  | cons m rest ih =>
    obtain ⟨k, n⟩ := m
    intro v s hno
    cases hl : lookupField fields k with
    | none =>
      have e : decodeMembers fields store ((k, n) :: rest) v s
          = decodeMembers fields store rest v s := by
        simp only [decodeMembers, hl]
      have e2 : lastValue fields f ((k, n) :: rest) = lastValue fields f rest := by
        simp only [lastValue, hl]
        cases lastValue fields f rest <;> simp
      rw [e] at hno ⊢
      rw [e2]
      exact ih v s hno
    | some g =>
      cases ha : (store v g n s).2.2 with
      | some err =>
        have e : decodeMembers fields store ((k, n) :: rest) v s
            = ((store v g n s).1, (store v g n s).2.1, some err) := by
          simp only [decodeMembers, hl, ha]
        rw [e] at hno
        simp at hno
      | none =>
        have e : decodeMembers fields store ((k, n) :: rest) v s
            = decodeMembers fields store rest (store v g n s).1 (store v g n s).2.1 := by
          simp only [decodeMembers, hl, ha]
        rw [e] at hno ⊢
        obtain ⟨ih1, ih2⟩ := ih _ _ hno
        cases hlast : lastValue fields f rest with
        | some x =>
          have e2 : lastValue fields f ((k, n) :: rest) = some x := by
            simp only [lastValue, hlast]
          rw [e2]
          exact ⟨fun h => by simp at h, fun y hy => by
            rw [← Option.some.inj hy]; exact ih2 x hlast⟩
        | none =>
          by_cases hg : g = f
          · subst hg
            have e2 : lastValue fields g ((k, n) :: rest) = some n := by
              simp only [lastValue, hlast, hl, if_true]
            rw [e2]
            refine ⟨fun h => by simp at h, fun y hy => ?_⟩
            rw [← Option.some.inj hy, ih1 hlast]
            exact hown v n s ha
          · have e2 : lastValue fields f ((k, n) :: rest) = none := by
              simp only [lastValue, hlast, hl, Option.some.injEq, hg, if_false]
            rw [e2]
            refine ⟨fun _ => ?_, fun y hy => by simp at hy⟩
            rw [ih1 hlast]
            exact hother g v n s hg

theorem decodeMembers_abort {T F : Type} (fields : List (GoString × F))
    (store : T → F → Node → Option StdError → T × Option StdError × Option StdError)
    (bad : F → Node → Prop)
    (hbad : ∀ f v n s, bad f n → (store v f n s).2.2 ≠ none) :
    ∀ (ms : List (GoString × Node)) (v : T) (s : Option StdError),
      (∃ m ∈ ms, ∃ f, lookupField fields m.1 = some f ∧ bad f m.2) →
      (decodeMembers fields store ms v s).2.2 ≠ none := by
  intro ms
  induction ms with
  | nil => intro v s h; obtain ⟨m, hm, _⟩ := h; simp at hm
  | cons m rest ih =>
    obtain ⟨k, n⟩ := m
    intro v s h
    cases hl : lookupField fields k with
    | none =>
      have e : decodeMembers fields store ((k, n) :: rest) v s
          = decodeMembers fields store rest v s := by
        simp only [decodeMembers, hl]
      rw [e]
      apply ih
      obtain ⟨m, hm, f, h1, h2⟩ := h
      rcases List.mem_cons.1 hm with rfl | hm
      · rw [hl] at h1; simp at h1
      · exact ⟨m, hm, f, h1, h2⟩
    | some g =>
      cases ha : (store v g n s).2.2 with
      | some err =>
        have e : decodeMembers fields store ((k, n) :: rest) v s
            = ((store v g n s).1, (store v g n s).2.1, some err) := by
          simp only [decodeMembers, hl, ha]
        rw [e]
        simp
      | none =>
        have e : decodeMembers fields store ((k, n) :: rest) v s
            = decodeMembers fields store rest (store v g n s).1 (store v g n s).2.1 := by
          simp only [decodeMembers, hl, ha]
        rw [e]
        apply ih
        obtain ⟨m, hm, f, h1, h2⟩ := h
        rcases List.mem_cons.1 hm with rfl | hm
        · rw [hl] at h1
          have := Option.some.inj h1
          subst this
          exact absurd ha (hbad g v n s h2)
        · exact ⟨m, hm, f, h1, h2⟩

theorem unquote_UnmarshalString (text s : GoString) (h : unquote text = some s) :
    UnmarshalString text = .ok (some s) ∧ ∃ rest, text = dq :: rest := by
  cases text with
  | nil => simp [unquote] at h
  | cons c rest =>
    by_cases hc : c = dq
    · subst hc
      simp only [unquote, if_true] at h
      cases hb : unquoteBody (rest.length + 1) rest with
      | none => rw [hb] at h; simp at h
      | some p =>
        obtain ⟨content, tail⟩ := p
        rw [hb] at h
        cases tail with
        | cons x xs => simp at h
        | nil =>
          simp only [Option.some.injEq] at h
          subst h
          refine ⟨?_, rest, rfl⟩
          have h1 : skipSpace (dq :: rest) = dq :: rest := by
            simp [skipSpace, isSpace, dq]
          unfold UnmarshalString
          rw [h1]
          simp only [if_true, hb]
          simp [skipSpace]
    · simp [unquote, hc] at h

theorem storeDate_valid (d : Date) (text s : GoString) (h : unquote text = some s)
    (hv : validDate s = true) :
    ∃ t, storeDate d (.literal text) = (⟨t⟩, none) ∧ t.Format = s := by
  obtain ⟨t, ht, hf⟩ := Parse_valid s hv
  refine ⟨t, ?_, hf⟩
  have hne : s ≠ [] := by
    rintro rfl; simp [validDate] at hv
  unfold storeDate Date.UnmarshalJSON
  simp only [Node.text]
  rw [(unquote_UnmarshalString text s h).1]
  simp [hne, ht]

theorem storeDate_malformed (d : Date) (text s : GoString) (h : unquote text = some s)
    (hne : s ≠ []) (hv : validDate s = false) :
    (storeDate d (.literal text)).2 ≠ none := by
  unfold storeDate Date.UnmarshalJSON
  simp only [Node.text]
  rw [(unquote_UnmarshalString text s h).1]
  cases hp : Parse s with
  | error e => simp [hne, hp]
  | ok t =>
    have := Parse_ok_validDate s t hp
    rw [hv] at this
    simp at this

theorem literal_not_null (text s : GoString) (h : unquote text = some s) :
    isEmptyLiteral (.literal text) = false ∧ isNull (.literal text) = false := by
  obtain ⟨rest, rfl⟩ := (unquote_UnmarshalString text s h).2
  exact ⟨rfl, by simp [isNull, dq]⟩

theorem storeDatePointer_null (v : Option Date) (s : Option StdError) :
    storeDatePointer v nullNode s = (none, s, none) := rfl

theorem storeDatePointer_valid (v : Option Date) (saved : Option StdError) (text s : GoString)
    (h : unquote text = some s) (hv : validDate s = true) :
    ∃ t, storeDatePointer v (.literal text) saved = (some ⟨t⟩, saved, none) ∧ t.Format = s := by
  obtain ⟨t, ht, hf⟩ := storeDate_valid (v.getD Date.zero) text s h hv
  obtain ⟨h1, h2⟩ := literal_not_null text s h
  refine ⟨t, ?_, hf⟩
  unfold storeDatePointer
  rw [h1, h2, ht]
  simp

theorem storeDatePointer_malformed (v : Option Date) (saved : Option StdError)
    (text s : GoString) (h : unquote text = some s) (hne : s ≠ [])
    (hv : validDate s = false) :
    (storeDatePointer v (.literal text) saved).2.2 ≠ none := by
  obtain ⟨h1, h2⟩ := literal_not_null text s h
  unfold storeDatePointer
  rw [h1, h2]
  simp only [Bool.false_eq_true, if_false]
  exact storeDate_malformed _ text s h hne hv

theorem store_optionalDate (f : ReleaseField) (hf : f.isOptionalDate = true)
    (v : ProductRelease) (n : Node) (s : Option StdError) :
    (ProductRelease.store v f n s).1.optionalDate f
      = (storeDatePointer (v.optionalDate f) n s).1 ∧
    (ProductRelease.store v f n s).2.2 = (storeDatePointer (v.optionalDate f) n s).2.2 := by
  cases f <;> simp [ReleaseField.isOptionalDate] at hf <;> exact ⟨rfl, rfl⟩

theorem store_other_optionalDate (f g : ReleaseField) (hg : g ≠ f)
    (v : ProductRelease) (n : Node) (s : Option StdError) :
    (ProductRelease.store v g n s).1.optionalDate f = v.optionalDate f := by
  cases f <;> cases g <;> first | rfl | exact absurd rfl hg

theorem store_other_Latest (g : ReleaseField) (hg : g ≠ .latest)
    (v : ProductRelease) (n : Node) (s : Option StdError) :
    (ProductRelease.store v g n s).1.Latest = v.Latest := by
  cases g <;> first | rfl | exact absurd rfl hg

theorem store_other_ReleaseDate (g : ReleaseField) (hg : g ≠ .releaseDate)
    (v : ProductRelease) (n : Node) (s : Option StdError) :
    (ProductRelease.store v g n s).1.ReleaseDate = v.ReleaseDate := by
  cases g <;> first | rfl | exact absurd rfl hg

theorem UnmarshalObject_ok (ms : List (GoString × Node)) (r : ProductRelease)
    (h : (ProductRelease.UnmarshalObject ms r).2 = none) :
    (decodeMembers releaseFields ProductRelease.store ms r none).2.2 = none ∧
    (ProductRelease.UnmarshalObject ms r).1
      = (decodeMembers releaseFields ProductRelease.store ms r none).1 := by
  unfold ProductRelease.UnmarshalObject at h ⊢
  cases ha : (decodeMembers releaseFields ProductRelease.store ms r none).2.2 with
  | some err => rw [ha] at h; simp at h
  | none => exact ⟨rfl, rfl⟩

theorem UnmarshalObject_abort (ms : List (GoString × Node)) (r : ProductRelease)
    (h : (decodeMembers releaseFields ProductRelease.store ms r none).2.2 ≠ none) :
    (ProductRelease.UnmarshalObject ms r).2 ≠ none := by
  unfold ProductRelease.UnmarshalObject
  cases ha : (decodeMembers releaseFields ProductRelease.store ms r none).2.2 with
  | some err => simp
  | none => exact absurd ha h

theorem storeVersionPointer_null (v : Option ProductVersion) (s : Option StdError) :
    storeVersionPointer v nullNode s = (none, s, none) := rfl

theorem storeVersionPointer_object (v : Option ProductVersion) (s : Option StdError)
    (ms : List (GoString × Node)) : (storeVersionPointer v (.object ms) s).1 ≠ none := by
  simp [storeVersionPointer, isEmptyLiteral, isNull]

theorem escapeChar_low (n : Nat) (h : n < 128) (rest : GoString) :
    ∃ x xs, escapeChar (Char.ofNat n) = x :: xs ∧ x ≠ dq ∧
      unquoteOne x (xs ++ rest) = some (Char.ofNat n, rest) := by
  interval_cases n <;> exact ⟨_, _, rfl, by decide, rfl⟩

theorem escapeChar_unquoteOne (c : Char) (rest : GoString) :
    ∃ x xs, escapeChar c = x :: xs ∧ x ≠ dq ∧ unquoteOne x (xs ++ rest) = some (c, rest) := by
  by_cases h128 : c.toNat < 128
  · have h := escapeChar_low c.toNat h128 rest
    rw [Char.ofNat_toNat] at h
    exact h
  · by_cases hsep : c.toNat = 8232 ∨ c.toNat = 8233
    · have hc : c = Char.ofNat c.toNat := (Char.ofNat_toNat c).symm
      rcases hsep with h | h
      · rw [h] at hc; subst hc; exact ⟨_, _, rfl, by decide, rfl⟩
      · rw [h] at hc; subst hc; exact ⟨_, _, rfl, by decide, rfl⟩
    · have e : escapeChar c = [c] := by
        unfold escapeChar
        simp only [h128, if_false, hsep]
      have hbs : c ≠ bs := by
        apply char_ne_of_toNat
        have : bs.toNat = 92 := rfl
        omega
      have hdq : c ≠ dq := by
        apply char_ne_of_toNat
        have : dq.toNat = 34 := rfl
        omega
      exact ⟨c, [], e, hdq, by
        rw [List.nil_append]; exact unquoteOne_plain c rest hbs (by omega)⟩

theorem unquoteBody_escaped (s : GoString) : ∀ (tail : GoString) (fuel : Nat),
    s.length < fuel →
    unquoteBody fuel (s.flatMap escapeChar ++ dq :: tail) = some (s, tail) := by
  induction s with
  | nil =>
    intro tail fuel hf
    cases fuel with
    | zero => simp at hf
    | succ n => simp [unquoteBody]
  | cons c r ih =>
    intro tail fuel hf
    cases fuel with
    | zero => simp at hf
    | succ n =>
      obtain ⟨x, xs, hx, hdq, hone⟩ := escapeChar_unquoteOne c (r.flatMap escapeChar ++ dq :: tail)
      have hlen : r.length < n := by simpa using hf
      rw [List.flatMap_cons, hx]
      simp only [List.cons_append, List.append_assoc]
      simp only [unquoteBody, if_neg hdq, hone, ih tail n hlen, Option.map_some']

theorem unquote_MarshalString (s : GoString) : unquote (MarshalString s) = some s := by
  unfold unquote MarshalString
  have hlen : s.length < (s.flatMap escapeChar ++ [dq]).length + 1 := by
    have : s.length ≤ (s.flatMap escapeChar).length := by
      induction s with
      | nil => simp
      | cons c r ih =>
        obtain ⟨x, xs, hx, -, -⟩ := escapeChar_unquoteOne c []
        rw [List.flatMap_cons, hx]
        simp only [List.length_cons, List.length_append]
        omega
    simp only [List.length_append, List.length_singleton]
    omega
  have h := unquoteBody_escaped s [] _ hlen
  simp only [List.singleton_append, List.cons_append, List.nil_append, if_true]
  rw [h]

theorem storeString_encode (v s : GoString) (saved : Option StdError) :
    storeString v (encodeString s) saved = (s, saved) := by
  have h := unquote_MarshalString s
  unfold storeString encodeString
  have e : MarshalString s = dq :: (s.flatMap escapeChar ++ [dq]) := rfl
  rw [e] at h ⊢
  have hn : ¬ (dq = 'n') := by decide
  simp only [if_neg hn, if_true, h]

theorem ParseInt_decimalRepr (n : Int) (h : fitsInt n) : ParseInt (decimalRepr n) = (n, none) := by
  unfold fitsInt at h
  unfold decimalRepr
  by_cases hn : n < 0
  · rw [if_pos hn]
    have hslow := ParseUint_decimalDigits n.natAbs (by norm_num at h ⊢; omega)
    simp only [List.singleton_append]
    unfold ParseInt
    simp only [or_true, if_true]
    rw [hslow]
    have h1 : ¬ (2 ^ 63 < n.natAbs) := by norm_num at h ⊢; omega
    have h3 : -((n.natAbs : Nat) : Int) = n := by omega
    simp only [gt_iff_lt, h1, and_false, if_false, Bool.not_true, Bool.false_eq_true,
      false_and, decide_True, true_and, h3, decide_eq_true_eq, if_true]
  · rw [if_neg hn]
    obtain ⟨k, rest, hk⟩ := decimalDigits_head (n.natAbs + 1) n.natAbs (by omega)
    have hsign := digitChar_ne_sign k
    have hslow := ParseUint_decimalDigits n.natAbs (by norm_num at h ⊢; omega)
    simp only [List.nil_append]
    rw [hk] at hslow ⊢
    unfold ParseInt
    have h1 : ¬ (digitChar k = '-') := fun e => hsign (Or.inl e)
    have hsign2 : ¬ (digitChar k = '+' ∨ digitChar k = '-') := fun e => hsign e.symm
    simp only [if_neg hsign2, hslow]
    have h2 : ¬ (n.natAbs ≥ 2 ^ 63) := by norm_num at h ⊢; omega
    have h3 : ((n.natAbs : Nat) : Int) = n := by omega
    simp only [h1, h2, and_false, if_false, decide_False, Bool.not_false, Bool.false_eq_true,
      false_and, h3, decide_eq_true_eq]

theorem decimalRepr_head (n : Int) :
    ∃ c rest, decimalRepr n = c :: rest ∧ c ≠ 'n' ∧ (c = '-' ∨ (48 ≤ c.toNat ∧ c.toNat ≤ 57)) := by
  unfold decimalRepr
  by_cases hn : n < 0
  · rw [if_pos hn]
    exact ⟨'-', _, rfl, by decide, Or.inl rfl⟩
  · rw [if_neg hn]
    obtain ⟨k, rest, hk⟩ := decimalDigits_head (n.natAbs + 1) n.natAbs (by omega)
    rw [hk]
    have ht := digitChar_toNat k
    refine ⟨digitChar k, rest, rfl, ?_, Or.inr (by omega)⟩
    apply char_ne_of_toNat
    have : ('n' : Char).toNat = 110 := rfl
    omega

theorem storeInt_encode (v n : Int) (saved : Option StdError) (h : fitsInt n) :
    storeInt v (encodeInt n) saved = (n, saved) := by
  unfold storeInt encodeInt
  rw [formatInt_eq_decimalRepr]
  have hp := ParseInt_decimalRepr n h
  obtain ⟨c, rest, hc, hnn, hnum⟩ := decimalRepr_head n
  rw [hc] at hp ⊢
  simp only [if_neg hnn, if_pos hnum, hp]

theorem Date_String_of_Format (t : Time) (s : GoString) (hf : t.Format = s)
    (hne : s ≠ "0001-01-01".toList) : (⟨t⟩ : Date).String = s := by
  unfold Date.String
  cases hz : t.IsZero
  · simpa using hf
  · exfalso
    apply hne
    rw [← hf, Time_eq_zero_of_IsZero t hz, Format_zero]
    rfl

theorem valuesOf_nil_lastValue {F : Type} [DecidableEq F] (fields : List (GoString × F))
    (f : F) (ms : List (GoString × Node)) (h : valuesOf fields f ms = []) :
    lastValue fields f ms = none := by
  induction ms with
  | nil => rfl
  | cons m rest ih =>
    obtain ⟨k, n⟩ := m
    by_cases hl : lookupField fields k = some f
    · simp [valuesOf, hl] at h
    · simp only [valuesOf, hl, if_false] at h
      simp only [lastValue, ih h, hl, if_false]

theorem decodeMembers_single {T F A : Type} [DecidableEq F] (fields : List (GoString × F))
    (store : T → F → Node → Option StdError → T × Option StdError × Option StdError)
    (f : F) (proj : T → A)
    (hother : ∀ g v n s, g ≠ f → proj (store v g n s).1 = proj v) :
    ∀ (ms : List (GoString × Node)) (v : T) (s : Option StdError) (n : Node),
      valuesOf fields f ms = [n] →
      (decodeMembers fields store ms v s).2.2 = none →
      ∃ v1 s1, proj v1 = proj v ∧ (store v1 f n s1).2.2 = none ∧
        proj (decodeMembers fields store ms v s).1 = proj (store v1 f n s1).1 := by
  intro ms
  induction ms with
  | nil => intro v s n h; simp [valuesOf] at h
  | cons m rest ih =>
    obtain ⟨k, x⟩ := m
    intro v s n hval hno
    cases hl : lookupField fields k with
    | none =>
      have e : decodeMembers fields store ((k, x) :: rest) v s
          = decodeMembers fields store rest v s := by
        simp only [decodeMembers, hl]
      have e2 : valuesOf fields f ((k, x) :: rest) = valuesOf fields f rest := by
        simp [valuesOf, hl]
      rw [e] at hno ⊢
      rw [e2] at hval
      exact ih v s n hval hno
    | some g =>
      cases ha : (store v g x s).2.2 with
      | some err =>
        have e : decodeMembers fields store ((k, x) :: rest) v s
            = ((store v g x s).1, (store v g x s).2.1, some err) := by
          simp only [decodeMembers, hl, ha]
        rw [e] at hno
        simp at hno
      | none =>
        have e : decodeMembers fields store ((k, x) :: rest) v s
            = decodeMembers fields store rest (store v g x s).1 (store v g x s).2.1 := by
          simp only [decodeMembers, hl, ha]
        rw [e] at hno ⊢
        by_cases hg : g = f
        · subst hg
          have e2 : valuesOf fields g ((k, x) :: rest) = x :: valuesOf fields g rest := by
            simp [valuesOf, hl]
          rw [e2] at hval
          have hx : x = n := (List.cons.inj hval).1
          have hrest : valuesOf fields g rest = [] := (List.cons.inj hval).2
          subst hx
          have hkeep := (decodeMembers_last fields store g proj (fun _ _ => True) hother
            (fun _ _ _ _ => trivial) rest _ _ hno).1 (valuesOf_nil_lastValue fields g rest hrest)
          exact ⟨v, s, rfl, ha, hkeep⟩
        · have e2 : valuesOf fields f ((k, x) :: rest) = valuesOf fields f rest := by
            simp [valuesOf, hl, hg]
          rw [e2] at hval
          obtain ⟨v1, s1, h1, h2, h3⟩ := ih _ _ n hval hno
          exact ⟨v1, s1, by rw [h1]; exact hother g v x s hg, h2, h3⟩

theorem storeDatePointer_rule (v : Option Date) (n : Node) (saved : Option StdError) :
    (n = nullNode → (storeDatePointer v n saved).1 = none) ∧
    (∀ text s, n = .literal text → unquote text = some s → validDate s = true →
      ∃ d : Date, (storeDatePointer v n saved).1 = some d ∧ d.Time.Format = s ∧
        (s ≠ "0001-01-01".toList → d.String = s)) := by
  refine ⟨fun hn => by rw [hn, storeDatePointer_null], fun text s hn hu hv => ?_⟩
  obtain ⟨t, ht, hfmt⟩ := storeDatePointer_valid v saved text s hu hv
  rw [hn, ht]
  exact ⟨⟨t⟩, rfl, hfmt, Date_String_of_Format t s hfmt⟩

theorem version_store_other_Date (g : VersionField) (hg : g ≠ .date)
    (v : ProductVersion) (n : Node) (s : Option StdError) :
    (ProductVersion.store v g n s).1.Date = v.Date := by
  cases g <;> first | rfl | exact absurd rfl hg

theorem storeVersionPointer_object_eq (v : Option ProductVersion) (s : Option StdError)
    (ms : List (GoString × Node)) :
    storeVersionPointer v (.object ms) s
      = (some (decodeMembers versionFields ProductVersion.store ms
            (v.getD ProductVersion.zero) s).1,
          (decodeMembers versionFields ProductVersion.store ms
            (v.getD ProductVersion.zero) s).2) := by
  simp [storeVersionPointer, isEmptyLiteral, isNull]

theorem version_date_rule (ms : List (GoString × Node)) (v : ProductVersion)
    (s : Option StdError)
    (hno : (decodeMembers versionFields ProductVersion.store ms v s).2.2 = none) :
    (lastValue versionFields .date ms = none →
      (decodeMembers versionFields ProductVersion.store ms v s).1.Date = v.Date) ∧
    (∀ n, lastValue versionFields .date ms = some n →
      (n = nullNode →
        (decodeMembers versionFields ProductVersion.store ms v s).1.Date = none) ∧
      (∀ text str, n = .literal text → unquote text = some str → validDate str = true →
        ∃ d : Date, (decodeMembers versionFields ProductVersion.store ms v s).1.Date = some d ∧
          d.Time.Format = str ∧ (str ≠ "0001-01-01".toList → d.String = str))) := by
  have key := decodeMembers_last versionFields ProductVersion.store .date
    (fun pv => pv.Date)
    (fun n a => (n = nullNode → a = none) ∧
      (∀ text str, n = .literal text → unquote text = some str → validDate str = true →
        ∃ d : Date, a = some d ∧ d.Time.Format = str ∧
          (str ≠ "0001-01-01".toList → d.String = str)))
    (fun g v n s hg => version_store_other_Date g hg v n s)
    (fun v n s _ => storeDatePointer_rule v.Date n s)
    ms v s hno
  exact key

theorem version_date_malformed (ms : List (GoString × Node)) (v : ProductVersion)
    (s : Option StdError)
    (h : ∃ k text str, (k, Node.literal text) ∈ ms ∧ lookupField versionFields k = some .date ∧
      unquote text = some str ∧ str ≠ [] ∧ validDate str = false) :
    (decodeMembers versionFields ProductVersion.store ms v s).2.2 ≠ none := by
  obtain ⟨k, text, str, hm, hl, hu, hne, hv⟩ := h
  apply decodeMembers_abort versionFields ProductVersion.store
    (fun f n => f = .date ∧
      ∃ text s, n = .literal text ∧ unquote text = some s ∧ s ≠ [] ∧ validDate s = false)
  · rintro g v n sv ⟨rfl, text1, s1, rfl, h1, h2, h3⟩
    exact storeDatePointer_malformed v.Date sv text1 s1 h1 h2 h3
  · exact ⟨(k, .literal text), hm, .date, hl, rfl, text, str, rfl, hu, hne, hv⟩

theorem scanString_append : ∀ (f : Nat) (body b t : GoString),
    scanString f body = some (b, t) →
    ∀ (f1 : Nat) (rest : GoString), f ≤ f1 → scanString f1 (body ++ rest) = some (b, t ++ rest) := by
  intro f
  induction f with
  | zero => intro body b t h; simp [scanString] at h
  | succ n ih =>
    intro body b t h f1 rest hle
    obtain ⟨m, rfl⟩ : ∃ m, f1 = m + 1 := ⟨f1 - 1, by omega⟩
    have hnm : n ≤ m := by omega
    cases body with
    | nil => simp [scanString] at h
    | cons c r =>
      rw [List.cons_append]
      by_cases hq : c = dq
      · simp only [scanString, hq, if_true, Option.some.injEq, Prod.mk.injEq] at h ⊢
        exact ⟨h.1, by rw [h.2]⟩
      · by_cases hb : c = bs
        · subst hb
          cases r with
          | nil => simp [scanString, hq] at h
          | cons e r2 =>
            by_cases hu : e = 'u'
            · subst hu
              match r2, h with
              | [], h => simp [scanString, hq] at h
              | [_], h => simp [scanString, hq] at h
              | [_, _], h => simp [scanString, hq] at h
              | [_, _, _], h => simp [scanString, hq] at h
              | h1 :: h2 :: h3 :: h4 :: r3, h =>
                by_cases hh : isHexDigit h1 = true ∧ isHexDigit h2 = true ∧
                    isHexDigit h3 = true ∧ isHexDigit h4 = true
                · simp only [scanString, hq, if_false, if_true, hh, and_self,
                    List.cons_append] at h ⊢
                  cases hs : scanString n r3 with
                  | none => rw [hs] at h; simp at h
                  | some p =>
                    obtain ⟨b1, t1⟩ := p
                    rw [hs] at h
                    simp only [Option.map_some', Option.some.injEq, Prod.mk.injEq] at h
                    rw [ih r3 b1 t1 hs m rest hnm]
                    simp only [Option.map_some', Option.some.injEq, Prod.mk.injEq]
                    exact ⟨h.1, by rw [h.2]⟩
                · simp [scanString, hq, hh] at h
            · by_cases he : (simpleEscape e).isSome = true
              · simp only [scanString, hq, if_false, if_true, hu, he, List.cons_append] at h ⊢
                cases hs : scanString n r2 with
                | none => rw [hs] at h; simp at h
                | some p =>
                  obtain ⟨b1, t1⟩ := p
                  rw [hs] at h
                  simp only [Option.map_some', Option.some.injEq, Prod.mk.injEq] at h
                  rw [ih r2 b1 t1 hs m rest hnm]
                  simp only [Option.map_some', Option.some.injEq, Prod.mk.injEq]
                  exact ⟨h.1, by rw [h.2]⟩
              · simp [scanString, hq, hu, he] at h
        · by_cases hc : c.toNat < 32
          · simp [scanString, hq, hb, hc] at h
          · simp only [scanString, hq, hb, hc, if_false] at h ⊢
            cases hs : scanString n r with
            | none => rw [hs] at h; simp at h
            | some p =>
              obtain ⟨b1, t1⟩ := p
              rw [hs] at h
              simp only [Option.map_some', Option.some.injEq, Prod.mk.injEq] at h
              rw [ih r b1 t1 hs m rest hnm]
              simp only [Option.map_some', Option.some.injEq, Prod.mk.injEq]
              exact ⟨h.1, by rw [h.2]⟩

theorem escapeChar_scan_low (n : Nat) (h : n < 128) (f : Nat) (r : GoString) :
    scanString (f + 1) (escapeChar (Char.ofNat n) ++ r)
      = (scanString f r).map (fun p => (escapeChar (Char.ofNat n) ++ p.1, p.2)) := by
  interval_cases n <;> rfl

theorem escapeChar_scan (c : Char) (f : Nat) (r : GoString) :
    scanString (f + 1) (escapeChar c ++ r)
      = (scanString f r).map (fun p => (escapeChar c ++ p.1, p.2)) := by
  by_cases h128 : c.toNat < 128
  · have h := escapeChar_scan_low c.toNat h128 f r
    rw [Char.ofNat_toNat] at h
    exact h
  · by_cases hsep : c.toNat = 8232 ∨ c.toNat = 8233
    · have hc : c = Char.ofNat c.toNat := (Char.ofNat_toNat c).symm
      rcases hsep with h | h
      · rw [h] at hc; subst hc; rfl
      · rw [h] at hc; subst hc; rfl
    · have e : escapeChar c = [c] := by
        unfold escapeChar
        simp only [h128, if_false, hsep]
      have hbs : c ≠ bs := by
        apply char_ne_of_toNat
        have : bs.toNat = 92 := rfl
        omega
      have hdq : c ≠ dq := by
        apply char_ne_of_toNat
        have : dq.toNat = 34 := rfl
        omega
      have h32 : ¬ c.toNat < 32 := by omega
      rw [e]
      simp only [List.singleton_append, scanString, if_neg hdq, if_neg hbs, if_neg h32]
      rfl

theorem length_le_escaped (s : GoString) : s.length ≤ (s.flatMap escapeChar).length := by
  induction s with
  | nil => simp
  | cons c r ih =>
    obtain ⟨x, xs, hx, -, -⟩ := escapeChar_unquoteOne c []
    rw [List.flatMap_cons, hx]
    simp only [List.length_cons, List.length_append]
    omega

theorem scanString_escaped (s : GoString) : ∀ (rest : GoString) (fuel : Nat), s.length < fuel →
    scanString fuel (s.flatMap escapeChar ++ dq :: rest)
      = some (s.flatMap escapeChar ++ [dq], rest) := by
  induction s with
  | nil =>
    intro rest fuel hf
    cases fuel with
    | zero => simp at hf
    | succ n => simp [scanString]
  | cons c r ih =>
    intro rest fuel hf
    cases fuel with
    | zero => simp at hf
    | succ n =>
      have hlen : r.length < n := by simpa using hf
      rw [List.flatMap_cons, List.append_assoc, escapeChar_scan, ih rest n hlen]
      simp

theorem skipSpace_cons (c : Char) (r : GoString) (h : isSpace c = false) :
    skipSpace (c :: r) = c :: r := by
  simp [skipSpace, h]

theorem Delim_cons (c : Char) (r : GoString)
    (h : c = ',' ∨ c = ']' ∨ c = '}' ∨ isSpace c = true) : Delim (c :: r) := by
  intro x hx
  simp only [List.head?_cons, Option.some.injEq] at hx
  subst hx
  exact h

theorem Delim_of_skipSpace (t : GoString) (h : skipSpace t = []) : Delim t := by
  intro c hc
  cases t with
  | nil => simp at hc
  | cons x r =>
    simp only [List.head?_cons, Option.some.injEq] at hc
    subst hc
    by_cases hs : isSpace x = true
    · exact Or.inr (Or.inr (Or.inr hs))
    · simp [skipSpace, hs] at h

theorem Delim_head (d : Char) (r : GoString) (h : Delim (d :: r)) :
    d ≠ '.' ∧ d ≠ 'e' ∧ d ≠ 'E' ∧ isDecimal d = false := by
  rcases h d rfl with rfl | rfl | rfl | hs
  · exact ⟨by decide, by decide, by decide, by decide⟩
  · exact ⟨by decide, by decide, by decide, by decide⟩
  · exact ⟨by decide, by decide, by decide, by decide⟩
  · have h1 : ('.' : Char).toNat = 46 := rfl
    have h2 : ('e' : Char).toNat = 101 := rfl
    have h3 : ('E' : Char).toNat = 69 := rfl
    have hs2 : d.toNat = 32 ∨ d.toNat = 9 ∨ d.toNat = 13 ∨ d.toNat = 10 := by
      simpa [isSpace, or_assoc] using hs
    refine ⟨char_ne_of_toNat (by omega), char_ne_of_toNat (by omega),
      char_ne_of_toNat (by omega), ?_⟩
    simp only [isDecimal, Bool.and_eq_false_imp, decide_eq_true_eq, decide_eq_false_iff_not]
    omega

theorem scanExponent_delim (acc rest : GoString) (h : Delim rest) :
    scanExponent acc rest = some (acc, rest) := by
  cases rest with
  | nil => rfl
  | cons d r =>
    obtain ⟨-, h2, h3, -⟩ := Delim_head d r h
    have hn : ¬ (d = 'e' ∨ d = 'E') := by rintro (e | e) <;> contradiction
    simp only [scanExponent, if_neg hn]

theorem scanFraction_delim (acc rest : GoString) (h : Delim rest) :
    scanFraction acc rest = some (acc, rest) := by
  cases rest with
  | nil => rfl
  | cons d r =>
    obtain ⟨h1, -, -, -⟩ := Delim_head d r h
    simp only [scanFraction, if_neg h1]
    exact scanExponent_delim acc (d :: r) h

theorem isDecimal_digitChar (u : Nat) : isDecimal (digitChar u) = true := by
  have h := digitChar_toNat u
  simp only [isDecimal, h, Bool.and_eq_true, decide_eq_true_eq]
  omega

theorem decimalDigits_all (fuel : Nat) : ∀ u, ∀ c ∈ decimalDigits fuel u, isDecimal c = true := by
  induction fuel with
  | zero => intro u c hc; simp [decimalDigits] at hc
  | succ f ih =>
    intro u c hc
    rw [decimalDigits_succ] at hc
    split_ifs at hc
    · simp only [List.mem_singleton] at hc
      rw [hc]; exact isDecimal_digitChar u
    · rcases List.mem_append.1 hc with h | h
      · exact ih _ c h
      · simp only [List.mem_singleton] at h
        rw [h]; exact isDecimal_digitChar u

theorem decimalDigits_lead (fuel u : Nat) (h : u < fuel) (hu : 0 < u) :
    ∃ k rest, decimalDigits fuel u = digitChar k :: rest ∧ k % 10 ≠ 0 := by
  induction fuel generalizing u with
  | zero => omega
  | succ f ih =>
    rw [decimalDigits_succ]
    split_ifs with h10
    · exact ⟨u, [], rfl, by omega⟩
    · obtain ⟨k, rest, hk, hk0⟩ := ih (u / 10) (by omega) (by omega)
      exact ⟨k, rest ++ [digitChar u], by rw [hk]; rfl, hk0⟩

theorem takeWhile_digits (ds rest : GoString) (hds : ∀ c ∈ ds, isDecimal c = true)
    (h : Delim rest) :
    (ds ++ rest).takeWhile isDecimal = ds ∧ (ds ++ rest).dropWhile isDecimal = rest := by
  induction ds with
  | nil =>
    cases rest with
    | nil => exact ⟨rfl, rfl⟩
    | cons d r =>
      obtain ⟨-, -, -, h4⟩ := Delim_head d r h
      simp [List.takeWhile, List.dropWhile, h4]
  | cons c r ih =>
    have hc := hds c (List.mem_cons_self _ _)
    obtain ⟨i1, i2⟩ := ih (fun x hx => hds x (List.mem_cons_of_mem _ hx))
    simp only [List.cons_append, List.takeWhile, List.dropWhile, hc]
    exact ⟨congrArg (c :: ·) i1, i2⟩

theorem scanDigits_decimalDigits (fuel u : Nat) (hf : u < fuel) (acc rest : GoString)
    (h : Delim rest) :
    scanDigits acc (decimalDigits fuel u ++ rest) = some (acc ++ decimalDigits fuel u, rest) := by
  by_cases hu : u = 0
  · subst hu
    obtain ⟨f, rfl⟩ : ∃ f, fuel = f + 1 := ⟨fuel - 1, by omega⟩
    have e : decimalDigits (f + 1) 0 = ['0'] := rfl
    rw [e]
    simp only [List.singleton_append, scanDigits, if_true]
    exact scanFraction_delim _ rest h
  · obtain ⟨k, ds, hk, hk0⟩ := decimalDigits_lead fuel u hf (by omega)
    have hall := decimalDigits_all fuel u
    rw [hk] at hall ⊢
    have hz : digitChar k ≠ '0' := by
      apply char_ne_of_toNat
      rw [digitChar_toNat]
      have : ('0' : Char).toNat = 48 := rfl
      omega
    obtain ⟨t1, t2⟩ := takeWhile_digits ds rest
      (fun c hc => hall c (List.mem_cons_of_mem _ hc)) h
    simp only [List.cons_append, scanDigits, if_neg hz, isDecimal_digitChar, if_true, t1, t2]
    exact scanFraction_delim _ rest h

theorem scanNumber_decimalRepr (n : Int) (rest : GoString) (h : Delim rest) :
    scanNumber (decimalRepr n ++ rest) = some (decimalRepr n, rest) := by
  unfold decimalRepr
  by_cases hn : n < 0
  · rw [if_pos hn]
    simp only [List.singleton_append, List.cons_append, scanNumber, if_true]
    exact scanDigits_decimalDigits _ _ (by omega) _ rest h
  · rw [if_neg hn]
    obtain ⟨k, ds, hk⟩ := decimalDigits_head (n.natAbs + 1) n.natAbs (by omega)
    have hs := scanDigits_decimalDigits (n.natAbs + 1) n.natAbs (by omega) [] rest h
    rw [hk] at hs ⊢
    have h1 : ¬ (digitChar k = '-') := fun e => digitChar_ne_sign k (Or.inl e)
    simp only [List.nil_append, List.cons_append, scanNumber, if_neg h1]
    exact hs

theorem parseValue_string (f depth : Nat) (r : GoString) :
    parseValue (f + 1) depth (dq :: r)
      = (scanString (r.length + 1) r).map (fun p => (Node.literal (dq :: p.1), p.2)) := by
  rw [parseValue, skipSpace_cons _ _ (by decide)]
  simp only []
  rw [if_neg (by decide), if_neg (by decide)]
  simp only [if_true]

theorem parseValue_number (f depth : Nat) (c : Char) (r : GoString)
    (hc : c = '-' ∨ isDecimal c = true) :
    parseValue (f + 1) depth (c :: r)
      = (scanNumber (c :: r)).map (fun p => (Node.literal p.1, p.2)) := by
  have hn : c.toNat = 45 ∨ (48 ≤ c.toNat ∧ c.toNat ≤ 57) := by
    rcases hc with rfl | hc
    · exact Or.inl rfl
    · right
      simpa [isDecimal] using hc
  have hsp : isSpace c = false := by
    simp only [isSpace, Bool.or_eq_false_iff, decide_eq_false_iff_not]
    omega
  have e1 : ('{' : Char).toNat = 123 := rfl
  have e2 : ('[' : Char).toNat = 91 := rfl
  have e3 : dq.toNat = 34 := rfl
  have e4 : ('n' : Char).toNat = 110 := rfl
  have e5 : ('t' : Char).toNat = 116 := rfl
  have e6 : ('f' : Char).toNat = 102 := rfl
  rw [parseValue, skipSpace_cons _ _ hsp]
  simp only []
  rw [if_neg (char_ne_of_toNat (by omega)), if_neg (char_ne_of_toNat (by omega)),
    if_neg (char_ne_of_toNat (by omega)), if_neg (char_ne_of_toNat (by omega)),
    if_neg (char_ne_of_toNat (by omega)), if_neg (char_ne_of_toNat (by omega))]

theorem Scannable_mono (d e : Nat) (n : Node) (h : Scannable d n) (hde : d ≤ e) :
    Scannable e n :=
  ⟨h.1, fun fuel depth rest hf hd hr => h.2 fuel depth rest hf (by omega) hr⟩

theorem Scannable_string (s : GoString) (n : Node) (h : EncodesString s n) : Scannable 0 n := by
  obtain ⟨body, rfl, hscan, -⟩ := h
  refine ⟨⟨dq, body, rfl, by decide, by decide⟩, ?_⟩
  intro fuel depth rest hf _ _
  obtain ⟨m, rfl⟩ : ∃ m, fuel = m + 1 := ⟨fuel - 1, by omega⟩
  have hs := scanString_append _ body body [] hscan ((body ++ rest).length + 1) rest
    (by simp only [List.length_append]; omega)
  simp only [Node.text, List.cons_append]
  rw [parseValue_string, hs]
  rfl

theorem EncodesString_encode (s : GoString) : EncodesString s (encodeString s) := by
  refine ⟨s.flatMap escapeChar ++ [dq], rfl, ?_, unquote_MarshalString s⟩
  have h := scanString_escaped s [] ((s.flatMap escapeChar ++ [dq]).length + 1)
    (by have := length_le_escaped s; simp only [List.length_append, List.length_singleton]; omega)
  exact h

theorem Scannable_int (i : Int) : Scannable 0 (encodeInt i) := by
  obtain ⟨c, t, hc, -, hnum⟩ := decimalRepr_head i
  have hd : c = '-' ∨ isDecimal c = true := by
    rcases hnum with h | h
    · exact Or.inl h
    · right; simp only [isDecimal, Bool.and_eq_true, decide_eq_true_eq]; exact h
  have htext : (encodeInt i).text = decimalRepr i := by
    unfold encodeInt
    rw [formatInt_eq_decimalRepr]
    rfl
  have hn : c.toNat = 45 ∨ (48 ≤ c.toNat ∧ c.toNat ≤ 57) := by
    rcases hnum with rfl | h
    · exact Or.inl rfl
    · exact Or.inr h
  refine ⟨⟨c, t, by rw [htext, hc], ?_, ?_⟩, ?_⟩
  · simp only [isSpace, Bool.or_eq_false_iff, decide_eq_false_iff_not]
    omega
  · apply char_ne_of_toNat
    have : (']' : Char).toNat = 93 := rfl
    omega
  · intro fuel depth rest hf _ hr
    obtain ⟨m, rfl⟩ : ∃ m, fuel = m + 1 := ⟨fuel - 1, by omega⟩
    have hs := scanNumber_decimalRepr i rest hr
    have e : encodeInt i = .literal (decimalRepr i) := by
      unfold encodeInt
      rw [formatInt_eq_decimalRepr]
    rw [htext, e]
    rw [hc] at hs ⊢
    rw [List.cons_append, parseValue_number _ _ _ _ hd]
    rw [List.cons_append] at hs
    rw [hs]
    rfl

theorem Scannable_null : Scannable 0 nullNode :=
  ⟨⟨'n', ['u', 'l', 'l'], rfl, by decide, by decide⟩, fun fuel depth rest hf _ _ => by
    obtain ⟨m, rfl⟩ : ∃ m, fuel = m + 1 := ⟨fuel - 1, by omega⟩
    rfl⟩

theorem textItems_cons_cons (x y : Node) (r : List Node) :
    textItems (x :: y :: r) = x.text ++ ',' :: textItems (y :: r) := by
  rw [textItems]

theorem textItems_head (d : Nat) (items : List Node) (hne : items ≠ [])
    (h : ∀ x ∈ items, Scannable d x) :
    ∃ c t, textItems items = c :: t ∧ isSpace c = false ∧ c ≠ ']' := by
  cases items with
  | nil => exact absurd rfl hne
  | cons x r =>
    obtain ⟨c, t, ht, h1, h2⟩ := (h x (List.mem_cons_self _ _)).1
    cases r with
    | nil => exact ⟨c, t, by rw [textItems, ht], h1, h2⟩
    | cons y r2 =>
      exact ⟨c, t ++ ',' :: textItems (y :: r2), by rw [textItems_cons_cons, ht]; rfl, h1, h2⟩

theorem parseItems_text (d : Nat) : ∀ (items : List Node), items ≠ [] →
    (∀ x ∈ items, Scannable d x) →
    ∀ fuel depth rest, 2 * (textItems items ++ ']' :: rest).length + 2 ≤ fuel →
      depth + d ≤ maxNestingDepth →
      parseItems fuel depth (textItems items ++ ']' :: rest) = some (items, rest) := by
  intro items
  induction items with
  | nil => intro h; exact absurd rfl h
  | cons x r ih =>
    intro _ hall fuel depth rest hf hd
    obtain ⟨m, rfl⟩ : ∃ m, fuel = m + 1 := ⟨fuel - 1, by omega⟩
    have hx := hall x (List.mem_cons_self _ _)
    cases r with
    | nil =>
      have e : textItems [x] = x.text := by rw [textItems]
      rw [e] at hf ⊢
      have hp := hx.2 m depth (']' :: rest) (by omega) hd
        (Delim_cons _ _ (Or.inr (Or.inl rfl)))
      rw [parseItems, hp]
      simp only []
      rw [skipSpace_cons _ _ (by decide)]
      simp only []
      rw [if_neg (by decide)]
      simp only [if_true]
    | cons y r2 =>
      rw [textItems_cons_cons] at hf ⊢
      rw [List.append_assoc] at hf ⊢
      rw [List.cons_append] at hf ⊢
      have hp := hx.2 m depth (',' :: (textItems (y :: r2) ++ ']' :: rest)) (by omega) hd
        (Delim_cons _ _ (Or.inl rfl))
      have hrec := ih (by simp) (fun z hz => hall z (List.mem_cons_of_mem _ hz)) m depth rest
        (by
          simp only [List.length_append, List.length_cons] at hf ⊢
          omega) hd
      rw [parseItems, hp]
      simp only []
      rw [skipSpace_cons _ _ (by decide)]
      simp only [if_true]
      rw [hrec]
      rfl

theorem Scannable_array (d : Nat) (items : List Node) (h : ∀ x ∈ items, Scannable d x) :
    Scannable (d + 1) (.array items) := by
  refine ⟨⟨'[', textItems items ++ [']'], by rw [Node.text]; rfl, by decide, by decide⟩, ?_⟩
  intro fuel depth rest hf hd _
  obtain ⟨m, rfl⟩ : ∃ m, fuel = m + 1 := ⟨fuel - 1, by omega⟩
  have hdepth : ¬ (maxNestingDepth ≤ depth) := by omega
  have etext : (Node.array items).text ++ rest = '[' :: (textItems items ++ ']' :: rest) := by
    rw [Node.text]
    simp only [List.cons_append, List.append_assoc, List.singleton_append, List.nil_append]
  rw [etext] at hf ⊢
  rw [parseValue, skipSpace_cons _ _ (by decide)]
  simp only []
  rw [if_neg (by decide)]
  simp only [if_true]
  rw [if_neg hdepth]
  by_cases hne : items = []
  · subst hne
    have e : textItems [] ++ ']' :: rest = ']' :: rest := by rw [textItems]; rfl
    rw [e, skipSpace_cons _ _ (by decide)]
    simp only [if_true]
  · obtain ⟨c, t, ht, h1, h2⟩ := textItems_head d items hne h
    have hrec := parseItems_text d items hne h m (depth + 1) rest
      (by simp only [List.length_cons] at hf; omega) (by omega)
    rw [ht] at hrec ⊢
    rw [List.cons_append] at hrec ⊢
    rw [skipSpace_cons _ _ h1]
    simp only []
    rw [if_neg h2, hrec]
    rfl

theorem textMembers_cons_cons (k : GoString) (x : Node) (y : GoString × Node)
    (r : List (GoString × Node)) :
    textMembers ((k, x) :: y :: r)
      = MarshalString k ++ ':' :: x.text ++ ',' :: textMembers (y :: r) := by
  rw [textMembers]

theorem textMembers_head (ms : List (GoString × Node)) (hne : ms ≠ []) :
    ∃ t, textMembers ms = dq :: t := by
  cases ms with
  | nil => exact absurd rfl hne
  | cons m r =>
    obtain ⟨k, x⟩ := m
    cases r with
    | nil => exact ⟨_, by rw [textMembers]; rfl⟩
    | cons y r2 => exact ⟨_, by rw [textMembers_cons_cons]; rfl⟩

theorem parseMembers_key (f depth : Nat) (k : GoString) (tail : GoString) :
    parseMembers (f + 1) depth (MarshalString k ++ ':' :: tail)
      = match parseValue f depth tail with
        | none => none
        | some (x, rest3) =>
          match skipSpace rest3 with
          | [] => none
          | g :: rest4 =>
            if g = ',' then
              (parseMembers f depth rest4).map (fun r => ((k, x) :: r.1, r.2))
            else if g = '}' then some ([(k, x)], rest4)
            else none := by
  have e : MarshalString k ++ ':' :: tail
      = dq :: (k.flatMap escapeChar ++ dq :: (':' :: tail)) := by
    unfold MarshalString
    simp only [List.singleton_append, List.cons_append, List.append_assoc, List.nil_append]
  have hs := scanString_escaped k (':' :: tail)
    ((k.flatMap escapeChar ++ dq :: (':' :: tail)).length + 1)
    (by
      have := length_le_escaped k
      simp only [List.length_append, List.length_cons]
      omega)
  have hu : unquote (dq :: (k.flatMap escapeChar ++ [dq])) = some k := unquote_MarshalString k
  rw [e, parseMembers, skipSpace_cons _ _ (by decide)]
  simp only [if_true]
  rw [hs]
  simp only []
  rw [hu]
  simp only []
  rw [skipSpace_cons _ _ (by decide)]
  simp only [if_true]

theorem parseMembers_text (d : Nat) : ∀ (ms : List (GoString × Node)), ms ≠ [] →
    (∀ m ∈ ms, Scannable d m.2) →
    ∀ fuel depth rest, 2 * (textMembers ms ++ '}' :: rest).length + 2 ≤ fuel →
      depth + d ≤ maxNestingDepth →
      parseMembers fuel depth (textMembers ms ++ '}' :: rest) = some (ms, rest) := by
  intro ms
  induction ms with
  | nil => intro h; exact absurd rfl h
  | cons m r ih =>
    obtain ⟨k, x⟩ := m
    intro _ hall fuel depth rest hf hd
    obtain ⟨f, rfl⟩ : ∃ f, fuel = f + 1 := ⟨fuel - 1, by omega⟩
    have hx : Scannable d x := hall (k, x) (List.mem_cons_self _ _)
    cases r with
    | nil =>
      have e : textMembers [(k, x)] ++ '}' :: rest
          = MarshalString k ++ ':' :: (x.text ++ '}' :: rest) := by
        rw [textMembers]
        simp only [List.append_assoc, List.cons_append]
      rw [e] at hf ⊢
      have hp := hx.2 f depth ('}' :: rest)
        (by simp only [List.length_append, List.length_cons] at hf ⊢; omega) hd
        (Delim_cons _ _ (Or.inr (Or.inr (Or.inl rfl))))
      rw [parseMembers_key, hp]
      simp only []
      rw [skipSpace_cons _ _ (by decide)]
      simp only []
      rw [if_neg (by decide)]
      simp only [if_true]
    | cons y r2 =>
      have e : textMembers ((k, x) :: y :: r2) ++ '}' :: rest
          = MarshalString k ++ ':' :: (x.text ++ ',' :: (textMembers (y :: r2) ++ '}' :: rest)) := by
        rw [textMembers_cons_cons]
        simp only [List.append_assoc, List.cons_append]
      rw [e] at hf ⊢
      have hp := hx.2 f depth (',' :: (textMembers (y :: r2) ++ '}' :: rest))
        (by simp only [List.length_append, List.length_cons] at hf ⊢; omega) hd
        (Delim_cons _ _ (Or.inl rfl))
      have hrec := ih (by simp) (fun z hz => hall z (List.mem_cons_of_mem _ hz)) f depth rest
        (by simp only [List.length_append, List.length_cons] at hf ⊢; omega) hd
      rw [parseMembers_key, hp]
      simp only []
      rw [skipSpace_cons _ _ (by decide)]
      simp only [if_true]
      rw [hrec]
      rfl

theorem Scannable_object (d : Nat) (ms : List (GoString × Node))
    (h : ∀ m ∈ ms, Scannable d m.2) : Scannable (d + 1) (.object ms) := by
  refine ⟨⟨'{', textMembers ms ++ ['}'], by rw [Node.text]; rfl, by decide, by decide⟩, ?_⟩
  intro fuel depth rest hf hd _
  obtain ⟨f, rfl⟩ : ∃ f, fuel = f + 1 := ⟨fuel - 1, by omega⟩
  have hdepth : ¬ (maxNestingDepth ≤ depth) := by omega
  have etext : (Node.object ms).text ++ rest = '{' :: (textMembers ms ++ '}' :: rest) := by
    rw [Node.text]
    simp only [List.cons_append, List.append_assoc, List.singleton_append, List.nil_append]
  rw [etext] at hf ⊢
  rw [parseValue, skipSpace_cons _ _ (by decide)]
  simp only [if_true]
  rw [if_neg hdepth]
  by_cases hne : ms = []
  · subst hne
    have e : textMembers [] ++ '}' :: rest = '}' :: rest := by rw [textMembers]; rfl
    rw [e, skipSpace_cons _ _ (by decide)]
    simp only [if_true]
  · obtain ⟨t, ht⟩ := textMembers_head ms hne
    have hrec := parseMembers_text d ms hne h f (depth + 1) rest
      (by simp only [List.length_cons] at hf; omega) (by omega)
    rw [ht] at hrec ⊢
    rw [List.cons_append] at hrec ⊢
    rw [skipSpace_cons _ _ (by decide)]
    simp only []
    rw [if_neg (by decide), hrec]
    rfl

theorem scan_text (d : Nat) (n : Node) (trailing : GoString) (h : Scannable d n)
    (hd : d ≤ maxNestingDepth) (ht : skipSpace trailing = []) :
    scan (n.text ++ trailing) = some n := by
  unfold scan
  rw [h.2 _ 0 trailing (by omega) (by omega) (Delim_of_skipSpace trailing ht)]
  simp only [ht, if_true]

theorem storeString_of_Encodes (v s : GoString) (n : Node) (saved : Option StdError)
    (h : EncodesString s n) : storeString v n saved = (s, saved) := by
  obtain ⟨body, rfl, -, hu⟩ := h
  unfold storeString
  have hn : ¬ (dq = 'n') := by decide
  simp only [if_neg hn, if_true, hu]

theorem storeStringItem_of_Encodes (v s : GoString) (n : Node) (saved : Option StdError)
    (h : EncodesString s n) : storeStringItem v n saved = (s, saved, none) := by
  unfold storeStringItem
  rw [storeString_of_Encodes v s n saved h]

theorem storeInt_of_Encodes (v i : Int) (n : Node) (saved : Option StdError)
    (hi : fitsInt i) (h : EncodesInt i n) : storeInt v n saved = (i, saved) := by
  unfold EncodesInt at h
  rw [h]
  exact storeInt_encode v i saved hi

theorem decodeItems_encoded {T : Type} (zero : T)
    (store : T → Node → Option StdError → T × Option StdError × Option StdError)
    (enc : T → Node → Prop) (h : ∀ v u x s, enc u x → store v x s = (u, s, none)) :
    ∀ (us : List T) (items : List Node), List.Forall₂ enc us items →
      ∀ (v : List T) (saved : Option StdError),
        decodeItems zero store items v saved = (us, saved, none) := by
  intro us items hf
  induction hf with
  | nil => intro v saved; rfl
  | cons hx _ ih =>
    intro v saved
    simp only [decodeItems, h _ _ _ _ hx, ih]

theorem storeSlice_of_Encodes {T : Type} (zero : T)
    (store : T → Node → Option StdError → T × Option StdError × Option StdError)
    (enc : T → Node → Prop) (h : ∀ v u x s, enc u x → store v x s = (u, s, none))
    (us v : List T) (n : Node) (saved : Option StdError) (hs : EncodesSlice enc us n) :
    storeSlice zero store v n saved = (us, saved, none) := by
  rcases hs with ⟨rfl, rfl⟩ | ⟨items, rfl, hf⟩
  · rfl
  · unfold storeSlice
    exact decodeItems_encoded zero store enc h us items hf v saved

theorem storeStruct_of_EncodesURI (v u : Endoflife.URI) (n : Node) (saved : Option StdError)
    (h : EncodesURI u n) : storeStruct uriFields URI.store v n saved = (u, saved, none) := by
  obtain ⟨a, b, rfl, ha, hb⟩ := h
  have l1 : lookupField uriFields "name".toList = some .name := by decide
  have l2 : lookupField uriFields "uri".toList = some .uri := by decide
  have sa := fun (w : GoString) (s : Option StdError) => storeString_of_Encodes w u.Name a s ha
  have sb := fun (w : GoString) (s : Option StdError) => storeString_of_Encodes w u.URI b s hb
  unfold storeStruct
  simp only [decodeMembers, l1, l2, URI.store, sa, sb]

theorem storeStruct_of_EncodesSummary (v p : ProductSummary) (n : Node)
    (saved : Option StdError) (h : EncodesSummary p n) :
    storeStruct summaryFields ProductSummary.store v n saved = (p, saved, none) := by
  obtain ⟨a, b, c, d, e, f, rfl, ha, hb, hc, hd, he, hf⟩ := h
  have l1 : lookupField summaryFields "name".toList = some .name := by decide
  have l2 : lookupField summaryFields "label".toList = some .label := by decide
  have l3 : lookupField summaryFields "aliases".toList = some .aliases := by decide
  have l4 : lookupField summaryFields "category".toList = some .category := by decide
  have l5 : lookupField summaryFields "tags".toList = some .tags := by decide
  have l6 : lookupField summaryFields "uri".toList = some .uri := by decide
  have sa := fun (w : GoString) (s : Option StdError) => storeString_of_Encodes w p.Name a s ha
  have sb := fun (w : GoString) (s : Option StdError) => storeString_of_Encodes w p.Label b s hb
  have sc := fun (w : List GoString) (s : Option StdError) =>
    storeSlice_of_Encodes [] storeStringItem EncodesString storeStringItem_of_Encodes
      p.Aliases w c s hc
  have sd := fun (w : GoString) (s : Option StdError) =>
    storeString_of_Encodes w p.Category d s hd
  have se := fun (w : List GoString) (s : Option StdError) =>
    storeSlice_of_Encodes [] storeStringItem EncodesString storeStringItem_of_Encodes
      p.Tags w e s he
  have sf := fun (w : GoString) (s : Option StdError) => storeString_of_Encodes w p.URI f s hf
  unfold storeStruct
  simp only [decodeMembers, l1, l2, l3, l4, l5, l6, ProductSummary.store, sa, sb, sc, sd, se, sf]

theorem storeStruct_of_EncodesMapping (v m : IdentifierMapping) (n : Node)
    (saved : Option StdError) (h : EncodesMapping m n) :
    storeStruct mappingFields IdentifierMapping.store v n saved = (m, saved, none) := by
  obtain ⟨a, b, rfl, ha, hb⟩ := h
  have l1 : lookupField mappingFields "identifier".toList = some .identifier := by decide
  have l2 : lookupField mappingFields "product".toList = some .product := by decide
  have sa := fun (w : GoString) (s : Option StdError) =>
    storeString_of_Encodes w m.Identifier a s ha
  have sb := fun (w : Endoflife.URI) (s : Option StdError) =>
    storeStruct_of_EncodesURI w m.Product b s hb
  unfold storeStruct
  simp only [decodeMembers, l1, l2, IdentifierMapping.store, sa, sb]

theorem URIListResponse_Unmarshal_of_Encodes (v : URIListResponse) (n : Node)
    (hv : fitsInt v.Total) (h : EncodesURIList v n) :
    URIListResponse.Unmarshal n URIListResponse.zero = (v, none) := by
  obtain ⟨a, g, t, r, rfl, ha, hg, ht, hr⟩ := h
  have l1 : lookupField uriListFields "schema_version".toList = some .schemaVersion := by decide
  have l2 : lookupField uriListFields "generated_at".toList = some .generatedAt := by decide
  have l3 : lookupField uriListFields "total".toList = some .total := by decide
  have l4 : lookupField uriListFields "result".toList = some .result := by decide
  have sa := fun (w : GoString) (s : Option StdError) =>
    storeString_of_Encodes w v.SchemaVersion a s ha
  have st := fun (w : Int) (s : Option StdError) => storeInt_of_Encodes w v.Total t s hv ht
  have sr := fun (w : List Endoflife.URI) (s : Option StdError) =>
    storeSlice_of_Encodes URI.zero (storeStruct uriFields URI.store) EncodesURI
      storeStruct_of_EncodesURI v.Result w r s hr
  obtain ⟨sv, ga, total, result⟩ := v
  unfold URIListResponse.Unmarshal storeStruct
  rcases hg with ⟨hga, rfl⟩ | ⟨-, x, rfl, hx⟩
  · simp only at hga
    subst hga
    simp only [List.append_nil, List.singleton_append, decodeMembers, l1, l3, l4,
      URIListResponse.store, sa, st, sr, unmarshalResult, URIListResponse.zero]
  · have sx := fun (w : GoString) (s : Option StdError) => storeString_of_Encodes w ga x s hx
    simp only [List.singleton_append, List.cons_append, List.nil_append, decodeMembers,
      l1, l2, l3, l4, URIListResponse.store, sa, st, sr, sx, unmarshalResult,
      URIListResponse.zero]

theorem ProductListResponse_Unmarshal_of_Encodes (v : ProductListResponse) (n : Node)
    (hv : fitsInt v.Total) (h : EncodesProductList v n) :
    ProductListResponse.Unmarshal n ProductListResponse.zero = (v, none) := by
  obtain ⟨a, g, t, r, rfl, ha, hg, ht, hr⟩ := h
  have l1 : lookupField uriListFields "schema_version".toList = some .schemaVersion := by decide
  have l2 : lookupField uriListFields "generated_at".toList = some .generatedAt := by decide
  have l3 : lookupField uriListFields "total".toList = some .total := by decide
  have l4 : lookupField uriListFields "result".toList = some .result := by decide
  have sa := fun (w : GoString) (s : Option StdError) =>
    storeString_of_Encodes w v.SchemaVersion a s ha
  have st := fun (w : Int) (s : Option StdError) => storeInt_of_Encodes w v.Total t s hv ht
  have sr := fun (w : List ProductSummary) (s : Option StdError) =>
    storeSlice_of_Encodes ProductSummary.zero (storeStruct summaryFields ProductSummary.store)
      EncodesSummary storeStruct_of_EncodesSummary v.Result w r s hr
  obtain ⟨sv, ga, total, result⟩ := v
  unfold ProductListResponse.Unmarshal storeStruct
  rcases hg with ⟨hga, rfl⟩ | ⟨-, x, rfl, hx⟩
  · simp only at hga
    subst hga
    simp only [List.append_nil, List.singleton_append, decodeMembers, l1, l3, l4,
      ProductListResponse.store, sa, st, sr, unmarshalResult, ProductListResponse.zero]
  · have sx := fun (w : GoString) (s : Option StdError) => storeString_of_Encodes w ga x s hx
    simp only [List.singleton_append, List.cons_append, List.nil_append, decodeMembers,
      l1, l2, l3, l4, ProductListResponse.store, sa, st, sr, sx, unmarshalResult,
      ProductListResponse.zero]

theorem IdentifierListResponse_Unmarshal_of_Encodes (v : IdentifierListResponse) (n : Node)
    (hv : fitsInt v.Total) (h : EncodesIdentifierList v n) :
    IdentifierListResponse.Unmarshal n IdentifierListResponse.zero = (v, none) := by
  obtain ⟨a, g, t, r, rfl, ha, hg, ht, hr⟩ := h
  have l1 : lookupField uriListFields "schema_version".toList = some .schemaVersion := by decide
  have l2 : lookupField uriListFields "generated_at".toList = some .generatedAt := by decide
  have l3 : lookupField uriListFields "total".toList = some .total := by decide
  have l4 : lookupField uriListFields "result".toList = some .result := by decide
  have sa := fun (w : GoString) (s : Option StdError) =>
    storeString_of_Encodes w v.SchemaVersion a s ha
  have st := fun (w : Int) (s : Option StdError) => storeInt_of_Encodes w v.Total t s hv ht
  have sr := fun (w : List IdentifierMapping) (s : Option StdError) =>
    storeSlice_of_Encodes IdentifierMapping.zero
      (storeStruct mappingFields IdentifierMapping.store)
      EncodesMapping storeStruct_of_EncodesMapping v.Result w r s hr
  obtain ⟨sv, ga, total, result⟩ := v
  unfold IdentifierListResponse.Unmarshal storeStruct
  rcases hg with ⟨hga, rfl⟩ | ⟨-, x, rfl, hx⟩
  · simp only at hga
    subst hga
    simp only [List.append_nil, List.singleton_append, decodeMembers, l1, l3, l4,
      IdentifierListResponse.store, sa, st, sr, unmarshalResult, IdentifierListResponse.zero]
  · have sx := fun (w : GoString) (s : Option StdError) => storeString_of_Encodes w ga x s hx
    simp only [List.singleton_append, List.cons_append, List.nil_append, decodeMembers,
      l1, l2, l3, l4, IdentifierListResponse.store, sa, st, sr, sx, unmarshalResult,
      IdentifierListResponse.zero]

theorem Forall₂_right {T : Type} (enc : T → Node → Prop) (us : List T) (items : List Node)
    (h : List.Forall₂ enc us items) : ∀ x ∈ items, ∃ u, enc u x := by
  induction h with
  | nil => intro x hx; simp at hx
  | cons hx _ ih =>
    intro y hy
    rcases List.mem_cons.1 hy with rfl | hy
    · exact ⟨_, hx⟩
    · exact ih y hy

theorem Scannable_slice {T : Type} (d : Nat) (enc : T → Node → Prop)
    (h : ∀ u x, enc u x → Scannable d x) (us : List T) (n : Node)
    (hs : EncodesSlice enc us n) : Scannable (d + 1) n := by
  rcases hs with ⟨-, rfl⟩ | ⟨items, rfl, hf⟩
  · exact Scannable_mono 0 (d + 1) _ Scannable_null (by omega)
  · apply Scannable_array
    intro x hx
    obtain ⟨u, hu⟩ := Forall₂_right enc us items hf x hx
    exact h u x hu

theorem Scannable_URI (u : Endoflife.URI) (n : Node) (h : EncodesURI u n) : Scannable 1 n := by
  obtain ⟨a, b, rfl, ha, hb⟩ := h
  apply Scannable_object 0
  intro m hm
  simp only [List.mem_cons, List.mem_singleton, List.not_mem_nil, or_false] at hm
  rcases hm with rfl | rfl
  · exact Scannable_string _ _ ha
  · exact Scannable_string _ _ hb

theorem Scannable_Summary (p : ProductSummary) (n : Node) (h : EncodesSummary p n) :
    Scannable 2 n := by
  obtain ⟨a, b, c, d, e, f, rfl, ha, hb, hc, hd, he, hf⟩ := h
  have hstr : ∀ (s : GoString) (x : Node), EncodesString s x → Scannable 1 x :=
    fun s x hx => Scannable_mono 0 1 x (Scannable_string s x hx) (by omega)
  have hsl : ∀ (v : List GoString) (x : Node), EncodesSlice EncodesString v x → Scannable 1 x :=
    fun v x hx => Scannable_slice 0 EncodesString Scannable_string v x hx
  apply Scannable_object 1
  intro m hm
  simp only [List.mem_cons, List.mem_singleton, List.not_mem_nil, or_false] at hm
  rcases hm with rfl | rfl | rfl | rfl | rfl | rfl
  · exact hstr _ _ ha
  · exact hstr _ _ hb
  · exact hsl _ _ hc
  · exact hstr _ _ hd
  · exact hsl _ _ he
  · exact hstr _ _ hf

theorem Scannable_Mapping (m : IdentifierMapping) (n : Node) (h : EncodesMapping m n) :
    Scannable 2 n := by
  obtain ⟨a, b, rfl, ha, hb⟩ := h
  apply Scannable_object 1
  intro x hx
  simp only [List.mem_cons, List.mem_singleton, List.not_mem_nil, or_false] at hx
  rcases hx with rfl | rfl
  · exact Scannable_mono 0 1 _ (Scannable_string _ _ ha) (by omega)
  · exact Scannable_URI _ _ hb

theorem Scannable_List {T : Type} (d : Nat) (enc : T → Node → Prop)
    (h : ∀ u x, enc u x → Scannable d x) (sv ga : GoString) (total : Int) (result : List T)
    (n : Node) (hn : EncodesList enc sv ga total result n) : Scannable (d + 2) n := by
  obtain ⟨a, g, t, r, rfl, ha, hg, ht, hr⟩ := hn
  have h1 : Scannable (d + 1) a := Scannable_mono 0 _ _ (Scannable_string _ _ ha) (by omega)
  have h3 : Scannable (d + 1) t := by
    unfold EncodesInt at ht
    rw [ht]
    exact Scannable_mono 0 _ _ (Scannable_int total) (by omega)
  have h4 : Scannable (d + 1) r := Scannable_slice d enc h result r hr
  apply Scannable_object (d + 1)
  intro m hm
  rcases hg with ⟨-, rfl⟩ | ⟨-, x, rfl, hx⟩
  · simp only [List.append_nil, List.singleton_append, List.mem_cons, List.mem_singleton,
      List.not_mem_nil, or_false] at hm
    rcases hm with rfl | rfl | rfl
    · exact h1
    · exact h3
    · exact h4
  · simp only [List.singleton_append, List.cons_append, List.nil_append, List.mem_cons,
      List.mem_singleton, List.not_mem_nil, or_false] at hm
    rcases hm with rfl | rfl | rfl | rfl
    · exact h1
    · exact Scannable_mono 0 _ _ (Scannable_string _ _ hx) (by omega)
    · exact h3
    · exact h4

theorem EncodesSlice_encode {T : Type} (enc : T → Node → Prop) (f : T → Node)
    (h : ∀ u, enc u (f u)) (v : List T) : EncodesSlice enc v (encodeSlice f v) := by
  cases v with
  | nil => exact Or.inl ⟨rfl, rfl⟩
  | cons u r =>
    refine Or.inr ⟨(u :: r).map f, rfl, ?_⟩
    generalize u :: r = l
    induction l with
    | nil => exact List.Forall₂.nil
    | cons x xs ih => exact List.Forall₂.cons (h x) ih

theorem EncodesOmitEmpty_encode (key : String) (s : GoString) :
    EncodesOmitEmpty key s (omitEmptyString key s) := by
  unfold omitEmptyString
  by_cases hs : s = []
  · rw [if_pos hs]; exact Or.inl ⟨hs, rfl⟩
  · rw [if_neg hs]; exact Or.inr ⟨hs, _, rfl, EncodesString_encode s⟩

theorem EncodesURI_encode (u : Endoflife.URI) : EncodesURI u u.encode :=
  ⟨_, _, rfl, EncodesString_encode _, EncodesString_encode _⟩

theorem EncodesSummary_encode (p : ProductSummary) : EncodesSummary p p.encode :=
  ⟨_, _, _, _, _, _, rfl, EncodesString_encode _, EncodesString_encode _,
    EncodesSlice_encode _ _ EncodesString_encode _, EncodesString_encode _,
    EncodesSlice_encode _ _ EncodesString_encode _, EncodesString_encode _⟩

theorem EncodesMapping_encode (m : IdentifierMapping) : EncodesMapping m m.encode :=
  ⟨_, _, rfl, EncodesString_encode _, EncodesURI_encode _⟩

theorem EncodesURIList_encode (v : URIListResponse) : EncodesURIList v v.encode :=
  ⟨_, _, _, _, rfl, EncodesString_encode _, EncodesOmitEmpty_encode _ _, rfl,
    EncodesSlice_encode _ _ EncodesURI_encode _⟩

theorem EncodesProductList_encode (v : ProductListResponse) : EncodesProductList v v.encode :=
  ⟨_, _, _, _, rfl, EncodesString_encode _, EncodesOmitEmpty_encode _ _, rfl,
    EncodesSlice_encode _ _ EncodesSummary_encode _⟩

theorem EncodesIdentifierList_encode (v : IdentifierListResponse) :
    EncodesIdentifierList v v.encode :=
  ⟨_, _, _, _, rfl, EncodesString_encode _, EncodesOmitEmpty_encode _ _, rfl,
    EncodesSlice_encode _ _ EncodesMapping_encode _⟩

theorem doRequest_of_Serves {R : Type} (c : Client) (env : Env R) (ctx : GoHTTP.Context)
    (path : GoString) (decode : Node → R → R × Option StdError) (n : Node) (zero v : R)
    (d : Nat) (hs : c.Serves env ctx path decode n) (hscan : Scannable d n)
    (hd : d ≤ maxNestingDepth) (hdec : decode n zero = (v, none)) :
    c.doRequest env ctx MethodGet path zero = (v, none) := by
  obtain ⟨henv, resp, trailing, hrecv, hstatus, hbody, htr⟩ := hs
  rw [doRequest_of_response c env ctx MethodGet path zero resp hrecv,
    handleHTTPError_success c resp (Or.inl hstatus), hbody]
  simp only []
  rw [henv]
  unfold GoJSON.Unmarshal
  rw [scan_text d n trailing hscan hd htr]
  simp only []
  rw [hdec]

theorem maxNestingDepth_ge : 4 ≤ maxNestingDepth := by
  unfold maxNestingDepth
  omega

theorem URIList_served (c : Client) (env : Env URIListResponse) (ctx : GoHTTP.Context)
    (path : GoString) (v : URIListResponse) (n : Node) (hv : fitsInt v.Total)
    (h : EncodesURIList v n) (hs : c.Serves env ctx path URIListResponse.Unmarshal n) :
    c.doRequest env ctx MethodGet path URIListResponse.zero = (v, none) :=
  doRequest_of_Serves c env ctx path _ n _ v 3 hs
    (Scannable_List 1 EncodesURI Scannable_URI _ _ _ _ n h)
    (by have := maxNestingDepth_ge; omega)
    (URIListResponse_Unmarshal_of_Encodes v n hv h)

theorem ProductList_served (c : Client) (env : Env ProductListResponse) (ctx : GoHTTP.Context)
    (path : GoString) (v : ProductListResponse) (n : Node) (hv : fitsInt v.Total)
    (h : EncodesProductList v n) (hs : c.Serves env ctx path ProductListResponse.Unmarshal n) :
    c.doRequest env ctx MethodGet path ProductListResponse.zero = (v, none) :=
  doRequest_of_Serves c env ctx path _ n _ v 4 hs
    (Scannable_List 2 EncodesSummary Scannable_Summary _ _ _ _ n h)
    (by have := maxNestingDepth_ge; omega)
    (ProductListResponse_Unmarshal_of_Encodes v n hv h)

theorem IdentifierList_served (c : Client) (env : Env IdentifierListResponse) (ctx : GoHTTP.Context)
    (path : GoString) (v : IdentifierListResponse) (n : Node) (hv : fitsInt v.Total)
    (h : EncodesIdentifierList v n)
    (hs : c.Serves env ctx path IdentifierListResponse.Unmarshal n) :
    c.doRequest env ctx MethodGet path IdentifierListResponse.zero = (v, none) :=
  doRequest_of_Serves c env ctx path _ n _ v 4 hs
    (Scannable_List 2 EncodesMapping Scannable_Mapping _ _ _ _ n h)
    (by have := maxNestingDepth_ge; omega)
    (IdentifierListResponse_Unmarshal_of_Encodes v n hv h)

end DecodeLemmas

/-! ## The claims on the Date type -/

section DateClaims

open GoTime GoJSON

/-- Claim C1 fails as stated: `0001-01-01` is a valid calendar date, `UnmarshalJSON` decodes
its JSON string literal without error, and `String` of the decoded value is the empty
string, not `0001-01-01`: the date is the zero time, which stands for absence. -/
theorem C1_counterexample_year_one :
    validDate "0001-01-01".toList = true ∧
    (Date.zero.UnmarshalJSON (jsonLiteral "0001-01-01".toList)).2 = none ∧
    (Date.zero.UnmarshalJSON (jsonLiteral "0001-01-01".toList)).1.String = [] ∧
    (Date.zero.UnmarshalJSON (jsonLiteral "0001-01-01".toList)).1.String ≠ "0001-01-01".toList := by
  decide

/-- Claim C1, amended: for every valid calendar date `s` written YYYY-MM-DD other than
`0001-01-01`, `UnmarshalJSON` on the JSON string literal of `s` succeeds and `String` of the
decoded value is exactly `s`. -/
theorem C1_unmarshal_string_roundtrip (d : Date) (s : GoString) (hv : validDate s = true)
    (hne : s ≠ "0001-01-01".toList) :
    (d.UnmarshalJSON (jsonLiteral s)).2 = none ∧
    (d.UnmarshalJSON (jsonLiteral s)).1.String = s := by
  obtain ⟨t, ht, hf⟩ := UnmarshalJSON_valid d s hv
  rw [ht]
  refine ⟨rfl, ?_⟩
  unfold Date.String
  cases hz : t.IsZero
  · simpa using hf
  · exfalso
    apply hne
    rw [← hf, Time_eq_zero_of_IsZero t hz, Format_zero]
    rfl

/-- Witness for C1: the date `2024-01-15`. -/
theorem C1_unmarshal_string_roundtrip_witness :
    validDate "2024-01-15".toList = true ∧ "2024-01-15".toList ≠ "0001-01-01".toList ∧
    (Date.zero.UnmarshalJSON (jsonLiteral "2024-01-15".toList)).2 = none ∧
    (Date.zero.UnmarshalJSON (jsonLiteral "2024-01-15".toList)).1.String = "2024-01-15".toList :=
  ⟨by decide, by decide,
    C1_unmarshal_string_roundtrip Date.zero "2024-01-15".toList (by decide) (by decide)⟩

/-- Claim C2 fails as stated, twice.  The literal of the valid date `0001-01-01` decodes to the
zero time, which `MarshalJSON` writes as `null`.  The literal that writes the first digit of
`2024-01-15` as a `\u` escape has a valid date as content, and `MarshalJSON` of the decoded
value gives the literal without the escape, not the input bytes. -/
theorem C2_counterexample_year_one_and_escape :
    (validDate "0001-01-01".toList = true ∧
      UnmarshalString (jsonLiteral "0001-01-01".toList) = .ok (some "0001-01-01".toList) ∧
      (Date.zero.UnmarshalJSON (jsonLiteral "0001-01-01".toList)).2 = none ∧
      (Date.zero.UnmarshalJSON (jsonLiteral "0001-01-01".toList)).1.MarshalJSON
        = ("null".toList, none) ∧
      "null".toList ≠ jsonLiteral "0001-01-01".toList) ∧
    (validDate "2024-01-15".toList = true ∧
      UnmarshalString "\"\\u0032024-01-15\"".toList = .ok (some "2024-01-15".toList) ∧
      (Date.zero.UnmarshalJSON "\"\\u0032024-01-15\"".toList).2 = none ∧
      (Date.zero.UnmarshalJSON "\"\\u0032024-01-15\"".toList).1.MarshalJSON
        = ("\"2024-01-15\"".toList, none) ∧
      "\"2024-01-15\"".toList ≠ "\"\\u0032024-01-15\"".toList) :=
  ⟨⟨by decide, rfl, by decide, by decide, by decide⟩,
    ⟨by decide, rfl, by decide, by decide, by decide⟩⟩

/-- Claim C2, amended: for every valid calendar date `s` written YYYY-MM-DD other than
`0001-01-01`, with `x` the JSON string literal that writes `s` without escapes,
`UnmarshalJSON` on `x` succeeds and `MarshalJSON` of the decoded value succeeds and returns
exactly `x`. -/
theorem C2_marshal_unmarshal_roundtrip (d : Date) (s : GoString) (hv : validDate s = true)
    (hne : s ≠ "0001-01-01".toList) :
    (d.UnmarshalJSON (jsonLiteral s)).2 = none ∧
    (d.UnmarshalJSON (jsonLiteral s)).1.MarshalJSON = (jsonLiteral s, none) := by
  obtain ⟨t, ht, hf⟩ := UnmarshalJSON_valid d s hv
  rw [ht]
  refine ⟨rfl, ?_⟩
  unfold Date.MarshalJSON
  cases hz : t.IsZero
  · simp only [Bool.false_eq_true, if_false, hf, MarshalString, jsonLiteral,
      flatMap_escapeChar s (validDate_plain s hv)]
  · exfalso
    apply hne
    rw [← hf, Time_eq_zero_of_IsZero t hz, Format_zero]
    rfl

/-- Witness for C2: the literal of `2024-01-15`. -/
theorem C2_marshal_unmarshal_roundtrip_witness :
    validDate "2024-01-15".toList = true ∧ "2024-01-15".toList ≠ "0001-01-01".toList ∧
    (Date.zero.UnmarshalJSON (jsonLiteral "2024-01-15".toList)).2 = none ∧
    (Date.zero.UnmarshalJSON (jsonLiteral "2024-01-15".toList)).1.MarshalJSON
      = (jsonLiteral "2024-01-15".toList, none) :=
  ⟨by decide, by decide,
    C2_marshal_unmarshal_roundtrip Date.zero "2024-01-15".toList (by decide) (by decide)⟩

/-- Claim C3: `UnmarshalJSON` succeeds on `null` and on the empty string literal and both leave
the receiver in the zero state whatever it held before; `MarshalJSON` of the zero `Date`
returns `null` and `String` of it returns the empty string. -/
theorem C3_null_and_empty_are_absent (d : Date) :
    d.UnmarshalJSON "null".toList = (Date.zero, none) ∧
    d.UnmarshalJSON "\"\"".toList = (Date.zero, none) ∧
    Date.zero.MarshalJSON = ("null".toList, none) ∧
    Date.zero.String = [] := by
  refine ⟨?_, ?_, by decide, by decide⟩
  · have h : UnmarshalString "null".toList = .ok none := rfl
    unfold Date.UnmarshalJSON
    rw [h]
    rfl
  · have h : UnmarshalString "\"\"".toList = .ok (some []) := rfl
    unfold Date.UnmarshalJSON
    rw [h]
    rfl

/-- Claim C4 fails as stated: the JSON string whose content is `a"b` is rejected with a parse
error, but the message of that error holds the content with the double quote escaped and
does not contain `a"b`. -/
theorem C4_counterexample_quoted_input :
    UnmarshalString "\"a\\\"b\"".toList = .ok (some "a\"b".toList) ∧
    "a\"b".toList ≠ [] ∧ validDate "a\"b".toList = false ∧
    (Date.zero.UnmarshalJSON "\"a\\\"b\"".toList).2
      = some (.timeParse ⟨layout, "a\"b".toList, "2006".toList, "a\"b".toList, []⟩) ∧
    ¬ Contains (ParseError.Error ⟨layout, "a\"b".toList, "2006".toList, "a\"b".toList, []⟩)
      "a\"b".toList :=
  ⟨rfl, by decide, by decide, by decide, by decide⟩

/-- Claim C4, amended: for every JSON input that decodes to a string `s` which is not empty and
is not a valid calendar date written YYYY-MM-DD, `UnmarshalJSON` leaves the receiver as it
was and returns a `time.ParseError` for the value `s`; the message of the error contains
`s` in quoted form, and contains `s` itself when `s` is printable ASCII without double quote
and backslash. -/
theorem C4_invalid_date_is_parse_error (d : Date) (data s : GoString)
    (hdata : UnmarshalString data = .ok (some s)) (hne : s ≠ [])
    (hinv : validDate s = false) :
    ∃ e : ParseError, d.UnmarshalJSON data = (d, some (.timeParse e)) ∧ e.Value = s ∧
      Contains e.Error (quote s) ∧ (plainASCII s = true → Contains e.Error s) := by
  unfold Date.UnmarshalJSON
  rw [hdata]
  simp only [reduceCtorEq, Option.some.injEq, hne, or_self, if_false, Option.getD_some]
  cases hp : Parse s with
  | ok t =>
    have := Parse_ok_validDate s t hp
    rw [this] at hinv
    exact absurd hinv (by simp)
  | error e =>
    have hv := Parse_error_value s e hp
    refine ⟨e, rfl, hv, ?_, ?_⟩
    · rw [← hv]; exact Contains_quote_Error e
    · intro hpl
      apply Contains_of_quote _ _ _ hpl
      rw [← hv]; exact Contains_quote_Error e

/-- Witness for C4: the input `15-01-2024`, with the fields in the wrong order. -/
theorem C4_invalid_date_is_parse_error_witness :
    UnmarshalString "\"15-01-2024\"".toList = .ok (some "15-01-2024".toList) ∧
    "15-01-2024".toList ≠ [] ∧ validDate "15-01-2024".toList = false ∧
    ∃ e : ParseError,
      Date.zero.UnmarshalJSON "\"15-01-2024\"".toList = (Date.zero, some (.timeParse e)) ∧
        e.Value = "15-01-2024".toList ∧
        Contains e.Error (quote "15-01-2024".toList) ∧
        (plainASCII "15-01-2024".toList = true → Contains e.Error "15-01-2024".toList) :=
  ⟨rfl, by decide, by decide,
    C4_invalid_date_is_parse_error Date.zero "\"15-01-2024\"".toList "15-01-2024".toList rfl
      (by decide) (by decide)⟩

end DateClaims

/-! ## The claims on status classification -/

section ClientClaims

open GoHTTP GoStrconv GoTime

/-- Claim C5: for every response with status 404, whatever its header and body,
`handleHTTPError` returns the `*APIError` with status 404, message `resource not found` and
retry delay 0, on which `IsNotFound` is true; `doRequest` returns that error and leaves the
result alone whenever the call gets the response, and so does each of the twelve endpoint
wrappers, with no result, once its required arguments are not empty. -/
theorem C5_not_found (c : Client) (resp : Response) (h : resp.StatusCode = 404) :
    c.handleHTTPError resp = some (.api ⟨404, "resource not found".toList, 0⟩) ∧
    IsNotFound (c.handleHTTPError resp) = true ∧
    (∀ (R : Type) (env : Env R) (ctx : Context) (method path : GoString) (result : R),
      c.Receives env ctx method path resp →
      c.doRequest env ctx method path result
        = (result, some (.api ⟨404, "resource not found".toList, 0⟩))) ∧
    (∀ env ctx, c.Receives env ctx MethodGet "/".toList resp →
      c.GetIndex env ctx = (none, some (.api ⟨404, "resource not found".toList, 0⟩))) ∧
    (∀ env ctx, c.Receives env ctx MethodGet "/products".toList resp →
      c.GetProducts env ctx = (none, some (.api ⟨404, "resource not found".toList, 0⟩))) ∧
    (∀ env ctx, c.Receives env ctx MethodGet "/products/full".toList resp →
      c.GetProductsFull env ctx = (none, some (.api ⟨404, "resource not found".toList, 0⟩))) ∧
    (∀ env ctx name, name ≠ [] →
      c.Receives env ctx MethodGet ("/products/".toList ++ name) resp →
      c.GetProduct env ctx name = (none, some (.api ⟨404, "resource not found".toList, 0⟩))) ∧
    (∀ env ctx name release, name ≠ [] → release ≠ [] →
      c.Receives env ctx MethodGet
        ("/products/".toList ++ name ++ "/releases/".toList ++ release) resp →
      c.GetRelease env ctx name release
        = (none, some (.api ⟨404, "resource not found".toList, 0⟩))) ∧
    (∀ env ctx name, name ≠ [] →
      c.Receives env ctx MethodGet ("/products/".toList ++ name ++ "/releases/latest".toList) resp →
      c.GetLatestRelease env ctx name
        = (none, some (.api ⟨404, "resource not found".toList, 0⟩))) ∧
    (∀ env ctx, c.Receives env ctx MethodGet "/categories".toList resp →
      c.GetCategories env ctx = (none, some (.api ⟨404, "resource not found".toList, 0⟩))) ∧
    (∀ env ctx name, name ≠ [] →
      c.Receives env ctx MethodGet ("/categories/".toList ++ name) resp →
      c.GetCategoryProducts env ctx name
        = (none, some (.api ⟨404, "resource not found".toList, 0⟩))) ∧
    (∀ env ctx, c.Receives env ctx MethodGet "/tags".toList resp →
      c.GetTags env ctx = (none, some (.api ⟨404, "resource not found".toList, 0⟩))) ∧
    (∀ env ctx name, name ≠ [] →
      c.Receives env ctx MethodGet ("/tags/".toList ++ name) resp →
      c.GetTagProducts env ctx name
        = (none, some (.api ⟨404, "resource not found".toList, 0⟩))) ∧
    (∀ env ctx, c.Receives env ctx MethodGet "/identifiers".toList resp →
      c.GetIdentifiers env ctx = (none, some (.api ⟨404, "resource not found".toList, 0⟩))) ∧
    (∀ env ctx name, name ≠ [] →
      c.Receives env ctx MethodGet ("/identifiers/".toList ++ name) resp →
      c.GetIdentifierDetails env ctx name
        = (none, some (.api ⟨404, "resource not found".toList, 0⟩))) := by
  have h404 := handleHTTPError_404 c resp h
  refine ⟨h404, ?_, ?_, ?_, ?_, ?_, ?_, ?_, ?_, ?_, ?_, ?_, ?_, ?_, ?_⟩
  · rw [h404]; rfl
  · intro R env ctx method path result hr
    exact doRequest_of_status_error c env ctx method path result resp _ hr h404
  · intro env ctx hr
    unfold Client.GetIndex
    rw [doRequest_of_status_error c env ctx _ _ _ resp _ hr h404]; rfl
  · intro env ctx hr
    unfold Client.GetProducts
    rw [doRequest_of_status_error c env ctx _ _ _ resp _ hr h404]; rfl
  · intro env ctx hr
    unfold Client.GetProductsFull
    rw [doRequest_of_status_error c env ctx _ _ _ resp _ hr h404]; rfl
  · intro env ctx name hn hr
    unfold Client.GetProduct
    rw [if_neg hn]
    simp only []
    rw [doRequest_of_status_error c env ctx _ _ _ resp _ hr h404]; rfl
  · intro env ctx name release hn hrel hr
    unfold Client.GetRelease
    rw [if_neg hn, if_neg hrel]
    simp only []
    rw [doRequest_of_status_error c env ctx _ _ _ resp _ hr h404]; rfl
  · intro env ctx name hn hr
    unfold Client.GetLatestRelease
    rw [if_neg hn]
    simp only []
    rw [doRequest_of_status_error c env ctx _ _ _ resp _ hr h404]; rfl
  · intro env ctx hr
    unfold Client.GetCategories
    rw [doRequest_of_status_error c env ctx _ _ _ resp _ hr h404]; rfl
  · intro env ctx name hn hr
    unfold Client.GetCategoryProducts
    rw [if_neg hn]
    simp only []
    rw [doRequest_of_status_error c env ctx _ _ _ resp _ hr h404]; rfl
  · intro env ctx hr
    unfold Client.GetTags
    rw [doRequest_of_status_error c env ctx _ _ _ resp _ hr h404]; rfl
  · intro env ctx name hn hr
    unfold Client.GetTagProducts
    rw [if_neg hn]
    simp only []
    rw [doRequest_of_status_error c env ctx _ _ _ resp _ hr h404]; rfl
  · intro env ctx hr
    unfold Client.GetIdentifiers
    rw [doRequest_of_status_error c env ctx _ _ _ resp _ hr h404]; rfl
  · intro env ctx name hn hr
    unfold Client.GetIdentifierDetails
    rw [if_neg hn]
    simp only []
    rw [doRequest_of_status_error c env ctx _ _ _ resp _ hr h404]; rfl

/-- Witness for C5: the test server that answers 404 with an empty body, asked through
`GetIndex`. -/
theorem C5_not_found_witness :
    (responseOf 404 emptyHeader).StatusCode = 404 ∧
    (setupTestServer (responseOf 404 emptyHeader)).handleHTTPError (responseOf 404 emptyHeader)
      = some (.api ⟨404, "resource not found".toList, 0⟩) ∧
    (setupTestServer (responseOf 404 emptyHeader)).GetIndex
        (testEnv (fun _ r => (r, none))) background
      = (none, some (.api ⟨404, "resource not found".toList, 0⟩)) :=
  ⟨rfl,
    (C5_not_found (setupTestServer (responseOf 404 emptyHeader)) (responseOf 404 emptyHeader)
      rfl).1,
    (C5_not_found (setupTestServer (responseOf 404 emptyHeader)) (responseOf 404 emptyHeader)
      rfl).2.2.2.1 (testEnv (fun _ r => (r, none))) background
      (testClient_Receives (responseOf 404 emptyHeader) (fun _ r => (r, none)) MethodGet
        "/".toList)⟩

/-- Claim C6: for every response with status 429, when the `Retry-After` header is the decimal
representation of an integer `n` that fits in an `int`, `handleHTTPError` returns the
`*APIError` with status 429, message `rate limit exceeded` and retry delay `n`; when the
header is absent the retry delay is 0; in every case `IsRateLimited` is true on the error. -/
theorem C6_rate_limited (c : Client) (resp : Response) (h : resp.StatusCode = 429) :
    (∀ n : Int, fitsInt n → resp.Header.Get "Retry-After".toList = decimalRepr n →
      c.handleHTTPError resp = some (.api ⟨429, "rate limit exceeded".toList, n⟩)) ∧
    (resp.Header "Retry-After".toList = [] →
      c.handleHTTPError resp = some (.api ⟨429, "rate limit exceeded".toList, 0⟩)) ∧
    IsRateLimited (c.handleHTTPError resp) = true := by
  refine ⟨?_, ?_, ?_⟩
  · intro n hn hra
    simp only [Client.handleHTTPError, h, hra, Atoi_decimalRepr n hn]
    simp [decimalRepr_ne_nil n]
  · intro hra
    have hget : resp.Header.Get "Retry-After".toList = [] := by
      unfold Header.Get
      rw [hra]
    simp only [Client.handleHTTPError, h, hget]
    simp
  · simp [Client.handleHTTPError, h, IsRateLimited, errorsIs, errorsAs, GoError.Is, GoError.As]

/-- Witness for C6: the response of `TestHandleHTTPError_RateLimited`, status 429 with
`Retry-After: 60`. -/
theorem C6_rate_limited_witness :
    (responseOf 429 (retryAfterHeader "60".toList)).StatusCode = 429 ∧
    fitsInt 60 ∧
    (responseOf 429 (retryAfterHeader "60".toList)).Header.Get "Retry-After".toList
      = decimalRepr 60 ∧
    (setupTestServer (responseOf 429 (retryAfterHeader "60".toList))).handleHTTPError
        (responseOf 429 (retryAfterHeader "60".toList))
      = some (.api ⟨429, "rate limit exceeded".toList, 60⟩) ∧
    IsRateLimited ((setupTestServer (responseOf 429 (retryAfterHeader "60".toList))).handleHTTPError
        (responseOf 429 (retryAfterHeader "60".toList))) = true :=
  ⟨rfl, by unfold fitsInt; norm_num, by decide,
    (C6_rate_limited _ (responseOf 429 (retryAfterHeader "60".toList)) rfl).1 60
      (by unfold fitsInt; norm_num) (by decide),
    (C6_rate_limited _ (responseOf 429 (retryAfterHeader "60".toList)) rfl).2.2⟩

/-- Claim C7 at a failing input: for status 429 with a `Retry-After` of twenty nines, a digit
string too large for `int`, `strconv.Atoi` returns a range error together with the largest
`int`, the handler drops the error, and the retry delay of the `*APIError` is
9223372036854775807 and not 0. -/
theorem C7_retry_after_out_of_range_saturates (c : Client) :
    (Atoi "99999999999999999999".toList).2 = some .numRange ∧
    c.handleHTTPError (responseOf 429 (retryAfterHeader "99999999999999999999".toList))
      = some (.api ⟨429, "rate limit exceeded".toList, 9223372036854775807⟩) := by
  refine ⟨by decide, ?_⟩
  have h : Atoi "99999999999999999999".toList = (9223372036854775807, some .numRange) := by
    decide
  have hg : (responseOf 429 (retryAfterHeader "99999999999999999999".toList)).Header.Get
      "Retry-After".toList = "99999999999999999999".toList := by decide
  simp only [Client.handleHTTPError, hg, h]
  simp [responseOf]

/-- Claim C8 fails as stated in its last part: a pipeline whose transport fails with the
`ErrNotModified` sentinel returns, with no response at all, an error on which `IsNotModified`
is true; and so does a pipeline that gets a response with status 200 whose body fails to be
read with that sentinel. -/
theorem C8_counterexample_planted_sentinel :
    (failingClient (.sentinel .ErrNotModified)).TransportFails
      (testEnv (fun _ (r : URIListResponse) => (r, none))) background MethodGet "/".toList
      (.sentinel .ErrNotModified) ∧
    IsNotModified ((failingClient (.sentinel .ErrNotModified)).doRequest
      (testEnv (fun _ (r : URIListResponse) => (r, none))) background MethodGet "/".toList
      URIListResponse.zero).2 = true ∧
    (setupTestServer (unreadable 200 (.sentinel .ErrNotModified))).Receives
      (testEnv (fun _ (r : URIListResponse) => (r, none))) background MethodGet "/".toList
      (unreadable 200 (.sentinel .ErrNotModified)) ∧
    (unreadable 200 (.sentinel .ErrNotModified)).StatusCode ≠ 304 ∧
    IsNotModified ((setupTestServer (unreadable 200 (.sentinel .ErrNotModified))).doRequest
      (testEnv (fun _ (r : URIListResponse) => (r, none))) background MethodGet "/".toList
      URIListResponse.zero).2 = true :=
  ⟨⟨_, _, rfl, rfl, rfl⟩, rfl, ⟨_, _, rfl, rfl, rfl⟩, by decide, rfl⟩

/-- Claim C8, amended: for every response with status 304 `handleHTTPError` returns the
`ErrNotModified` sentinel, and `doRequest` returns it whenever the call gets that response; on
the sentinel `IsNotModified` is true, `IsNotFound` and `IsRateLimited` are false and
`errors.As` finds no `*APIError`; for a status other than 304 `IsNotModified` is false on the
error of `handleHTTPError`; and whenever `IsNotModified` is true on the error `doRequest`
returns, either the call got a response with status 304, or the transport failed with an
error on which `IsNotModified` is true, or the call got a response with status 200 or 301
whose body failed to be read with such an error. -/
theorem C8_not_modified (c : Client) :
    (∀ resp : Response, resp.StatusCode = 304 →
      c.handleHTTPError resp = some (.sentinel .ErrNotModified) ∧
      ∀ (R : Type) (env : Env R) (ctx : Context) (method path : GoString) (result : R),
        c.Receives env ctx method path resp →
        c.doRequest env ctx method path result = (result, some (.sentinel .ErrNotModified))) ∧
    IsNotModified (some (.sentinel .ErrNotModified)) = true ∧
    IsNotFound (some (.sentinel .ErrNotModified)) = false ∧
    IsRateLimited (some (.sentinel .ErrNotModified)) = false ∧
    errorsAs (some (.sentinel .ErrNotModified)) = none ∧
    (∀ resp : Response, resp.StatusCode ≠ 304 → IsNotModified (c.handleHTTPError resp) = false) ∧
    (∀ (R : Type) (env : Env R) (ctx : Context) (method path : GoString) (result : R),
      IsNotModified (c.doRequest env ctx method path result).2 = true →
      (∃ resp, c.Receives env ctx method path resp ∧ resp.StatusCode = 304) ∨
      (∃ e, c.TransportFails env ctx method path e ∧ IsNotModified (some e) = true) ∨
      (∃ resp e, c.Receives env ctx method path resp ∧
        (resp.StatusCode = 200 ∨ resp.StatusCode = 301) ∧ resp.Body = .error e ∧
        IsNotModified (some e) = true)) := by
  have h304 : ∀ resp : Response, resp.StatusCode = 304 →
      c.handleHTTPError resp = some (.sentinel .ErrNotModified) := by
    intro resp h
    simp [Client.handleHTTPError, h]
  have hne : ∀ resp : Response, resp.StatusCode ≠ 304 →
      IsNotModified (c.handleHTTPError resp) = false := by
    intro resp h
    unfold Client.handleHTTPError
    split_ifs <;> rfl
  refine ⟨?_, rfl, rfl, rfl, rfl, hne, ?_⟩
  · intro resp h
    exact ⟨h304 resp h, fun R env ctx method path result hr =>
      doRequest_of_status_error c env ctx method path result resp _ hr (h304 resp h)⟩
  · intro R env ctx method path result hmod
    unfold Client.doRequest at hmod
    cases hurl : env.JoinPath c.BaseURL path with
    | error e => rw [hurl] at hmod; exact absurd hmod (by simp [IsNotModified, errorsIs, GoError.Is])
    | ok reqURL =>
      rw [hurl] at hmod
      simp only [] at hmod
      cases hreq : env.NewRequest ctx method reqURL with
      | error e => rw [hreq] at hmod; exact absurd hmod (by simp [IsNotModified, errorsIs, GoError.Is])
      | ok req =>
        rw [hreq] at hmod
        simp only [] at hmod
        cases hdo : c.HTTPClient.Do (c.outgoing req) with
        | error e =>
          refine Or.inr (Or.inl ⟨e, ⟨reqURL, req, hurl, hreq, hdo⟩, ?_⟩)
          unfold Client.outgoing at hdo
          rw [hdo] at hmod
          exact hmod
        | ok resp =>
          have hrecv : c.Receives env ctx method path resp := ⟨reqURL, req, hurl, hreq, hdo⟩
          unfold Client.outgoing at hdo
          rw [hdo] at hmod
          simp only [] at hmod
          by_cases hs : resp.StatusCode = 304
          · exact Or.inl ⟨resp, hrecv, hs⟩
          · have hn := hne resp hs
            cases herr : c.handleHTTPError resp with
            | some err =>
              rw [herr] at hmod hn
              simp only [] at hmod
              rw [hn] at hmod
              exact absurd hmod (by simp)
            | none =>
              rw [herr] at hmod
              simp only [] at hmod
              cases hb : resp.Body with
              | error e =>
                rw [hb] at hmod
                exact Or.inr (Or.inr ⟨resp, e, hrecv, handleHTTPError_none c resp herr, hb, hmod⟩)
              | ok body =>
                rw [hb] at hmod
                simp only [] at hmod
                rcases hu : env.Unmarshal body result with ⟨r, _ | e⟩
                · rw [hu] at hmod
                  exact absurd hmod (by simp [IsNotModified, errorsIs])
                · rw [hu] at hmod
                  exact absurd hmod (by simp [IsNotModified, errorsIs, GoError.Is])

/-- Witness for C8: the test server that answers 304, asked through `doRequest`. -/
theorem C8_not_modified_witness :
    (responseOf 304 emptyHeader).StatusCode = 304 ∧
    (setupTestServer (responseOf 304 emptyHeader)).handleHTTPError (responseOf 304 emptyHeader)
      = some (.sentinel .ErrNotModified) ∧
    (setupTestServer (responseOf 304 emptyHeader)).doRequest
        (testEnv (fun _ (r : URIListResponse) => (r, none))) background MethodGet "/".toList
        URIListResponse.zero
      = (URIListResponse.zero, some (.sentinel .ErrNotModified)) :=
  ⟨rfl,
    ((C8_not_modified (setupTestServer (responseOf 304 emptyHeader))).1
      (responseOf 304 emptyHeader) rfl).1,
    ((C8_not_modified (setupTestServer (responseOf 304 emptyHeader))).1
      (responseOf 304 emptyHeader) rfl).2 URIListResponse
      (testEnv (fun _ (r : URIListResponse) => (r, none))) background MethodGet "/".toList
      URIListResponse.zero
      (testClient_Receives (responseOf 304 emptyHeader) (fun _ r => (r, none)) MethodGet
        "/".toList)⟩

/-- Claim C9: `handleHTTPError` returns nil exactly when the status code is 200 or 301; for
every other status code it returns an error, and `doRequest` returns that error with the
result untouched whatever the body holds and whatever decoding it would give. -/
theorem C9_success_iff_200_or_301 (c : Client) (resp : Response) :
    (c.handleHTTPError resp = none ↔ (resp.StatusCode = 200 ∨ resp.StatusCode = 301)) ∧
    (¬ (resp.StatusCode = 200 ∨ resp.StatusCode = 301) →
      ∃ err, c.handleHTTPError resp = some err ∧
        ∀ (R : Type) (env : Env R) (ctx : Context) (method path : GoString) (result : R),
          c.Receives env ctx method path resp →
          c.doRequest env ctx method path result = (result, some err)) := by
  have hiff : c.handleHTTPError resp = none ↔ (resp.StatusCode = 200 ∨ resp.StatusCode = 301) := by
    unfold Client.handleHTTPError
    split_ifs <;> simp_all
  refine ⟨hiff, fun hne => ?_⟩
  cases herr : c.handleHTTPError resp with
  | none => exact absurd (hiff.1 herr) hne
  | some err =>
    exact ⟨err, rfl, fun R env ctx method path result hr =>
      doRequest_of_status_error c env ctx method path result resp err hr herr⟩

/-- Witness for C9: status 204, another 2xx code, is an error. -/
theorem C9_success_iff_200_or_301_witness :
    ¬ ((responseOf 204 emptyHeader).StatusCode = 200 ∨
        (responseOf 204 emptyHeader).StatusCode = 301) ∧
    ∃ err, (setupTestServer (responseOf 204 emptyHeader)).handleHTTPError
        (responseOf 204 emptyHeader) = some err ∧
      ∀ (R : Type) (env : Env R) (ctx : Context) (method path : GoString) (result : R),
        (setupTestServer (responseOf 204 emptyHeader)).Receives env ctx method path
          (responseOf 204 emptyHeader) →
        (setupTestServer (responseOf 204 emptyHeader)).doRequest env ctx method path result
          = (result, some err) :=
  ⟨by decide,
    (C9_success_iff_200_or_301 (setupTestServer (responseOf 204 emptyHeader))
      (responseOf 204 emptyHeader)).2 (by decide)⟩

/-- Claim C10: for every status code other than 200, 301, 304, 404 and 429, `handleHTTPError`
returns the `*APIError` with that code, the text `http.StatusText` gives for it and retry
delay 0, whatever the header holds. -/
theorem C10_other_status (c : Client) (resp : Response)
    (h200 : resp.StatusCode ≠ 200) (h301 : resp.StatusCode ≠ 301) (h304 : resp.StatusCode ≠ 304)
    (h404 : resp.StatusCode ≠ 404) (h429 : resp.StatusCode ≠ 429) :
    c.handleHTTPError resp
      = some (.api ⟨resp.StatusCode, StatusText resp.StatusCode, 0⟩) := by
  unfold Client.handleHTTPError
  rw [if_neg h200, if_neg h301, if_neg h304, if_neg h404, if_neg h429]

/-- Witness for C10: status 503 with `Retry-After: 60`. -/
theorem C10_other_status_witness :
    (responseOf 503 (retryAfterHeader "60".toList)).StatusCode ≠ 200 ∧
    (responseOf 503 (retryAfterHeader "60".toList)).Header.Get "Retry-After".toList = "60".toList ∧
    (setupTestServer (responseOf 503 (retryAfterHeader "60".toList))).handleHTTPError
        (responseOf 503 (retryAfterHeader "60".toList))
      = some (.api ⟨503, "Service Unavailable".toList, 0⟩) :=
  ⟨by decide, by decide,
    C10_other_status _ (responseOf 503 (retryAfterHeader "60".toList))
      (by decide) (by decide) (by decide) (by decide) (by decide)⟩

end ClientClaims

/-! ## The claims on error kinds, options and the outcomes of a request -/

section PipelineClaims

open GoHTTP GoStrconv GoTime

/-- Claim C11 on the code: for a response with status 404 the error of `handleHTTPError`, and
the error `doRequest` returns when the call gets that response, is an `*APIError`, which has
no `Is` or `Unwrap` method, so `errors.Is(err, ErrNotFound)` is false; in the same way
`errors.Is(err, ErrRateLimited)` is false for a response with status 429.  The sentinels
that `errors.go` documents as returned for 404 and 429 are never returned. -/
theorem C11_api_error_is_no_sentinel (c : Client) (resp : Response) :
    (resp.StatusCode = 404 →
      errorsIs (c.handleHTTPError resp) .ErrNotFound = false ∧
      ∀ (R : Type) (env : Env R) (ctx : Context) (method path : GoString) (result : R),
        c.Receives env ctx method path resp →
        errorsIs (c.doRequest env ctx method path result).2 .ErrNotFound = false) ∧
    (resp.StatusCode = 429 →
      errorsIs (c.handleHTTPError resp) .ErrRateLimited = false ∧
      ∀ (R : Type) (env : Env R) (ctx : Context) (method path : GoString) (result : R),
        c.Receives env ctx method path resp →
        errorsIs (c.doRequest env ctx method path result).2 .ErrRateLimited = false) := by
  constructor
  · intro h
    have h404 := handleHTTPError_404 c resp h
    refine ⟨by rw [h404]; rfl, fun R env ctx method path result hr => ?_⟩
    rw [doRequest_of_status_error c env ctx method path result resp _ hr h404]
    rfl
  · intro h
    obtain ⟨n, h429⟩ := handleHTTPError_429_api c resp h
    refine ⟨by rw [h429]; rfl, fun R env ctx method path result hr => ?_⟩
    rw [doRequest_of_status_error c env ctx method path result resp _ hr h429]
    rfl

/-- Witness for C11: the test server that answers 404, asked through `doRequest`. -/
theorem C11_api_error_is_no_sentinel_witness :
    (responseOf 404 emptyHeader).StatusCode = 404 ∧
    errorsIs ((setupTestServer (responseOf 404 emptyHeader)).doRequest
        (testEnv (fun _ (r : URIListResponse) => (r, none))) background MethodGet "/".toList
        URIListResponse.zero).2 .ErrNotFound = false :=
  ⟨rfl,
    ((C11_api_error_is_no_sentinel (setupTestServer (responseOf 404 emptyHeader))
      (responseOf 404 emptyHeader)).1 rfl).2 URIListResponse
      (testEnv (fun _ (r : URIListResponse) => (r, none))) background MethodGet "/".toList
      URIListResponse.zero
      (testClient_Receives (responseOf 404 emptyHeader) (fun _ r => (r, none)) MethodGet
        "/".toList)⟩

/-- Claim C12: for every client, environment and context, each wrapper with a path argument
(`GetProduct`, `GetRelease`, `GetLatestRelease`, `GetCategoryProducts`, `GetTagProducts`,
`GetIdentifierDetails`) called with an empty required argument returns no result and the
error `... is required`, and issues no HTTP request. -/
theorem C12_empty_argument_is_rejected (c : Client) (ctx : Context) :
    (∀ env, c.GetProduct env ctx [] = (none, some (.errorf "product name is required".toList)) ∧
      c.GetProductSends env ctx [] = 0) ∧
    (∀ env releaseName,
      c.GetRelease env ctx [] releaseName
        = (none, some (.errorf "product name is required".toList)) ∧
      c.GetReleaseSends env ctx [] releaseName = 0) ∧
    (∀ env productName, productName ≠ [] →
      c.GetRelease env ctx productName []
        = (none, some (.errorf "release name is required".toList)) ∧
      c.GetReleaseSends env ctx productName [] = 0) ∧
    (∀ env, c.GetLatestRelease env ctx []
        = (none, some (.errorf "product name is required".toList)) ∧
      c.GetLatestReleaseSends env ctx [] = 0) ∧
    (∀ env, c.GetCategoryProducts env ctx []
        = (none, some (.errorf "category name is required".toList)) ∧
      c.GetCategoryProductsSends env ctx [] = 0) ∧
    (∀ env, c.GetTagProducts env ctx []
        = (none, some (.errorf "tag name is required".toList)) ∧
      c.GetTagProductsSends env ctx [] = 0) ∧
    (∀ env, c.GetIdentifierDetails env ctx []
        = (none, some (.errorf "identifier type is required".toList)) ∧
      c.GetIdentifierDetailsSends env ctx [] = 0) := by
  refine ⟨fun env => ⟨rfl, rfl⟩, fun env r => ⟨rfl, rfl⟩, fun env p hp => ?_, fun env => ⟨rfl, rfl⟩,
    fun env => ⟨rfl, rfl⟩, fun env => ⟨rfl, rfl⟩, fun env => ⟨rfl, rfl⟩⟩
  constructor
  · unfold Client.GetRelease
    rw [if_neg hp, if_pos rfl]
  · unfold Client.GetReleaseSends
    rw [if_neg hp, if_pos rfl]

/-- Witness for C12: `GetRelease` with a product name and an empty release name, as in
`TestGetRelease_EmptyReleaseName`. -/
theorem C12_empty_argument_is_rejected_witness :
    "python".toList ≠ [] ∧
    (setupTestServer (responseOf 200 emptyHeader)).GetRelease
        (testEnv (fun _ r => (r, none))) background "python".toList []
      = (none, some (.errorf "release name is required".toList)) ∧
    (setupTestServer (responseOf 200 emptyHeader)).GetReleaseSends
        (testEnv (fun _ r => (r, none))) background "python".toList [] = 0 :=
  ⟨by decide,
    (C12_empty_argument_is_rejected (setupTestServer (responseOf 200 emptyHeader))
      background).2.2.1 (testEnv (fun _ r => (r, none))) "python".toList (by decide)⟩

/-- Claim C13: for every error value (nil, a sentinel, an `*APIError`, another error, or a
chain of wrappers around one of these) `IsNotFound` is true exactly when the chain contains
`ErrNotFound` or an `*APIError` with status 404, and `IsRateLimited` is true exactly when
the chain contains `ErrRateLimited` or an `*APIError` with status 429; both are false on
nil and on errors that hold neither. -/
theorem C13_kind_helpers_follow_the_chain (err : Option GoError) :
    (IsNotFound err = true ↔ (ContainsSentinel err .ErrNotFound ∨ ContainsStatus err 404)) ∧
    (IsRateLimited err = true ↔
      (ContainsSentinel err .ErrRateLimited ∨ ContainsStatus err 429)) ∧
    IsNotFound none = false ∧ IsRateLimited none = false ∧
    (∀ e : StdError, IsNotFound (some (.std e)) = false ∧ IsRateLimited (some (.std e)) = false) ∧
    (∀ msg : GoString, IsNotFound (some (.errorf msg)) = false ∧
      IsRateLimited (some (.errorf msg)) = false) :=
  ⟨isStatus_iff err .ErrNotFound 404, isStatus_iff err .ErrRateLimited 429, rfl, rfl,
    fun _ => ⟨rfl, rfl⟩, fun _ => ⟨rfl, rfl⟩⟩

/-- Claim C14: for every list of calls of `WithBaseURL`, `WithHTTPClient` and `WithUserAgent`,
the client of `NewClientWithOptions` has in each of `BaseURL`, `HTTPClient` and `UserAgent`
the argument of the last call in the list for that field, and the default of `NewClient`
(`DefaultBaseURL`, an HTTP client with a timeout of 30 seconds, `endoflife-go/` followed by
`Version`) when the list has no call for the field. -/
theorem C14_options_last_wins (network : Request → Except GoError Response)
    (calls : List OptionCall) :
    (NewClientWithOptions network (calls.map OptionCall.toOption)).BaseURL
      = (lastBaseURL calls).getD DefaultBaseURL ∧
    (NewClientWithOptions network (calls.map OptionCall.toOption)).HTTPClient
      = (lastHTTPClient calls).getD { Timeout := 30, Do := network } ∧
    (NewClientWithOptions network (calls.map OptionCall.toOption)).UserAgent
      = (lastUserAgent calls).getD ("endoflife-go/".toList ++ Version) ∧
    NewClientWithOptions network [] = NewClient network :=
  ⟨(foldl_options calls (NewClient network)).1, (foldl_options calls (NewClient network)).2.1,
    (foldl_options calls (NewClient network)).2.2, rfl⟩

/-- Claim C16: for every response with status 200 or 301 that a call of `doRequest` gets, a
body that cannot be read and a body that `json.Unmarshal` rejects both make `doRequest`
return an error that wraps the library error, and a wrapper built on that call returns no
result with that error; such an error holds no `*APIError` and no sentinel, so the three
kind helpers are false on it; every endpoint wrapper is such a wrapper around `doRequest`. -/
theorem C16_decode_failure_is_surfaced (c : Client) (resp : Response)
    (hs : resp.StatusCode = 200 ∨ resp.StatusCode = 301) :
    (∀ (R : Type) (env : Env R) (ctx : Context) (method path : GoString) (result : R),
      c.Receives env ctx method path resp →
      (∀ e, resp.Body = .error e →
        c.doRequest env ctx method path result
          = (result, some (.wrap "failed to read response body".toList e)) ∧
        wrapResult (c.doRequest env ctx method path result)
          = (none, some (.wrap "failed to read response body".toList e))) ∧
      (∀ body r e, resp.Body = .ok body → env.Unmarshal body result = (r, some e) →
        c.doRequest env ctx method path result
          = (r, some (.wrap "failed to unmarshal response".toList (.std e))) ∧
        wrapResult (c.doRequest env ctx method path result)
          = (none, some (.wrap "failed to unmarshal response".toList (.std e))))) ∧
    (∀ (msg : GoString) (e : StdError),
      errorsAs (some (.wrap msg (.std e))) = none ∧
      (∀ s : Sentinel, errorsIs (some (.wrap msg (.std e))) s = false) ∧
      IsNotFound (some (.wrap msg (.std e))) = false ∧
      IsRateLimited (some (.wrap msg (.std e))) = false ∧
      IsNotModified (some (.wrap msg (.std e))) = false) ∧
    (∀ ctx env, c.GetIndex env ctx
      = wrapResult (c.doRequest env ctx MethodGet "/".toList URIListResponse.zero)) ∧
    (∀ ctx env, c.GetProducts env ctx
      = wrapResult (c.doRequest env ctx MethodGet "/products".toList ProductListResponse.zero)) ∧
    (∀ ctx env, c.GetProductsFull env ctx
      = wrapResult (c.doRequest env ctx MethodGet "/products/full".toList
          FullProductListResponse.zero)) ∧
    (∀ ctx env name, name ≠ [] → c.GetProduct env ctx name
      = wrapResult (c.doRequest env ctx MethodGet ("/products/".toList ++ name)
          ProductResponse.zero)) ∧
    (∀ ctx env name release, name ≠ [] → release ≠ [] → c.GetRelease env ctx name release
      = wrapResult (c.doRequest env ctx MethodGet
          ("/products/".toList ++ name ++ "/releases/".toList ++ release)
          ProductReleaseResponse.zero)) ∧
    (∀ ctx env name, name ≠ [] → c.GetLatestRelease env ctx name
      = wrapResult (c.doRequest env ctx MethodGet
          ("/products/".toList ++ name ++ "/releases/latest".toList)
          ProductReleaseResponse.zero)) ∧
    (∀ ctx env, c.GetCategories env ctx
      = wrapResult (c.doRequest env ctx MethodGet "/categories".toList URIListResponse.zero)) ∧
    (∀ ctx env name, name ≠ [] → c.GetCategoryProducts env ctx name
      = wrapResult (c.doRequest env ctx MethodGet ("/categories/".toList ++ name)
          ProductListResponse.zero)) ∧
    (∀ ctx env, c.GetTags env ctx
      = wrapResult (c.doRequest env ctx MethodGet "/tags".toList URIListResponse.zero)) ∧
    (∀ ctx env name, name ≠ [] → c.GetTagProducts env ctx name
      = wrapResult (c.doRequest env ctx MethodGet ("/tags/".toList ++ name)
          ProductListResponse.zero)) ∧
    (∀ ctx env, c.GetIdentifiers env ctx
      = wrapResult (c.doRequest env ctx MethodGet "/identifiers".toList URIListResponse.zero)) ∧
    (∀ ctx env name, name ≠ [] → c.GetIdentifierDetails env ctx name
      = wrapResult (c.doRequest env ctx MethodGet ("/identifiers/".toList ++ name)
          IdentifierListResponse.zero)) := by
  have hok := handleHTTPError_success c resp hs
  refine ⟨?_, ?_, fun ctx => (wrappers_unfold c ctx).1, fun ctx => (wrappers_unfold c ctx).2.1,
    fun ctx => (wrappers_unfold c ctx).2.2.1, fun ctx => (wrappers_unfold c ctx).2.2.2.1,
    fun ctx => (wrappers_unfold c ctx).2.2.2.2.1, fun ctx => (wrappers_unfold c ctx).2.2.2.2.2.1,
    fun ctx => (wrappers_unfold c ctx).2.2.2.2.2.2.1,
    fun ctx => (wrappers_unfold c ctx).2.2.2.2.2.2.2.1,
    fun ctx => (wrappers_unfold c ctx).2.2.2.2.2.2.2.2.1,
    fun ctx => (wrappers_unfold c ctx).2.2.2.2.2.2.2.2.2.1,
    fun ctx => (wrappers_unfold c ctx).2.2.2.2.2.2.2.2.2.2.1,
    fun ctx => (wrappers_unfold c ctx).2.2.2.2.2.2.2.2.2.2.2⟩
  · intro R env ctx method path result hr
    have hd := doRequest_of_response c env ctx method path result resp hr
    rw [hok] at hd
    simp only [] at hd
    constructor
    · intro e hb
      rw [hb] at hd
      exact ⟨hd, wrapResult_error _ _ (by rw [hd])⟩
    · intro body r e hb hu
      rw [hb] at hd
      simp only [] at hd
      rw [hu] at hd
      exact ⟨hd, wrapResult_error _ _ (by rw [hd])⟩
  · intro msg e
    refine ⟨rfl, fun s => rfl, rfl, rfl, rfl⟩

/-- Witness for C16: the test server answers 200 with a body the decoder rejects, asked
through `GetIndex`. -/
theorem C16_decode_failure_is_surfaced_witness :
    ((responseOf 200 emptyHeader).StatusCode = 200 ∨
      (responseOf 200 emptyHeader).StatusCode = 301) ∧
    (setupTestServer (responseOf 200 emptyHeader)).GetIndex
        (testEnv (fun _ r => (r, some .json))) background
      = (none, some (.wrap "failed to unmarshal response".toList (.std .json))) := by
  have h := C16_decode_failure_is_surfaced (setupTestServer (responseOf 200 emptyHeader))
    (responseOf 200 emptyHeader) (Or.inl rfl)
  refine ⟨Or.inl rfl, ?_⟩
  rw [h.2.2.1 background]
  exact ((h.1 URIListResponse (testEnv (fun _ r => (r, some .json))) background MethodGet
    "/".toList URIListResponse.zero
    (testClient_Receives (responseOf 200 emptyHeader) _ MethodGet "/".toList)).2
      [] URIListResponse.zero .json rfl rfl).2

/-- Claim C17 fails as stated: the transport of a client can be any `RoundTripper`; when it
fails with the `ErrNotModified` sentinel, `IsNotModified` is true on the error `doRequest`
returns, and when it fails with an `*APIError` for status 404, `errors.As` finds that
`*APIError` in the error `doRequest` returns and `IsNotFound` is true on it. -/
theorem C17_counterexample_planted_error :
    (failingClient (.sentinel .ErrNotModified)).TransportFails
      (testEnv (fun _ (r : URIListResponse) => (r, none))) background MethodGet "/".toList
      (.sentinel .ErrNotModified) ∧
    IsNotModified ((failingClient (.sentinel .ErrNotModified)).doRequest
      (testEnv (fun _ (r : URIListResponse) => (r, none))) background MethodGet "/".toList
      URIListResponse.zero).2 = true ∧
    (failingClient (.api ⟨404, "resource not found".toList, 0⟩)).TransportFails
      (testEnv (fun _ (r : URIListResponse) => (r, none))) background MethodGet "/".toList
      (.api ⟨404, "resource not found".toList, 0⟩) ∧
    errorsAs ((failingClient (.api ⟨404, "resource not found".toList, 0⟩)).doRequest
      (testEnv (fun _ (r : URIListResponse) => (r, none))) background MethodGet "/".toList
      URIListResponse.zero).2 = some ⟨404, "resource not found".toList, 0⟩ ∧
    IsNotFound ((failingClient (.api ⟨404, "resource not found".toList, 0⟩)).doRequest
      (testEnv (fun _ (r : URIListResponse) => (r, none))) background MethodGet "/".toList
      URIListResponse.zero).2 = true :=
  ⟨⟨_, _, rfl, rfl, rfl⟩, rfl, ⟨_, _, rfl, rfl, rfl⟩, rfl, rfl⟩

/-- Claim C17, amended: when the HTTP client fails with the error `e`, `doRequest` returns the
error that wraps `e` with the text `failed to execute request` and leaves the result as it
was, without classifying or decoding; `errors.As` and the three kind helpers see on that
error exactly what they see on `e`, so when `e` is an error of the standard library, which
holds no `*APIError` and no sentinel of this package, the error is no `*APIError` and
`IsNotFound`, `IsRateLimited` and `IsNotModified` are false on it. -/
theorem C17_transport_failure_is_wrapped {R : Type} (c : Client) (env : Env R) (ctx : Context)
    (method path : GoString) (result : R) (e : GoError)
    (hfail : c.TransportFails env ctx method path e) :
    c.doRequest env ctx method path result
      = (result, some (.wrap "failed to execute request".toList e)) ∧
    e ∈ (GoError.wrap "failed to execute request".toList e).chain ∧
    errorsAs (c.doRequest env ctx method path result).2 = errorsAs (some e) ∧
    IsNotFound (c.doRequest env ctx method path result).2 = IsNotFound (some e) ∧
    IsRateLimited (c.doRequest env ctx method path result).2 = IsRateLimited (some e) ∧
    IsNotModified (c.doRequest env ctx method path result).2 = IsNotModified (some e) ∧
    (∀ s : StdError, e = .std s →
      errorsAs (c.doRequest env ctx method path result).2 = none ∧
      IsNotFound (c.doRequest env ctx method path result).2 = false ∧
      IsRateLimited (c.doRequest env ctx method path result).2 = false ∧
      IsNotModified (c.doRequest env ctx method path result).2 = false) := by
  obtain ⟨reqURL, req, hurl, hreq, hdo⟩ := hfail
  have hd : c.doRequest env ctx method path result
      = (result, some (.wrap "failed to execute request".toList e)) := by
    unfold Client.outgoing at hdo
    unfold Client.doRequest
    rw [hurl]
    simp only []
    rw [hreq]
    simp only []
    rw [hdo]
  have hmem : e ∈ (GoError.wrap "failed to execute request".toList e).chain := by
    cases e <;> simp [GoError.chain]
  rw [hd]
  refine ⟨rfl, hmem, rfl, rfl, rfl, rfl, ?_⟩
  rintro s rfl
  exact ⟨rfl, rfl, rfl, rfl⟩

/-- Witness for C17: a client whose transport fails with a deadline error. -/
theorem C17_transport_failure_is_wrapped_witness :
    (failingClient (.std (.other "context deadline exceeded".toList))).TransportFails
      (testEnv (fun _ (r : URIListResponse) => (r, none))) background MethodGet "/".toList
      (.std (.other "context deadline exceeded".toList)) ∧
    (failingClient (.std (.other "context deadline exceeded".toList))).doRequest
        (testEnv (fun _ (r : URIListResponse) => (r, none))) background MethodGet "/".toList
        URIListResponse.zero
      = (URIListResponse.zero, some (.wrap "failed to execute request".toList
          (.std (.other "context deadline exceeded".toList)))) :=
  ⟨failingClient_TransportFails _ _ _ _,
    (C17_transport_failure_is_wrapped
      (failingClient (.std (.other "context deadline exceeded".toList)))
      (testEnv (fun _ (r : URIListResponse) => (r, none))) background MethodGet "/".toList
      URIListResponse.zero (.std (.other "context deadline exceeded".toList))
      (failingClient_TransportFails _ _ _ _)).1⟩

/-- Claim C18: for every response whose status is neither 200 nor 301 that a call of
`doRequest` gets, the result is left exactly as it was, the error returned is the one
`handleHTTPError` gives for the response, and the outcome is the same whatever the decoder
would make of the body. -/
theorem C18_error_status_leaves_result {R : Type} (c : Client) (env : Env R) (ctx : Context)
    (method path : GoString) (result : R) (resp : Response)
    (hs : ¬ (resp.StatusCode = 200 ∨ resp.StatusCode = 301))
    (hr : c.Receives env ctx method path resp) :
    (c.doRequest env ctx method path result).1 = result ∧
    (c.doRequest env ctx method path result).2 = c.handleHTTPError resp ∧
    c.handleHTTPError resp ≠ none ∧
    (∀ decode : GoString → R → R × Option StdError,
      c.doRequest { env with Unmarshal := decode } ctx method path result
        = c.doRequest env ctx method path result) := by
  have hne : c.handleHTTPError resp ≠ none := by
    intro h
    apply hs
    unfold Client.handleHTTPError at h
    split_ifs at h <;> simp_all
  cases herr : c.handleHTTPError resp with
  | none => exact absurd herr hne
  | some err =>
    have hd := doRequest_of_status_error c env ctx method path result resp err hr herr
    refine ⟨by rw [hd], by rw [hd], by simp, fun decode => ?_⟩
    have hr2 : c.Receives { env with Unmarshal := decode } ctx method path resp := by
      obtain ⟨u, q, h1, h2, h3⟩ := hr
      exact ⟨u, q, h1, h2, h3⟩
    rw [hd, doRequest_of_status_error c _ ctx method path result resp err hr2 herr]

/-- Witness for C18: the test server answers 500 and the decoder would accept any body. -/
theorem C18_error_status_leaves_result_witness :
    ¬ ((responseOf 500 emptyHeader).StatusCode = 200 ∨
        (responseOf 500 emptyHeader).StatusCode = 301) ∧
    ((setupTestServer (responseOf 500 emptyHeader)).doRequest
        (testEnv (fun _ (_ : URIListResponse) => (⟨"1.2.0".toList, [], 3, []⟩, none)))
        background MethodGet "/".toList URIListResponse.zero).1 = URIListResponse.zero :=
  ⟨by decide,
    (C18_error_status_leaves_result (setupTestServer (responseOf 500 emptyHeader))
      (testEnv (fun _ (_ : URIListResponse) => (⟨"1.2.0".toList, [], 3, []⟩, none)))
      background MethodGet "/".toList URIListResponse.zero (responseOf 500 emptyHeader)
      (by decide)
      (testClient_Receives (responseOf 500 emptyHeader) _ MethodGet "/".toList)).1⟩

/-- Claim C20: for every `APIError` the message is `API error: `, the status code in decimal, a
blank and the message, followed by ` (retry after `, the retry delay in decimal and
` seconds)` exactly when the retry delay is positive. -/
theorem C20_api_error_message (e : APIError) :
    (e.RetryAfter > 0 →
      e.Error = "API error: ".toList ++ decimalRepr e.StatusCode ++ " ".toList ++ e.Message
        ++ " (retry after ".toList ++ decimalRepr e.RetryAfter ++ " seconds)".toList) ∧
    (¬ e.RetryAfter > 0 →
      e.Error = "API error: ".toList ++ decimalRepr e.StatusCode ++ " ".toList ++ e.Message) ∧
    e.Error = ("API error: ".toList ++ decimalRepr e.StatusCode ++ " ".toList ++ e.Message)
      ++ (if e.RetryAfter > 0 then
            " (retry after ".toList ++ decimalRepr e.RetryAfter ++ " seconds)".toList
          else []) := by
  refine ⟨fun h => ?_, fun h => ?_, ?_⟩
  · unfold APIError.Error
    rw [if_pos h, formatInt_eq_decimalRepr, formatInt_eq_decimalRepr]
  · unfold APIError.Error
    rw [if_neg h, formatInt_eq_decimalRepr]
  · unfold APIError.Error
    split_ifs <;> simp [formatInt_eq_decimalRepr, List.append_assoc]

/-- Witness for C20: the error of `TestAPIError_Error` with a retry delay of 60. -/
theorem C20_api_error_message_witness :
    (⟨429, "rate limit exceeded".toList, 60⟩ : APIError).RetryAfter > 0 ∧
    (⟨429, "rate limit exceeded".toList, 60⟩ : APIError).Error
      = "API error: ".toList ++ decimalRepr 429 ++ " ".toList ++ "rate limit exceeded".toList
        ++ " (retry after ".toList ++ decimalRepr 60 ++ " seconds)".toList ∧
    (⟨429, "rate limit exceeded".toList, 60⟩ : APIError).Error
      = "API error: 429 rate limit exceeded (retry after 60 seconds)".toList :=
  ⟨by decide, (C20_api_error_message ⟨429, "rate limit exceeded".toList, 60⟩).1 (by decide),
    by decide⟩

end PipelineClaims

/-! ## The claim on the exclusive error kinds -/

section KindClaims

open GoHTTP GoStrconv

/-- Claim C21:for every response, whatever its status code and headers, on the result of
`handleHTTPError` `IsNotFound` is true exactly when the status is 404, `IsRateLimited` exactly
when it is 429 and `IsNotModified` exactly when it is 304; no two of the helpers are true
together, and none is true when the status is 200 or 301. -/
theorem C21_kinds_are_decided_by_status (c : Client) (resp : Response) :
    (IsNotFound (c.handleHTTPError resp) = true ↔ resp.StatusCode = 404) ∧
    (IsRateLimited (c.handleHTTPError resp) = true ↔ resp.StatusCode = 429) ∧
    (IsNotModified (c.handleHTTPError resp) = true ↔ resp.StatusCode = 304) ∧
    ¬ (IsNotFound (c.handleHTTPError resp) = true ∧
        IsRateLimited (c.handleHTTPError resp) = true) ∧
    ¬ (IsNotFound (c.handleHTTPError resp) = true ∧
        IsNotModified (c.handleHTTPError resp) = true) ∧
    ¬ (IsRateLimited (c.handleHTTPError resp) = true ∧
        IsNotModified (c.handleHTTPError resp) = true) ∧
    (resp.StatusCode = 200 ∨ resp.StatusCode = 301 →
      IsNotFound (c.handleHTTPError resp) = false ∧
      IsRateLimited (c.handleHTTPError resp) = false ∧
      IsNotModified (c.handleHTTPError resp) = false) := by
  have key : (IsNotFound (c.handleHTTPError resp) = true ↔ resp.StatusCode = 404) ∧
      (IsRateLimited (c.handleHTTPError resp) = true ↔ resp.StatusCode = 429) ∧
      (IsNotModified (c.handleHTTPError resp) = true ↔ resp.StatusCode = 304) := by
    unfold Client.handleHTTPError
    by_cases h200 : resp.StatusCode = 200
    · simp [h200, IsNotFound, IsRateLimited, IsNotModified, errorsIs, errorsAs]
    by_cases h301 : resp.StatusCode = 301
    · simp [h301, IsNotFound, IsRateLimited, IsNotModified, errorsIs, errorsAs]
    by_cases h304 : resp.StatusCode = 304
    · simp [h304, IsNotFound, IsRateLimited, IsNotModified, errorsIs, errorsAs,
        GoError.Is, GoError.As]
    by_cases h404 : resp.StatusCode = 404
    · simp [h404, IsNotFound, IsRateLimited, IsNotModified, errorsIs, errorsAs,
        GoError.Is, GoError.As]
    by_cases h429 : resp.StatusCode = 429
    · simp [h429, IsNotFound, IsRateLimited, IsNotModified, errorsIs, errorsAs,
        GoError.Is, GoError.As]
    · simp [h200, h301, h304, h404, h429, IsNotFound, IsRateLimited, IsNotModified, errorsIs,
        errorsAs, GoError.Is, GoError.As]
  obtain ⟨k1, k2, k3⟩ := key
  refine ⟨k1, k2, k3, ?_, ?_, ?_, ?_⟩
  · rintro ⟨a, b⟩
    have := k1.1 a; have := k2.1 b; omega
  · rintro ⟨a, b⟩
    have := k1.1 a; have := k3.1 b; omega
  · rintro ⟨a, b⟩
    have := k2.1 a; have := k3.1 b; omega
  · intro hs
    refine ⟨?_, ?_, ?_⟩
    · cases h : IsNotFound (c.handleHTTPError resp)
      · rfl
      · have := k1.1 h; omega
    · cases h : IsRateLimited (c.handleHTTPError resp)
      · rfl
      · have := k2.1 h; omega
    · cases h : IsNotModified (c.handleHTTPError resp)
      · rfl
      · have := k3.1 h; omega

/-- Witness for C21: a response with status 301 and a `Retry-After` header. -/
theorem C21_kinds_are_decided_by_status_witness :
    ((responseOf 301 (retryAfterHeader "60".toList)).StatusCode = 200 ∨
      (responseOf 301 (retryAfterHeader "60".toList)).StatusCode = 301) ∧
    IsNotFound ((setupTestServer (responseOf 200 emptyHeader)).handleHTTPError
      (responseOf 301 (retryAfterHeader "60".toList))) = false ∧
    IsRateLimited ((setupTestServer (responseOf 200 emptyHeader)).handleHTTPError
      (responseOf 301 (retryAfterHeader "60".toList))) = false ∧
    IsNotModified ((setupTestServer (responseOf 200 emptyHeader)).handleHTTPError
      (responseOf 301 (retryAfterHeader "60".toList))) = false :=
  ⟨by decide,
    (C21_kinds_are_decided_by_status (setupTestServer (responseOf 200 emptyHeader))
      (responseOf 301 (retryAfterHeader "60".toList))).2.2.2.2.2.2 (by decide)⟩

end KindClaims

/-! ## The claim on the request URL -/

section PathClaims

open GoPath GoURL GoHTTP

/-- Claim C19 fails as stated: `..` is a non-empty argument; with the default base address
`https://endoflife.date/api/v1` and an environment that joins paths as `url.JoinPath` does,
`GetProduct("..")` calls `doRequest` with the relative path `/products/..`, and the request
handed to the HTTP client has the URL `https://endoflife.date/api/v1`, the base address
itself: both segments of the relative path are dropped.  In the same way
`GetRelease("python", "..")` requests `https://endoflife.date/api/v1/products/python`, and
`GetProduct("a//b")` requests `https://endoflife.date/api/v1/products/a/b`. -/
theorem C19_counterexample_dot_segments :
    "..".toList ≠ [] ∧
    (NewClient (fun _ => .ok (responseOf 200 emptyHeader))).BaseURL
      = address "https".toList "endoflife.date".toList "/api/v1".toList ∧
    (NewClient (fun _ => .ok (responseOf 200 emptyHeader))).GetProduct
      (libraryEnv "https".toList "endoflife.date".toList "/api/v1".toList (fun _ r => (r, none)))
      background "..".toList
      = wrapResult ((NewClient (fun _ => .ok (responseOf 200 emptyHeader))).doRequest
          (libraryEnv "https".toList "endoflife.date".toList "/api/v1".toList
            (fun _ r => (r, none)))
          background MethodGet "/products/..".toList ProductResponse.zero) ∧
    (∃ req, (NewClient (fun _ => .ok (responseOf 200 emptyHeader))).Sends
        (libraryEnv "https".toList "endoflife.date".toList "/api/v1".toList
          (fun _ (r : ProductResponse) => (r, none)))
        background MethodGet "/products/..".toList req ∧
      req.URL = "https://endoflife.date/api/v1".toList ∧
      req.URL ≠ "https://endoflife.date/api/v1/products/..".toList) ∧
    (∃ req, (NewClient (fun _ => .ok (responseOf 200 emptyHeader))).Sends
        (libraryEnv "https".toList "endoflife.date".toList "/api/v1".toList
          (fun _ (r : ProductReleaseResponse) => (r, none)))
        background MethodGet "/products/python/releases/..".toList req ∧
      req.URL = "https://endoflife.date/api/v1/products/python".toList) ∧
    (∃ req, (NewClient (fun _ => .ok (responseOf 200 emptyHeader))).Sends
        (libraryEnv "https".toList "endoflife.date".toList "/api/v1".toList
          (fun _ (r : ProductResponse) => (r, none)))
        background MethodGet "/products/a//b".toList req ∧
      req.URL = "https://endoflife.date/api/v1/products/a/b".toList) :=
  ⟨by decide, rfl, rfl, ⟨_, ⟨_, _, rfl, rfl, rfl⟩, rfl, by decide⟩,
    ⟨_, ⟨_, _, rfl, rfl, rfl⟩, rfl⟩, ⟨_, ⟨_, _, rfl, rfl, rfl⟩, rfl⟩⟩

/-- Claim C19, amended: let the base address of the client be `scheme://host` followed by a path
of plain segments (possibly none), with a host that is not empty, let the environment join
paths to it as `url.JoinPath` does and build requests as `http.NewRequestWithContext` does,
and let every argument be a plain segment: not empty, made of letters, digits and the
characters `-._~$&+,:;=@`, and neither `.` nor `..`.  Then each wrapper with a required
argument calls `doRequest` with the formatted relative path, and `doRequest` hands to
`HTTPClient.Do` a `GET` request whose URL is the base address followed by that relative
path, unchanged; the outcome of `doRequest` is what the rest of its code makes of the answer
of `HTTPClient.Do` to that request. -/
theorem C19_plain_arguments_join_unchanged (c : Client) (ctx : Context)
    (scheme host : GoString) (bs : List GoString) (hhost : host ≠ [])
    (hb : ∀ s ∈ bs, plainSegment s = true)
    (hbase : c.BaseURL = address scheme host (pathOf bs)) :
    (∀ (env : Env ProductResponse) (p : GoString),
      env.JoinsFrom scheme host (pathOf bs) → env.BuildsRequests → plainSegment p = true →
      c.GetProduct env ctx p
        = wrapResult (c.doRequest env ctx MethodGet ("/products/".toList ++ p)
            ProductResponse.zero) ∧
      ∃ req, c.Sends env ctx MethodGet ("/products/".toList ++ p) req ∧
        req.Method = MethodGet ∧ req.URL = c.BaseURL ++ ("/products/".toList ++ p) ∧
        ∀ result, c.doRequest env ctx MethodGet ("/products/".toList ++ p) result
          = c.afterDo env result (c.HTTPClient.Do req)) ∧
    (∀ (env : Env ProductReleaseResponse) (p r : GoString),
      env.JoinsFrom scheme host (pathOf bs) → env.BuildsRequests → plainSegment p = true →
      plainSegment r = true →
      c.GetRelease env ctx p r
        = wrapResult (c.doRequest env ctx MethodGet
            ("/products/".toList ++ p ++ "/releases/".toList ++ r)
            ProductReleaseResponse.zero) ∧
      ∃ req, c.Sends env ctx MethodGet
          ("/products/".toList ++ p ++ "/releases/".toList ++ r) req ∧
        req.Method = MethodGet ∧
        req.URL = c.BaseURL ++ ("/products/".toList ++ p ++ "/releases/".toList ++ r) ∧
        ∀ result, c.doRequest env ctx MethodGet
            ("/products/".toList ++ p ++ "/releases/".toList ++ r) result
          = c.afterDo env result (c.HTTPClient.Do req)) ∧
    (∀ (env : Env ProductReleaseResponse) (p : GoString),
      env.JoinsFrom scheme host (pathOf bs) → env.BuildsRequests → plainSegment p = true →
      c.GetLatestRelease env ctx p
        = wrapResult (c.doRequest env ctx MethodGet
            ("/products/".toList ++ p ++ "/releases/latest".toList)
            ProductReleaseResponse.zero) ∧
      ∃ req, c.Sends env ctx MethodGet
          ("/products/".toList ++ p ++ "/releases/latest".toList) req ∧
        req.Method = MethodGet ∧
        req.URL = c.BaseURL ++ ("/products/".toList ++ p ++ "/releases/latest".toList) ∧
        ∀ result, c.doRequest env ctx MethodGet
            ("/products/".toList ++ p ++ "/releases/latest".toList) result
          = c.afterDo env result (c.HTTPClient.Do req)) ∧
    (∀ (env : Env ProductListResponse) (p : GoString),
      env.JoinsFrom scheme host (pathOf bs) → env.BuildsRequests → plainSegment p = true →
      c.GetCategoryProducts env ctx p
        = wrapResult (c.doRequest env ctx MethodGet ("/categories/".toList ++ p)
            ProductListResponse.zero) ∧
      ∃ req, c.Sends env ctx MethodGet ("/categories/".toList ++ p) req ∧
        req.Method = MethodGet ∧ req.URL = c.BaseURL ++ ("/categories/".toList ++ p) ∧
        ∀ result, c.doRequest env ctx MethodGet ("/categories/".toList ++ p) result
          = c.afterDo env result (c.HTTPClient.Do req)) ∧
    (∀ (env : Env ProductListResponse) (p : GoString),
      env.JoinsFrom scheme host (pathOf bs) → env.BuildsRequests → plainSegment p = true →
      c.GetTagProducts env ctx p
        = wrapResult (c.doRequest env ctx MethodGet ("/tags/".toList ++ p)
            ProductListResponse.zero) ∧
      ∃ req, c.Sends env ctx MethodGet ("/tags/".toList ++ p) req ∧
        req.Method = MethodGet ∧ req.URL = c.BaseURL ++ ("/tags/".toList ++ p) ∧
        ∀ result, c.doRequest env ctx MethodGet ("/tags/".toList ++ p) result
          = c.afterDo env result (c.HTTPClient.Do req)) ∧
    (∀ (env : Env IdentifierListResponse) (p : GoString),
      env.JoinsFrom scheme host (pathOf bs) → env.BuildsRequests → plainSegment p = true →
      c.GetIdentifierDetails env ctx p
        = wrapResult (c.doRequest env ctx MethodGet ("/identifiers/".toList ++ p)
            IdentifierListResponse.zero) ∧
      ∃ req, c.Sends env ctx MethodGet ("/identifiers/".toList ++ p) req ∧
        req.Method = MethodGet ∧ req.URL = c.BaseURL ++ ("/identifiers/".toList ++ p) ∧
        ∀ result, c.doRequest env ctx MethodGet ("/identifiers/".toList ++ p) result
          = c.afterDo env result (c.HTTPClient.Do req)) := by
  have hw := wrappers_unfold c ctx
  have hne : ∀ p : GoString, plainSegment p = true → p ≠ [] :=
    fun p h => ((plainSegment_iff p).1 h).1
  refine ⟨?_, ?_, ?_, ?_, ?_, ?_⟩
  · intro env p hj hbuild hp
    exact ⟨hw.2.2.2.1 env p (hne p hp),
      Sends_one c env ctx scheme host bs "products".toList p hbase hj hbuild hhost hb
        (by decide) hp⟩
  · intro env p r hj hbuild hp hr
    refine ⟨hw.2.2.2.2.1 env p r (hne p hp) (hne r hr), ?_⟩
    have h := Sends_three c env ctx scheme host bs "products".toList p "releases".toList r
      hbase hj hbuild hhost hb (by decide) hp (by decide) hr
    have e : "/products/".toList ++ p ++ "/releases/".toList ++ r
        = '/' :: "products".toList ++ '/' :: p ++ '/' :: "releases".toList ++ '/' :: r := by
      simp
    rw [e]
    exact h
  · intro env p hj hbuild hp
    refine ⟨hw.2.2.2.2.2.1 env p (hne p hp), ?_⟩
    have h := Sends_three c env ctx scheme host bs "products".toList p "releases".toList
      "latest".toList hbase hj hbuild hhost hb (by decide) hp (by decide) (by decide)
    have e : "/products/".toList ++ p ++ "/releases/latest".toList
        = '/' :: "products".toList ++ '/' :: p ++ '/' :: "releases".toList
          ++ '/' :: "latest".toList := by
      simp
    rw [e]
    exact h
  · intro env p hj hbuild hp
    exact ⟨hw.2.2.2.2.2.2.2.1 env p (hne p hp),
      Sends_one c env ctx scheme host bs "categories".toList p hbase hj hbuild hhost hb
        (by decide) hp⟩
  · intro env p hj hbuild hp
    exact ⟨hw.2.2.2.2.2.2.2.2.2.1 env p (hne p hp),
      Sends_one c env ctx scheme host bs "tags".toList p hbase hj hbuild hhost hb
        (by decide) hp⟩
  · intro env p hj hbuild hp
    exact ⟨hw.2.2.2.2.2.2.2.2.2.2.2 env p (hne p hp),
      Sends_one c env ctx scheme host bs "identifiers".toList p hbase hj hbuild hhost hb
        (by decide) hp⟩

/-- Witness for C19: the default client asks for release `3.12` of `python`, as in
`TestGetRelease`, and for the product `c++`, with the default base address
`https://endoflife.date/api/v1`. -/
theorem C19_plain_arguments_join_unchanged_witness :
    "endoflife.date".toList ≠ [] ∧
    (∀ s ∈ ["api".toList, "v1".toList], plainSegment s = true) ∧
    (NewClient (fun _ => .ok (responseOf 200 emptyHeader))).BaseURL
      = address "https".toList "endoflife.date".toList (pathOf ["api".toList, "v1".toList]) ∧
    plainSegment "python".toList = true ∧ plainSegment "3.12".toList = true ∧
    plainSegment "c++".toList = true ∧
    (∃ req, (NewClient (fun _ => .ok (responseOf 200 emptyHeader))).Sends
        (libraryEnv "https".toList "endoflife.date".toList "/api/v1".toList
          (fun _ (r : ProductReleaseResponse) => (r, none)))
        background MethodGet "/products/python/releases/3.12".toList req ∧
      req.Method = MethodGet ∧
      req.URL = "https://endoflife.date/api/v1/products/python/releases/3.12".toList ∧
      ∀ result, (NewClient (fun _ => .ok (responseOf 200 emptyHeader))).doRequest
          (libraryEnv "https".toList "endoflife.date".toList "/api/v1".toList
            (fun _ (r : ProductReleaseResponse) => (r, none)))
          background MethodGet "/products/python/releases/3.12".toList result
        = (NewClient (fun _ => .ok (responseOf 200 emptyHeader))).afterDo
          (libraryEnv "https".toList "endoflife.date".toList "/api/v1".toList
            (fun _ (r : ProductReleaseResponse) => (r, none)))
          result ((NewClient (fun _ => .ok (responseOf 200 emptyHeader))).HTTPClient.Do req)) :=
  ⟨by decide, by decide, rfl, by decide, by decide, by decide,
    ((C19_plain_arguments_join_unchanged
      (NewClient (fun _ => .ok (responseOf 200 emptyHeader))) background
      "https".toList "endoflife.date".toList ["api".toList, "v1".toList]
      (by decide) (by decide) rfl).2.1
      (libraryEnv "https".toList "endoflife.date".toList "/api/v1".toList
        (fun _ (r : ProductReleaseResponse) => (r, none)))
      "python".toList "3.12".toList
      (libraryEnv_JoinsFrom _ _ _ _) (libraryEnv_BuildsRequests _ _ _ _)
      (by decide) (by decide)).2⟩

end PathClaims

/-! ## The claim on decoding a release -/

section DecodeClaims

open GoJSON GoTime GoStrconv

/-- Claim C22 fails as stated when a date is formatted back with `String`: the object whose
`eolFrom` is the valid date string `0001-01-01` decodes without error, `eolFrom` is present,
and `String` of it is the empty string, not `0001-01-01`; `Format("2006-01-02")` does give
`0001-01-01`. -/
theorem C22_counterexample_year_one :
    validDate "0001-01-01".toList = true ∧
    unquote "\"0001-01-01\"".toList = some "0001-01-01".toList ∧
    (ProductRelease.UnmarshalObject
      [("eolFrom".toList, .literal "\"0001-01-01\"".toList)] ProductRelease.zero).2 = none ∧
    ∃ d : Date, (ProductRelease.UnmarshalObject
        [("eolFrom".toList, .literal "\"0001-01-01\"".toList)] ProductRelease.zero).1.EOLFrom
        = some d ∧
      d.String = [] ∧ d.String ≠ "0001-01-01".toList ∧
      d.Time.Format = "0001-01-01".toList :=
  ⟨by decide, by decide, rfl, _, rfl, rfl, by decide, by decide⟩

/-- Claim C22, amended: for every JSON object decoded without error into a fresh
`ProductRelease`, where the value of a field is the value of the last member of the object
that the decoder gives to the field: each of `ltsFrom`, `eoasFrom`, `eolFrom`,
`discontinuedFrom` and `eoesFrom` is nil when the object has no member for it or its value is
`null`, and is a non-nil date that `Format("2006-01-02")` writes as `s`, and `String` too
unless `s` is `0001-01-01`, when its value is a string literal for a valid date `s`; `latest`
is nil when the object has no member for it or its value is `null`, and when its value is an
object it is a non-nil record whose `date` follows the same rule for a valid date string, and
the same rule for absence when the object has one member for `latest`; `releaseDate` is what
`Date.UnmarshalJSON` makes of its value, so it formats as `s` for a valid date `s`.  For
every object, a member for one of these date fields, or for `date` inside a `latest` object,
whose value is a string literal for a non-empty text that is not a valid date makes the
decoding return an error. -/
theorem C22_release_optional_fields (members : List (GoString × Node)) :
    (∀ f : ReleaseField, f.isOptionalDate = true →
      (ProductRelease.UnmarshalObject members ProductRelease.zero).2 = none →
      ((lastValue releaseFields f members = none ∨
          lastValue releaseFields f members = some nullNode) →
        (ProductRelease.UnmarshalObject members ProductRelease.zero).1.optionalDate f = none) ∧
      (∀ text s, lastValue releaseFields f members = some (.literal text) →
        unquote text = some s → validDate s = true →
        ∃ d, (ProductRelease.UnmarshalObject members ProductRelease.zero).1.optionalDate f
            = some d ∧ d.Time.Format = s ∧ (s ≠ "0001-01-01".toList → d.String = s))) ∧
    ((ProductRelease.UnmarshalObject members ProductRelease.zero).2 = none →
      ((lastValue releaseFields .latest members = none ∨
          lastValue releaseFields .latest members = some nullNode) →
        (ProductRelease.UnmarshalObject members ProductRelease.zero).1.Latest = none) ∧
      (∀ ms, lastValue releaseFields .latest members = some (.object ms) →
        ∃ pv, (ProductRelease.UnmarshalObject members ProductRelease.zero).1.Latest = some pv ∧
          ∀ text s, lastValue versionFields .date ms = some (.literal text) →
            unquote text = some s → validDate s = true →
            ∃ d, pv.Date = some d ∧ d.Time.Format = s ∧
              (s ≠ "0001-01-01".toList → d.String = s)) ∧
      (∀ ms, valuesOf releaseFields .latest members = [.object ms] →
        ∃ pv, (ProductRelease.UnmarshalObject members ProductRelease.zero).1.Latest = some pv ∧
          ((lastValue versionFields .date ms = none ∨
              lastValue versionFields .date ms = some nullNode) → pv.Date = none))) ∧
    ((ProductRelease.UnmarshalObject members ProductRelease.zero).2 = none →
      (∀ n, lastValue releaseFields .releaseDate members = some n →
        ∃ d0 : Date, (d0.UnmarshalJSON n.text).2 = none ∧
          (ProductRelease.UnmarshalObject members ProductRelease.zero).1.ReleaseDate
            = (d0.UnmarshalJSON n.text).1) ∧
      (∀ text s, lastValue releaseFields .releaseDate members = some (.literal text) →
        unquote text = some s → validDate s = true →
        (ProductRelease.UnmarshalObject members ProductRelease.zero).1.ReleaseDate.Time.Format
          = s ∧
        (s ≠ "0001-01-01".toList →
          (ProductRelease.UnmarshalObject members ProductRelease.zero).1.ReleaseDate.String
            = s))) ∧
    (∀ k text s f, (k, Node.literal text) ∈ members → lookupField releaseFields k = some f →
      (f.isOptionalDate = true ∨ f = .releaseDate) →
      unquote text = some s → s ≠ [] → validDate s = false →
      (ProductRelease.UnmarshalObject members ProductRelease.zero).2 ≠ none) ∧
    (∀ k ms k1 text s, (k, Node.object ms) ∈ members →
      lookupField releaseFields k = some .latest →
      (k1, Node.literal text) ∈ ms → lookupField versionFields k1 = some .date →
      unquote text = some s → s ≠ [] → validDate s = false →
      (ProductRelease.UnmarshalObject members ProductRelease.zero).2 ≠ none) := by
  refine ⟨?_, ?_, ?_, ?_, ?_⟩
  · intro f hf hok
    obtain ⟨hab, hres⟩ := UnmarshalObject_ok members _ hok
    have key := decodeMembers_last releaseFields ProductRelease.store f
      (fun r => r.optionalDate f)
      (fun n a => (n = nullNode → a = none) ∧
        (∀ text s, n = .literal text → unquote text = some s → validDate s = true →
          ∃ d : Date, a = some d ∧ d.Time.Format = s ∧
            (s ≠ "0001-01-01".toList → d.String = s)))
      (fun g v n s hg => store_other_optionalDate f g hg v n s)
      (fun v n s _ => by
        beta_reduce
        rw [(store_optionalDate f hf v n s).1]
        exact storeDatePointer_rule (v.optionalDate f) n s)
      members ProductRelease.zero none hab
    beta_reduce at key
    rw [hres]
    refine ⟨fun h => ?_, fun text s hl hu hv => ?_⟩
    · rcases h with h | h
      · rw [key.1 h]
        cases f <;> rfl
      · exact (key.2 _ h).1 rfl
    · exact (key.2 _ hl).2 text s rfl hu hv
  · intro hok
    obtain ⟨hab, hres⟩ := UnmarshalObject_ok members _ hok
    have key := decodeMembers_last releaseFields ProductRelease.store .latest
      (fun r => r.Latest)
      (fun n a => (n = nullNode → a = none) ∧
        (∀ ms, n = .object ms → ∃ pv : ProductVersion, a = some pv ∧
          ∀ text s, lastValue versionFields .date ms = some (.literal text) →
            unquote text = some s → validDate s = true →
            ∃ d : Date, pv.Date = some d ∧ d.Time.Format = s ∧
              (s ≠ "0001-01-01".toList → d.String = s)))
      (fun g v n s hg => store_other_Latest g hg v n s)
      (fun v n s hno => by
        refine ⟨fun hn => ?_, fun ms hn => ?_⟩
        · rw [hn]; rfl
        · subst hn
          have e : (ProductRelease.store v .latest (.object ms) s).1.Latest
              = (storeVersionPointer v.Latest (.object ms) s).1 := rfl
          have e2 : (ProductRelease.store v .latest (.object ms) s).2.2
              = (storeVersionPointer v.Latest (.object ms) s).2.2 := rfl
          rw [e2, storeVersionPointer_object_eq] at hno
          beta_reduce
          rw [e, storeVersionPointer_object_eq]
          refine ⟨_, rfl, fun text str hl hu hv => ?_⟩
          exact ((version_date_rule ms _ s hno).2 _ hl).2 text str rfl hu hv)
      members ProductRelease.zero none hab
    beta_reduce at key
    rw [hres]
    refine ⟨fun h => ?_, fun ms hl => (key.2 _ hl).2 ms rfl, fun ms hval => ?_⟩
    · rcases h with h | h
      · rw [key.1 h]; rfl
      · exact (key.2 _ h).1 rfl
    · obtain ⟨v1, s1, h1, h2, h3⟩ := decodeMembers_single releaseFields ProductRelease.store
        .latest (fun r => r.Latest) (fun g v n s hg => store_other_Latest g hg v n s)
        members ProductRelease.zero none (.object ms) hval hab
      have hnone : v1.Latest = none := h1
      have e : (ProductRelease.store v1 .latest (.object ms) s1).1.Latest
          = (storeVersionPointer v1.Latest (.object ms) s1).1 := rfl
      have e2 : (ProductRelease.store v1 .latest (.object ms) s1).2.2
          = (storeVersionPointer v1.Latest (.object ms) s1).2.2 := rfl
      rw [e2, storeVersionPointer_object_eq, hnone] at h2
      rw [h3, e, storeVersionPointer_object_eq, hnone]
      refine ⟨_, rfl, fun h => ?_⟩
      have rule := version_date_rule ms _ s1 h2
      rcases h with h | h
      · rw [rule.1 h]; rfl
      · exact (rule.2 _ h).1 rfl
  · intro hok
    obtain ⟨hab, hres⟩ := UnmarshalObject_ok members _ hok
    have key := decodeMembers_last releaseFields ProductRelease.store .releaseDate
      (fun r => r.ReleaseDate)
      (fun n a => ∃ d0 : Date, (d0.UnmarshalJSON n.text).2 = none ∧
        a = (d0.UnmarshalJSON n.text).1)
      (fun g v n s hg => store_other_ReleaseDate g hg v n s)
      (fun v n s h => ⟨v.ReleaseDate, h, rfl⟩)
      members ProductRelease.zero none hab
    beta_reduce at key
    rw [hres]
    refine ⟨fun n hl => key.2 n hl, fun text s hl hu hv => ?_⟩
    obtain ⟨d0, -, h2⟩ := key.2 _ hl
    obtain ⟨t, ht, hfmt⟩ := storeDate_valid d0 text s hu hv
    unfold storeDate at ht
    rw [h2, ht]
    exact ⟨hfmt, Date_String_of_Format t s hfmt⟩
  · intro k text s f hm hl hf hu hne hv
    apply UnmarshalObject_abort
    apply decodeMembers_abort releaseFields ProductRelease.store
      (fun f n => (f.isOptionalDate = true ∨ f = .releaseDate) ∧
        ∃ text s, n = .literal text ∧ unquote text = some s ∧ s ≠ [] ∧ validDate s = false)
    · rintro g v n sv ⟨hg, text1, s1, rfl, h1, h2, h3⟩
      rcases hg with hg | hg
      · rw [(store_optionalDate g hg v _ sv).2]
        exact storeDatePointer_malformed _ sv text1 s1 h1 h2 h3
      · subst hg
        exact storeDate_malformed v.ReleaseDate text1 s1 h1 h2 h3
    · exact ⟨(k, .literal text), hm, f, hl, hf, text, s, rfl, hu, hne, hv⟩
  · intro k ms k1 text s hm hl hm1 hl1 hu hne hv
    apply UnmarshalObject_abort
    apply decodeMembers_abort releaseFields ProductRelease.store
      (fun f n => f = .latest ∧ ∃ ms, n = .object ms ∧
        ∃ k text str, (k, Node.literal text) ∈ ms ∧ lookupField versionFields k = some .date ∧
          unquote text = some str ∧ str ≠ [] ∧ validDate str = false)
    · rintro g v n sv ⟨rfl, ms1, rfl, hbad⟩
      have e2 : (ProductRelease.store v .latest (.object ms1) sv).2.2
          = (storeVersionPointer v.Latest (.object ms1) sv).2.2 := rfl
      rw [e2, storeVersionPointer_object_eq]
      exact version_date_malformed ms1 _ sv hbad
    · exact ⟨(k, .object ms), hm, .latest, hl, rfl, ms, rfl, k1, text, s, hm1, hl1, hu, hne, hv⟩

/-- Witness for C22: the input of `TestProductRelease_UnmarshalJSON` decodes without error and
its `eolFrom`, the string `2028-10-01`, is present and formats back as `2028-10-01`. -/
theorem C22_release_optional_fields_witness :
    ReleaseField.isOptionalDate .eolFrom = true ∧
    (ProductRelease.UnmarshalObject testReleaseInput ProductRelease.zero).2 = none ∧
    lastValue releaseFields .eolFrom testReleaseInput
      = some (.literal "\"2028-10-01\"".toList) ∧
    unquote "\"2028-10-01\"".toList = some "2028-10-01".toList ∧
    validDate "2028-10-01".toList = true ∧
    ∃ d, (ProductRelease.UnmarshalObject testReleaseInput ProductRelease.zero).1.optionalDate
        .eolFrom = some d ∧ d.Time.Format = "2028-10-01".toList ∧
      ("2028-10-01".toList ≠ "0001-01-01".toList → d.String = "2028-10-01".toList) :=
  ⟨by decide, rfl, rfl, by decide, by decide,
    ((C22_release_optional_fields testReleaseInput).1 .eolFrom (by decide) rfl).2
      "\"2028-10-01\"".toList "2028-10-01".toList rfl (by decide) (by decide)⟩

end DecodeClaims

/-! ## The claim on the round trip of a response -/

section RoundTripClaims

open GoJSON GoTime GoStrconv GoHTTP

set_option maxRecDepth 100000

/-- Claim C15 fails as stated: the release response whose release date is January 15, 2024
at noon is a value of a response shape; its JSON encoding writes the date as `2024-01-15`;
the server answers 200 with that encoding as body, which `json.Unmarshal` scans and decodes,
and `GetRelease` returns no error and a result whose release date is January 15, 2024 at
midnight, which is not the date of the value. -/
theorem C15_counterexample_time_of_day :
    noonRelease.encode.text =
      ("\x7b\"schema_version\":\"\",\"result\":\x7b\"name\":\"\",\"label\":\"\"," ++
        "\"releaseDate\":\"2024-01-15\",\"isLts\":false,\"isEoas\":false,\"isEol\":false," ++
        "\"isDiscontinued\":false,\"isMaintained\":false\x7d\x7d").toList ∧
    (setupTestServer (jsonResponse noonRelease.encode.text)).Serves
      (testEnv (GoJSON.Unmarshal ProductReleaseResponse.Unmarshal)) background
      "/products/python/releases/3.12".toList ProductReleaseResponse.Unmarshal
      noonRelease.encode ∧
    (∃ w, (setupTestServer (jsonResponse noonRelease.encode.text)).GetRelease
        (testEnv (GoJSON.Unmarshal ProductReleaseResponse.Unmarshal))
        background "python".toList "3.12".toList = (some w, none) ∧
      w.Result.ReleaseDate = ⟨GoTime.Date 2024 1 15⟩ ∧
      w.Result.ReleaseDate ≠ noonRelease.Result.ReleaseDate) :=
  ⟨rfl,
    ⟨rfl, jsonResponse noonRelease.encode.text, [],
      testClient_Receives _ _ MethodGet _, rfl,
      congrArg Except.ok (List.append_nil noonRelease.encode.text).symm, rfl⟩,
    _, rfl, by decide, by decide⟩

/-- Claim C15, amended: for every value `v` of one of the shapes `URIListResponse`,
`ProductListResponse` and `IdentifierListResponse`, whose strings are sequences of Unicode
characters and whose total is a 64-bit `int`, and every JSON encoding `n` of `v` (the object
with the members of the shape in the order of its fields, `generated_at` left out when it is
empty, strings as string literals that decode to them, the total in decimal digits, a slice
as `null` or as an array), of which the encoding `json.Marshal` writes is one: when the
server answers the request of a wrapper for that shape with status 200 and the text of `n`
as body, followed by white space or by nothing, `doRequest` returns no error and leaves the
value `v` in the result, and the wrapper (`GetIndex`, `GetCategories`, `GetTags`,
`GetIdentifiers`; `GetProducts`, `GetCategoryProducts`, `GetTagProducts`;
`GetIdentifierDetails`, the last three with an argument that is not empty) returns a non-nil
result equal to `v` and a nil error. -/
theorem C15_list_shapes_roundtrip :
    (∀ v : URIListResponse, EncodesURIList v v.encode) ∧
    (∀ v : ProductListResponse, EncodesProductList v v.encode) ∧
    (∀ v : IdentifierListResponse, EncodesIdentifierList v v.encode) ∧
    (∀ (c : Client) (env : Env URIListResponse) (ctx : Context) (v : URIListResponse)
        (n : Node), fitsInt v.Total → EncodesURIList v n →
      (c.Serves env ctx "/".toList URIListResponse.Unmarshal n →
        c.doRequest env ctx MethodGet "/".toList URIListResponse.zero = (v, none) ∧
        c.GetIndex env ctx = (some v, none)) ∧
      (c.Serves env ctx "/categories".toList URIListResponse.Unmarshal n →
        c.doRequest env ctx MethodGet "/categories".toList URIListResponse.zero = (v, none) ∧
        c.GetCategories env ctx = (some v, none)) ∧
      (c.Serves env ctx "/tags".toList URIListResponse.Unmarshal n →
        c.doRequest env ctx MethodGet "/tags".toList URIListResponse.zero = (v, none) ∧
        c.GetTags env ctx = (some v, none)) ∧
      (c.Serves env ctx "/identifiers".toList URIListResponse.Unmarshal n →
        c.doRequest env ctx MethodGet "/identifiers".toList URIListResponse.zero = (v, none) ∧
        c.GetIdentifiers env ctx = (some v, none))) ∧
    (∀ (c : Client) (env : Env ProductListResponse) (ctx : Context) (v : ProductListResponse)
        (n : Node), fitsInt v.Total → EncodesProductList v n →
      (c.Serves env ctx "/products".toList ProductListResponse.Unmarshal n →
        c.doRequest env ctx MethodGet "/products".toList ProductListResponse.zero
          = (v, none) ∧
        c.GetProducts env ctx = (some v, none)) ∧
      (∀ name : GoString, name ≠ [] →
        c.Serves env ctx ("/categories/".toList ++ name) ProductListResponse.Unmarshal n →
        c.doRequest env ctx MethodGet ("/categories/".toList ++ name)
            ProductListResponse.zero = (v, none) ∧
        c.GetCategoryProducts env ctx name = (some v, none)) ∧
      (∀ name : GoString, name ≠ [] →
        c.Serves env ctx ("/tags/".toList ++ name) ProductListResponse.Unmarshal n →
        c.doRequest env ctx MethodGet ("/tags/".toList ++ name)
            ProductListResponse.zero = (v, none) ∧
        c.GetTagProducts env ctx name = (some v, none))) ∧
    (∀ (c : Client) (env : Env IdentifierListResponse) (ctx : Context)
        (v : IdentifierListResponse) (n : Node), fitsInt v.Total →
      EncodesIdentifierList v n →
      ∀ kind : GoString, kind ≠ [] →
        c.Serves env ctx ("/identifiers/".toList ++ kind) IdentifierListResponse.Unmarshal n →
        c.doRequest env ctx MethodGet ("/identifiers/".toList ++ kind)
            IdentifierListResponse.zero = (v, none) ∧
        c.GetIdentifierDetails env ctx kind = (some v, none)) := by
  refine ⟨EncodesURIList_encode, EncodesProductList_encode, EncodesIdentifierList_encode,
    ?_, ?_, ?_⟩
  · intro c env ctx v n hv hn
    refine ⟨fun hs => ?_, fun hs => ?_, fun hs => ?_, fun hs => ?_⟩
    · have h := URIList_served c env ctx _ v n hv hn hs
      exact ⟨h, by unfold Client.GetIndex; rw [h]; rfl⟩
    · have h := URIList_served c env ctx _ v n hv hn hs
      exact ⟨h, by unfold Client.GetCategories; rw [h]; rfl⟩
    · have h := URIList_served c env ctx _ v n hv hn hs
      exact ⟨h, by unfold Client.GetTags; rw [h]; rfl⟩
    · have h := URIList_served c env ctx _ v n hv hn hs
      exact ⟨h, by unfold Client.GetIdentifiers; rw [h]; rfl⟩
  · intro c env ctx v n hv hn
    refine ⟨fun hs => ?_, fun name hne hs => ?_, fun name hne hs => ?_⟩
    · have h := ProductList_served c env ctx _ v n hv hn hs
      exact ⟨h, by unfold Client.GetProducts; rw [h]; rfl⟩
    · have h := ProductList_served c env ctx _ v n hv hn hs
      refine ⟨h, ?_⟩
      unfold Client.GetCategoryProducts
      rw [if_neg hne]
      simp only []
      rw [h]
      rfl
    · have h := ProductList_served c env ctx _ v n hv hn hs
      refine ⟨h, ?_⟩
      unfold Client.GetTagProducts
      rw [if_neg hne]
      simp only []
      rw [h]
      rfl
  · intro c env ctx v n hv hn kind hne hs
    have h := IdentifierList_served c env ctx _ v n hv hn hs
    refine ⟨h, ?_⟩
    unfold Client.GetIdentifierDetails
    rw [if_neg hne]
    simp only []
    rw [h]
    rfl

/-- Witness for C15: the index of `TestGetIndex`, the products of `TestGetProducts` and the
identifiers of `TestGetIdentifierDetails`, each served by the test server as
`json.NewEncoder(w).Encode` writes it, with a newline behind the encoding. -/
theorem C15_list_shapes_roundtrip_witness :
    (fitsInt testIndex.Total ∧ EncodesURIList testIndex testIndex.encode ∧
      encodedLine testIndex.encode =
        ("\x7b\"schema_version\":\"1.2.0\",\"total\":3,\"result\":[" ++
          "\x7b\"name\":\"products\",\"uri\":\"/api/v1/products\"\x7d," ++
          "\x7b\"name\":\"categories\",\"uri\":\"/api/v1/categories\"\x7d," ++
          "\x7b\"name\":\"tags\",\"uri\":\"/api/v1/tags\"\x7d]\x7d\n").toList ∧
      (setupTestServer (jsonResponse (encodedLine testIndex.encode))).Serves
        (testEnv (GoJSON.Unmarshal URIListResponse.Unmarshal)) background "/".toList
        URIListResponse.Unmarshal testIndex.encode ∧
      (setupTestServer (jsonResponse (encodedLine testIndex.encode))).GetIndex
        (testEnv (GoJSON.Unmarshal URIListResponse.Unmarshal)) background
        = (some testIndex, none)) ∧
    (fitsInt testProducts.Total ∧ EncodesProductList testProducts testProducts.encode ∧
      "lang".toList ≠ [] ∧
      (setupTestServer (jsonResponse (encodedLine testProducts.encode))).Serves
        (testEnv (GoJSON.Unmarshal ProductListResponse.Unmarshal)) background
        ("/categories/".toList ++ "lang".toList) ProductListResponse.Unmarshal
        testProducts.encode ∧
      (setupTestServer (jsonResponse (encodedLine testProducts.encode))).GetCategoryProducts
        (testEnv (GoJSON.Unmarshal ProductListResponse.Unmarshal)) background "lang".toList
        = (some testProducts, none)) ∧
    (fitsInt testIdentifiers.Total ∧
      EncodesIdentifierList testIdentifiers testIdentifiers.encode ∧
      "purl".toList ≠ [] ∧
      (setupTestServer (jsonResponse (encodedLine testIdentifiers.encode))).Serves
        (testEnv (GoJSON.Unmarshal IdentifierListResponse.Unmarshal)) background
        ("/identifiers/".toList ++ "purl".toList) IdentifierListResponse.Unmarshal
        testIdentifiers.encode ∧
      (setupTestServer (jsonResponse (encodedLine testIdentifiers.encode))).GetIdentifierDetails
        (testEnv (GoJSON.Unmarshal IdentifierListResponse.Unmarshal)) background
        "purl".toList = (some testIdentifiers, none)) :=
  have s1 : (setupTestServer (jsonResponse (encodedLine testIndex.encode))).Serves
      (testEnv (GoJSON.Unmarshal URIListResponse.Unmarshal)) background "/".toList
      URIListResponse.Unmarshal testIndex.encode :=
    ⟨rfl, _, ['\n'], testClient_Receives _ _ MethodGet _, rfl, rfl, rfl⟩
  have s2 : (setupTestServer (jsonResponse (encodedLine testProducts.encode))).Serves
      (testEnv (GoJSON.Unmarshal ProductListResponse.Unmarshal)) background
      ("/categories/".toList ++ "lang".toList) ProductListResponse.Unmarshal
      testProducts.encode :=
    ⟨rfl, _, ['\n'], testClient_Receives _ _ MethodGet _, rfl, rfl, rfl⟩
  have s3 : (setupTestServer (jsonResponse (encodedLine testIdentifiers.encode))).Serves
      (testEnv (GoJSON.Unmarshal IdentifierListResponse.Unmarshal)) background
      ("/identifiers/".toList ++ "purl".toList) IdentifierListResponse.Unmarshal
      testIdentifiers.encode :=
    ⟨rfl, _, ['\n'], testClient_Receives _ _ MethodGet _, rfl, rfl, rfl⟩
  have f1 : fitsInt testIndex.Total := by unfold fitsInt; decide
  have f2 : fitsInt testProducts.Total := by unfold fitsInt; decide
  have f3 : fitsInt testIdentifiers.Total := by unfold fitsInt; decide
  ⟨⟨f1, C15_list_shapes_roundtrip.1 testIndex, rfl, s1,
      ((C15_list_shapes_roundtrip.2.2.2.1 _ _ background testIndex testIndex.encode f1
        (C15_list_shapes_roundtrip.1 testIndex)).1 s1).2⟩,
    ⟨f2, C15_list_shapes_roundtrip.2.1 testProducts, by decide, s2,
      ((C15_list_shapes_roundtrip.2.2.2.2.1 _ _ background testProducts testProducts.encode f2
        (C15_list_shapes_roundtrip.2.1 testProducts)).2.1 "lang".toList (by decide) s2).2⟩,
    ⟨f3, C15_list_shapes_roundtrip.2.2.1 testIdentifiers, by decide, s3,
      (C15_list_shapes_roundtrip.2.2.2.2.2 _ _ background testIdentifiers
        testIdentifiers.encode f3 (C15_list_shapes_roundtrip.2.2.1 testIdentifiers)
        "purl".toList (by decide) s3).2⟩⟩

end RoundTripClaims


end Endoflife
